import Mathlib

/-!
Shallow embedding of the RBTreeArray contiguous-memory red-black tree
(RBTreeArrayCXX) together with a verification of its specification claims.

Modelling conventions:
* Machine integers (such as the index type and the 64-bit counters) are
  modelled as `Nat`, with an explicit `% 2 ^ w` exactly where the C code
  masks (`size & MaxNodeCount`) or truncates (index-width conversion).
* Keys and values are modelled as `Int`; the key type of the template only
  needs strict comparison.
* The backing allocation is a `List Node` of length `size`.  Reserved slots
  hold `defaultNode`; the C code leaves their link fields unconstructed and
  never reads them before writing them.
* Every loop of the C code is modelled with an explicit fuel parameter and
  an `Option` result; `none` models non-termination of the loop, which is
  shown not to occur on well-formed trees.
* `malloc` success is modelled by explicit boolean parameters exactly where
  a claim depends on the failure path; elsewhere allocation is assumed to
  succeed.
-/

namespace RBTreeArray

/-- `MaxNodeCount` of the template for bit length `w` (all-ones index value,
the NIL sentinel). -/
def MaxNodeCount (w : Nat) : Nat := 2 ^ w - 1

/-- `Color::Red = 0` as stored in the 32-bit `color` field. -/
def Color.Red : Nat := 0

/-- `Color::Black = 1` as stored in the 32-bit `color` field. -/
def Color.Black : Nat := 1

/-- `LeastNodeCount = 256`, the default construction size. -/
def LeastNodeCount : Nat := 256

/-- One slot of the node array (`struct RBTreeNode`). -/
structure Node where
  fatherIndex : Nat
  leftIndex : Nat
  rightIndex : Nat
  color : Nat
  key : Int
  value : Int
  deriving Repr, DecidableEq

/-- Contents of a reserved (not-live) slot.  The C code default-constructs
only `key` and `value` there and never reads the link fields of a reserved
slot before writing them. -/
def defaultNode : Node :=
  { fatherIndex := 0, leftIndex := 0, rightIndex := 0, color := 0, key := 0, value := 0 }

/-- The header plus node array (`struct RBTree`): `nodeCount` live pairs,
`rootIndex`, allocation `size`, `bitLength`, and the slots themselves. -/
structure RBTree where
  nodeCount : Nat
  rootIndex : Nat
  size : Nat
  bitLength : Nat
  nodes : List Node
  deriving Repr, DecidableEq

/-- Read slot `i` (`nodes[i]`). -/
def getN (t : RBTree) (i : Nat) : Node := t.nodes.getD i defaultNode

/-- Write slot `i` wholesale. -/
def setN (t : RBTree) (i : Nat) (n : Node) : RBTree := { t with nodes := t.nodes.set i n }

/-- `nodes[i].fatherIndex = v`. -/
def setFather (t : RBTree) (i v : Nat) : RBTree := setN t i { getN t i with fatherIndex := v }

/-- `nodes[i].leftIndex = v`. -/
def setLeft (t : RBTree) (i v : Nat) : RBTree := setN t i { getN t i with leftIndex := v }

/-- `nodes[i].rightIndex = v`. -/
def setRight (t : RBTree) (i v : Nat) : RBTree := setN t i { getN t i with rightIndex := v }

/-- `nodes[i].color = v`. -/
def setColor (t : RBTree) (i v : Nat) : RBTree := setN t i { getN t i with color := v }

/-- `nodes[i].key = k`. -/
def setKey (t : RBTree) (i : Nat) (k : Int) : RBTree := setN t i { getN t i with key := k }

/-- `nodes[i].value = v`. -/
def setValue (t : RBTree) (i : Nat) (v : Int) : RBTree := setN t i { getN t i with value := v }

/-- `KeyCount()`. -/
def KeyCount (t : RBTree) : Nat := t.nodeCount

/-- `ArraySize()`. -/
def ArraySize (t : RBTree) : Nat := t.size

/-- `CreateSize(size)`: allocate a fresh empty tree.  `size & MaxNodeCount`
is `% 2 ^ w` because the mask is all ones.  Allocation is assumed to
succeed here; call sites that depend on allocation failure take an explicit
flag. -/
def CreateSize (w : Nat) (size0 : Nat) : RBTree :=
  let size1 := if size0 = 0 then 1 else size0
  let sz := size1 % 2 ^ w
  { nodeCount := 0, rootIndex := 0, size := sz, bitLength := w,
    nodes := List.replicate sz defaultNode }

/-- The sized constructor `RBTreeArray(uint64_t size)`: throws
`std::out_of_range` when `size > MaxNodeCount`, otherwise `CreateSize`. -/
def RBTreeArraySized (w : Nat) (size : Nat) : Except String RBTree :=
  if size > MaxNodeCount w then
    Except.error "RBTreeArray: attempt to create RBTreeArray with this size has exceed its capacity"
  else
    Except.ok (CreateSize w size)

/-- The default constructor `RBTreeArray()`, delegating to the sized
constructor with `LeastNodeCount`. -/
def RBTreeArrayDefault (w : Nat) : Except String RBTree := RBTreeArraySized w LeastNodeCount

/-- `Clear()`: reset the counters without releasing memory.  (For
non-fundamental payload types the C code also re-default-constructs every
key and value; payloads are fundamental here and are left untouched, as in
the C code.) -/
def Clear (t : RBTree) : RBTree := { t with nodeCount := 0, rootIndex := 0 }

/-- `TreeInformationAssign`: copy `nodeCount` and `rootIndex`. -/
def TreeInformationAssign (destination source : RBTree) : RBTree :=
  { destination with nodeCount := source.nodeCount, rootIndex := source.rootIndex }

/-- One converted slot of `NodeAssign`: the three link indices are converted
to the destination index type (truncation `% 2 ^ wd`); color, key and value
are copied. -/
def convertNode (wd : Nat) (s : Node) : Node :=
  { fatherIndex := s.fatherIndex % 2 ^ wd, leftIndex := s.leftIndex % 2 ^ wd,
    rightIndex := s.rightIndex % 2 ^ wd, color := s.color, key := s.key, value := s.value }

/-- `NodeAssign(destination, source, count, move)`: the loop writing
`destination[i] = convert(source[i])` for `i < count`.  Move and copy agree
on the modelled payloads. -/
def NodeAssign (wd : Nat) (destNodes srcNodes : List Node) (count : Nat) : List Node :=
  (List.range count).foldl
    (fun acc i => acc.set i (convertNode wd (srcNodes.getD i defaultNode))) destNodes

/-- `Assign(destination, source, move)`: bounds check, slot conversion by
the source bit length, then `TreeInformationAssign`.  Returns the C return
value alongside the updated destination. -/
def Assign (wd : Nat) (destination source : RBTree) : Bool × RBTree :=
  if source.nodeCount > destination.size then (false, destination)
  else if source.bitLength = 16 ∨ source.bitLength = 32 ∨ source.bitLength = 64 then
    (true, TreeInformationAssign
      { destination with nodes := NodeAssign wd destination.nodes source.nodes source.nodeCount }
      source)
  else (false, destination)

/-- `Transform(another)` on a target of bit length `w`.  `allocOk` models
whether the `CreateSize` call in the growth branch succeeds.  Note the code
branches on the source `ArraySize()` (capacity), not on its `KeyCount()`,
and ignores the result of `Assign` in the first branch. -/
def Transform (w : Nat) (allocOk : Bool) (t another : RBTree) : Bool × RBTree :=
  if another.size ≤ t.size then (true, (Assign w t another).2)
  else if another.size < MaxNodeCount w then
    if allocOk then
      let newTree := CreateSize w another.size
      (true, (Assign w newTree another).2)
    else (false, t)
  else (false, t)

/-- `NodeCreate(fatherIndex, key, value)`: grow (doubling, clamped to
`MaxNodeCount`) when full, then construct the new node at position
`nodeCount` and return its index; returns `MaxNodeCount` without a write
when the array is full at maximum size.  The doubling `size << 1` is 64-bit
arithmetic. -/
def NodeCreate (w : Nat) (t : RBTree) (fatherIndex : Nat) (key value : Int) :
    RBTree × Nat :=
  let nodeCount := t.nodeCount
  if nodeCount = t.size ∧ t.size = MaxNodeCount w then (t, MaxNodeCount w)
  else
    let t :=
      if nodeCount = t.size then
        let size2 := (t.size * 2) % 2 ^ 64
        let size3 := if size2 > MaxNodeCount w then MaxNodeCount w else size2
        (Assign w (CreateSize w size3) t).2
      else t
    let t := setN t nodeCount
      { fatherIndex := fatherIndex, leftIndex := MaxNodeCount w,
        rightIndex := MaxNodeCount w, color := Color.Red, key := key, value := value }
    ({ t with nodeCount := t.nodeCount + 1 }, t.nodeCount)

/-- `GetRouteCase`: 0 = RR, 1 = RL, 2 = LR, 3 = LL. -/
def GetRouteCase (t : RBTree) (curIdx fIdx gIdx : Nat) : Nat :=
  if (getN t gIdx).leftIndex = fIdx then
    if (getN t fIdx).leftIndex = curIdx then 3 else 2
  else
    if (getN t fIdx).leftIndex = curIdx then 1 else 0

/-- The recoloring at the shared `redUncle` label of `InsertCore`:
grandfather red, both of its children black. -/
def redUncleRecolor (t : RBTree) (gIdx : Nat) : RBTree :=
  let t := setColor t gIdx Color.Red
  let t := setColor t (getN t gIdx).leftIndex Color.Black
  setColor t (getN t gIdx).rightIndex Color.Black

/-- Case RR of `InsertCore`: single left rotation around the grandfather
with recoloring. -/
def insertCaseRR (w root0 : Nat) (t : RBTree) (curIdx fIdx gIdx : Nat) : RBTree :=
  let M := MaxNodeCount w
  let t1 := setRight t gIdx (getN t fIdx).leftIndex
  let t2 := if (getN t1 gIdx).rightIndex ≠ M then
      setFather t1 (getN t1 gIdx).rightIndex gIdx else t1
  let t3 := setLeft t2 fIdx gIdx
  let ggIdx := (getN t3 gIdx).fatherIndex
  let t4 := setFather t3 gIdx fIdx
  let t5 := setFather t4 fIdx ggIdx
  let t6 :=
    if gIdx = root0 then { t5 with rootIndex := fIdx }
    else if (getN t5 ggIdx).leftIndex = gIdx then setLeft t5 ggIdx fIdx
    else setRight t5 ggIdx fIdx
  let t7 := setColor t6 fIdx Color.Black
  setColor t7 gIdx Color.Red

/-- Case RL of `InsertCore`: double rotation, new local root `curIdx`. -/
def insertCaseRL (w root0 : Nat) (t : RBTree) (curIdx fIdx gIdx : Nat) : RBTree :=
  let M := MaxNodeCount w
  let t1 := setLeft t fIdx (getN t curIdx).rightIndex
  let t2 := if (getN t1 fIdx).leftIndex ≠ M then
      setFather t1 (getN t1 fIdx).leftIndex fIdx else t1
  let t3 := setRight t2 gIdx (getN t2 curIdx).leftIndex
  let t4 := if (getN t3 gIdx).rightIndex ≠ M then
      setFather t3 (getN t3 gIdx).rightIndex gIdx else t3
  let t5 := setLeft t4 curIdx gIdx
  let t6 := setRight t5 curIdx fIdx
  let ggIdx := (getN t6 gIdx).fatherIndex
  let t7 := setFather t6 curIdx ggIdx
  let t8 := setFather t7 fIdx curIdx
  let t9 := setFather t8 gIdx curIdx
  let t10 :=
    if gIdx = root0 then { t9 with rootIndex := curIdx }
    else if (getN t9 ggIdx).leftIndex = gIdx then setLeft t9 ggIdx curIdx
    else setRight t9 ggIdx curIdx
  let t11 := setColor t10 curIdx Color.Black
  setColor t11 gIdx Color.Red

/-- Case LR of `InsertCore`. -/
def insertCaseLR (w root0 : Nat) (t : RBTree) (curIdx fIdx gIdx : Nat) : RBTree :=
  let M := MaxNodeCount w
  let t1 := setRight t fIdx (getN t curIdx).leftIndex
  let t2 := if (getN t1 fIdx).rightIndex ≠ M then
      setFather t1 (getN t1 fIdx).rightIndex fIdx else t1
  let t3 := setLeft t2 gIdx (getN t2 curIdx).rightIndex
  let t4 := if (getN t3 gIdx).leftIndex ≠ M then
      setFather t3 (getN t3 gIdx).leftIndex gIdx else t3
  let t5 := setLeft t4 curIdx fIdx
  let t6 := setRight t5 curIdx gIdx
  let ggIdx := (getN t6 gIdx).fatherIndex
  let t7 := setFather t6 curIdx ggIdx
  let t8 := setFather t7 fIdx curIdx
  let t9 := setFather t8 gIdx curIdx
  let t10 :=
    if gIdx = root0 then { t9 with rootIndex := curIdx }
    else if (getN t9 ggIdx).leftIndex = gIdx then setLeft t9 ggIdx curIdx
    else setRight t9 ggIdx curIdx
  let t11 := setColor t10 curIdx Color.Black
  setColor t11 gIdx Color.Red

/-- Case LL of `InsertCore`: single right rotation around the grandfather
with recoloring. -/
def insertCaseLL (w root0 : Nat) (t : RBTree) (curIdx fIdx gIdx : Nat) : RBTree :=
  let M := MaxNodeCount w
  let t1 := setLeft t gIdx (getN t fIdx).rightIndex
  let t2 := if (getN t1 gIdx).leftIndex ≠ M then
      setFather t1 (getN t1 gIdx).leftIndex gIdx else t1
  let t3 := setRight t2 fIdx gIdx
  let ggIdx := (getN t3 gIdx).fatherIndex
  let t4 := setFather t3 fIdx ggIdx
  let t5 := setFather t4 gIdx fIdx
  let t6 :=
    if root0 = gIdx then { t5 with rootIndex := fIdx }
    else if (getN t5 ggIdx).leftIndex = gIdx then setLeft t5 ggIdx fIdx
    else setRight t5 ggIdx fIdx
  let t7 := setColor t6 fIdx Color.Black
  setColor t7 gIdx Color.Red

/-- `InsertCore(firstNode, root, current, father, grandfather)`: the fixup
loop after a leaf insertion.  `root0` is the root index captured by
`Insert` before the call (the C `root` pointer).  The red-uncle test reads
the grandfather's left child for route cases RR and RL and its right child
for LR and LL, exactly as in the four C cases.  Returns the C boolean,
with fuel for the recolor loop. -/
def InsertCore (w : Nat) (root0 : Nat) : RBTree → Nat → Nat → Nat → Nat →
    Option (Bool × RBTree)
  | _, _, _, _, 0 => none
  | t, curIdx, fIdx, gIdx, fuel + 1 =>
    let M := MaxNodeCount w
    if (getN t curIdx).color = Color.Red ∧ (getN t fIdx).color = Color.Red then
      let rc := GetRouteCase t curIdx fIdx gIdx
      let uncleRed : Bool :=
        if rc = 0 ∨ rc = 1 then
          decide ((getN t gIdx).leftIndex ≠ M ∧
            (getN t (getN t gIdx).leftIndex).color = Color.Red)
        else
          decide ((getN t gIdx).rightIndex ≠ M ∧
            (getN t (getN t gIdx).rightIndex).color = Color.Red)
      if uncleRed then
        let t2 := redUncleRecolor t gIdx
        let cur2 := (getN t2 (getN t2 curIdx).fatherIndex).fatherIndex
        if cur2 = t2.rootIndex ∨ (getN t2 cur2).fatherIndex = t2.rootIndex then
          some (true, setColor t2 t2.rootIndex Color.Black)
        else
          InsertCore w root0 t2 cur2 ((getN t2 cur2).fatherIndex)
            ((getN t2 (getN t2 cur2).fatherIndex).fatherIndex) fuel
      else
        match rc with
        | 0 => some (true, insertCaseRR w root0 t curIdx fIdx gIdx)
        | 1 => some (true, insertCaseRL w root0 t curIdx fIdx gIdx)
        | 2 => some (true, insertCaseLR w root0 t curIdx fIdx gIdx)
        | 3 => some (true, insertCaseLL w root0 t curIdx fIdx gIdx)
        | _ => some (false, t)
    else some (true, t)

/-- The BST descent loop of `Insert`: either overwrite the value of an
equal key, or create the node and return its index for the fixup, or report
a full tree. -/
def insertLoop (w : Nat) : RBTree → Int → Int → Nat → Nat →
    Option (Bool × RBTree × Option Nat)
  | _, _, _, _, 0 => none
  | t, key, value, curIdx, fuel + 1 =>
    let M := MaxNodeCount w
    let cur := getN t curIdx
    if key > cur.key then
      if cur.rightIndex = M then
        if t.nodeCount = M then some (false, t, none)
        else
          let p := NodeCreate w t curIdx key value
          let t1 := setRight p.1 curIdx p.2
          some (true, t1, some p.2)
      else insertLoop w t key value cur.rightIndex fuel
    else if key < cur.key then
      if cur.leftIndex = M then
        if t.nodeCount = M then some (false, t, none)
        else
          let p := NodeCreate w t curIdx key value
          let t1 := setLeft p.1 curIdx p.2
          some (true, t1, some p.2)
      else insertLoop w t key value cur.leftIndex fuel
    else
      some (true, setValue t curIdx value, none)

/-- `Insert(key, value)`: empty-tree root creation, BST descent, then the
`InsertCore` fixup when the new leaf has a grandfather. -/
def Insert (w : Nat) (t : RBTree) (key value : Int) (fuel : Nat) :
    Option (Bool × RBTree) :=
  let M := MaxNodeCount w
  if t.nodeCount = 0 then
    let p := NodeCreate w t M key value
    let t1 := { p.1 with rootIndex := p.2 }
    some (true, setColor t1 p.2 Color.Black)
  else
    match insertLoop w t key value t.rootIndex fuel with
    | none => none
    | some (ok, t1, none) => some (ok, t1)
    | some (_, t1, some newIdx) =>
      let fIdx := (getN t1 newIdx).fatherIndex
      if (getN t1 fIdx).fatherIndex ≠ M then
        InsertCore w t1.rootIndex t1 newIdx fIdx ((getN t1 fIdx).fatherIndex) fuel
      else some (true, t1)

/-- `FatherBrotherGrandFatherUpdate(toMoveIndex, toDeleteIndex, ...)`:
rewrite whichever of the three held indices (father, brother, grandfather)
equals the compacted-away slot, then the `checkRoot` fixup.  At most the
first match is rewritten, as in the unwound C loop. -/
def FatherBrotherGrandFatherUpdate (t : RBTree) (toMoveIndex toDeleteIndex : Nat)
    (fIdx bIdx gIdx : Nat) : RBTree × Nat × Nat × Nat :=
  let checkRoot : RBTree :=
    if t.rootIndex = toMoveIndex then { t with rootIndex := toDeleteIndex } else t
  if fIdx = toMoveIndex then (checkRoot, toDeleteIndex, bIdx, gIdx)
  else if bIdx = toMoveIndex then (checkRoot, fIdx, toDeleteIndex, gIdx)
  else if gIdx = toMoveIndex then (checkRoot, fIdx, bIdx, toDeleteIndex)
  else (t, fIdx, bIdx, gIdx)

/-- `DeleteNode(nodes, father, toDeleteIndex, indexes, nodesToUpdate)`:
unlink `toDeleteIndex` from `parentIdx`, then compact by moving the last
live slot into the hole, rewriting the moved slot's parent link (or the
root index), the held father/brother/grandfather indices, and the moved
slot's children's parent links; finally decrement the live count.  The
`deleteIndex` out-parameter of the C code is ignored by every caller and is
not modelled. -/
def DeleteNode (w : Nat) (t : RBTree) (parentIdx toDeleteIndex : Nat)
    (fIdx bIdx gIdx : Nat) : RBTree × Nat × Nat × Nat :=
  let M := MaxNodeCount w
  let t :=
    if (getN t parentIdx).leftIndex = toDeleteIndex then setLeft t parentIdx M
    else setRight t parentIdx M
  let toMove := t.nodeCount - 1
  if toMove ≠ toDeleteIndex then
    let t :=
      if toMove ≠ t.rootIndex then
        let p := (getN t toMove).fatherIndex
        if (getN t p).leftIndex = toMove then setLeft t p toDeleteIndex
        else setRight t p toDeleteIndex
      else { t with rootIndex := toDeleteIndex }
    let s := FatherBrotherGrandFatherUpdate t toMove toDeleteIndex fIdx bIdx gIdx
    let t := s.1
    let fIdx := s.2.1
    let bIdx := s.2.2.1
    let gIdx := s.2.2.2
    let t := if (getN t toMove).leftIndex ≠ M then
        setFather t (getN t toMove).leftIndex toDeleteIndex else t
    let t := if (getN t toMove).rightIndex ≠ M then
        setFather t (getN t toMove).rightIndex toDeleteIndex else t
    let t := setN t toDeleteIndex (getN t toMove)
    ({ t with nodeCount := t.nodeCount - 1 }, fIdx, bIdx, gIdx)
  else ({ t with nodeCount := t.nodeCount - 1 }, fIdx, bIdx, gIdx)

/-- Delete case RR: the brother (right of the father) is black with a red
right child; left rotation around the father. -/
def deleteCaseRR (w : Nat) (t : RBTree) (fIdx bIdx gIdx : Nat) : RBTree :=
  let M := MaxNodeCount w
  let t1 := setColor t (getN t bIdx).rightIndex Color.Black
  let t2 := setColor t1 bIdx (getN t1 fIdx).color
  let t3 := setColor t2 fIdx Color.Black
  let t4 := setRight t3 fIdx (getN t3 bIdx).leftIndex
  let t5 := if (getN t4 fIdx).rightIndex ≠ M then
      setFather t4 (getN t4 fIdx).rightIndex fIdx else t4
  let t6 := setLeft t5 bIdx fIdx
  let t7 := setFather t6 fIdx bIdx
  let t8 := setFather t7 bIdx gIdx
  if t8.rootIndex = fIdx then { t8 with rootIndex := bIdx }
  else if (getN t8 gIdx).leftIndex = fIdx then setLeft t8 gIdx bIdx
  else setRight t8 gIdx bIdx

/-- Delete case RL: black brother with a red left child; double rotation
raising that child. -/
def deleteCaseRL (w : Nat) (t : RBTree) (fIdx bIdx gIdx : Nat) : RBTree :=
  let M := MaxNodeCount w
  let lc := (getN t bIdx).leftIndex
  let t1 := setColor t lc (getN t fIdx).color
  let t2 := setColor t1 fIdx Color.Black
  let t3 := setRight t2 fIdx (getN t2 lc).leftIndex
  let t4 := if (getN t3 fIdx).rightIndex ≠ M then
      setFather t3 (getN t3 fIdx).rightIndex fIdx else t3
  let t5 := setLeft t4 lc fIdx
  let t6 := setFather t5 fIdx lc
  let t7 := setFather t6 lc gIdx
  let t8 :=
    if t7.rootIndex = fIdx then { t7 with rootIndex := lc }
    else if (getN t7 gIdx).leftIndex = fIdx then setLeft t7 gIdx lc
    else setRight t7 gIdx lc
  let t9 := setLeft t8 bIdx (getN t8 lc).rightIndex
  let t10 := if (getN t9 bIdx).leftIndex ≠ M then
      setFather t9 (getN t9 bIdx).leftIndex bIdx else t9
  let t11 := setRight t10 lc bIdx
  setFather t11 bIdx lc

/-- Delete case LL: mirror of case RR. -/
def deleteCaseLL (w : Nat) (t : RBTree) (fIdx bIdx gIdx : Nat) : RBTree :=
  let M := MaxNodeCount w
  let t1 := setColor t (getN t bIdx).leftIndex Color.Black
  let t2 := setColor t1 bIdx (getN t1 fIdx).color
  let t3 := setColor t2 fIdx Color.Black
  let t4 := setLeft t3 fIdx (getN t3 bIdx).rightIndex
  let t5 := if (getN t4 fIdx).leftIndex ≠ M then
      setFather t4 (getN t4 fIdx).leftIndex fIdx else t4
  let t6 := setRight t5 bIdx fIdx
  let t7 := setFather t6 fIdx bIdx
  let t8 := setFather t7 bIdx gIdx
  if t8.rootIndex = fIdx then { t8 with rootIndex := bIdx }
  else if (getN t8 gIdx).leftIndex = fIdx then setLeft t8 gIdx bIdx
  else setRight t8 gIdx bIdx

/-- Delete case LR: mirror of case RL. -/
def deleteCaseLR (w : Nat) (t : RBTree) (fIdx bIdx gIdx : Nat) : RBTree :=
  let M := MaxNodeCount w
  let rc := (getN t bIdx).rightIndex
  let t1 := setColor t rc (getN t fIdx).color
  let t2 := setColor t1 fIdx Color.Black
  let t3 := setRight t2 bIdx (getN t2 rc).leftIndex
  let t4 := if (getN t3 bIdx).rightIndex ≠ M then
      setFather t3 (getN t3 bIdx).rightIndex bIdx else t3
  let t5 := setLeft t4 rc bIdx
  let t6 := setFather t5 bIdx rc
  let t7 := setFather t6 rc gIdx
  let t8 :=
    if t7.rootIndex = fIdx then { t7 with rootIndex := rc }
    else if (getN t7 gIdx).leftIndex = fIdx then setLeft t7 gIdx rc
    else setRight t7 gIdx rc
  let t9 := setLeft t8 fIdx (getN t8 rc).rightIndex
  let t10 := if (getN t9 fIdx).leftIndex ≠ M then
      setFather t9 (getN t9 fIdx).leftIndex fIdx else t9
  let t11 := setRight t10 rc fIdx
  setFather t11 fIdx rc

/-- Red brother, left half: recolor and left rotation around the father
before re-entering the loop. -/
def deleteRedBrotherL (w : Nat) (t : RBTree) (fIdx bIdx gIdx : Nat) : RBTree :=
  let M := MaxNodeCount w
  let t1 := setColor t bIdx Color.Black
  let t2 := setColor t1 fIdx Color.Red
  let t3 := setRight t2 fIdx (getN t2 bIdx).leftIndex
  let t4 := if (getN t3 fIdx).rightIndex ≠ M then
      setFather t3 (getN t3 fIdx).rightIndex fIdx else t3
  let t5 := setFather t4 fIdx bIdx
  let t6 := setLeft t5 bIdx fIdx
  let t7 := setFather t6 bIdx gIdx
  if t7.rootIndex = fIdx then { t7 with rootIndex := bIdx }
  else if (getN t7 gIdx).leftIndex = fIdx then setLeft t7 gIdx bIdx
  else setRight t7 gIdx bIdx

/-- Red brother, right half: mirror of the left half. -/
def deleteRedBrotherR (w : Nat) (t : RBTree) (fIdx bIdx gIdx : Nat) : RBTree :=
  let M := MaxNodeCount w
  let t1 := setColor t bIdx Color.Black
  let t2 := setColor t1 fIdx Color.Red
  let t3 := setLeft t2 fIdx (getN t2 bIdx).rightIndex
  let t4 := if (getN t3 fIdx).leftIndex ≠ M then
      setFather t3 (getN t3 fIdx).leftIndex fIdx else t3
  let t5 := setFather t4 fIdx bIdx
  let t6 := setRight t5 bIdx fIdx
  let t7 := setFather t6 bIdx gIdx
  if t7.rootIndex = fIdx then { t7 with rootIndex := bIdx }
  else if (getN t7 gIdx).leftIndex = fIdx then setLeft t7 gIdx bIdx
  else setRight t7 gIdx bIdx

/-- The `doubleBlackFix` loop of `DeleteCore`.  `curIdx` is the slot
holding the double black, `fIdx` its father; `deleted` records whether the
target slot has already been removed (each removal case calls `DeleteNode`
only when it has not).  The brother and grandfather indices are recomputed
at each loop entry, exactly as in the C code; the shared
`brotherChildBothBlack` goto target is inlined in both symmetric halves. -/
def deleteFix (w : Nat) : RBTree → Nat → Nat → Bool → Nat → Option RBTree
  | _, _, _, _, 0 => none
  | t, curIdx, fIdx, deleted, fuel + 1 =>
    let M := MaxNodeCount w
    let gIdx := (getN t fIdx).fatherIndex
    if (getN t fIdx).leftIndex = curIdx then
      let bIdx := (getN t fIdx).rightIndex
      if (getN t bIdx).color = Color.Black then
        if (getN t bIdx).rightIndex ≠ M ∧
            (getN t (getN t bIdx).rightIndex).color = Color.Red then
          let s := if deleted then (t, fIdx, bIdx, gIdx)
            else DeleteNode w t fIdx ((getN t fIdx).leftIndex) fIdx bIdx gIdx
          some (deleteCaseRR w s.1 s.2.1 s.2.2.1 s.2.2.2)
        else if (getN t bIdx).leftIndex ≠ M ∧
            (getN t (getN t bIdx).leftIndex).color = Color.Red then
          let s := if deleted then (t, fIdx, bIdx, gIdx)
            else DeleteNode w t fIdx ((getN t fIdx).leftIndex) fIdx bIdx gIdx
          some (deleteCaseRL w s.1 s.2.1 s.2.2.1 s.2.2.2)
        else
          let s := if deleted then (t, fIdx, bIdx, gIdx)
            else DeleteNode w t fIdx ((getN t fIdx).leftIndex) fIdx bIdx gIdx
          -- brotherChildBothBlack (shared goto target)
          let t1 := setColor s.1 s.2.2.1 Color.Red
          if t1.rootIndex = s.2.1 then some t1
          else if (getN t1 s.2.1).color = Color.Red then
            some (setColor t1 s.2.1 Color.Black)
          else deleteFix w t1 s.2.1 ((getN t1 s.2.1).fatherIndex) true fuel
      else
        deleteFix w (deleteRedBrotherL w t fIdx bIdx gIdx) curIdx fIdx deleted fuel
    else
      let bIdx := (getN t fIdx).leftIndex
      if (getN t bIdx).color = Color.Black then
        if (getN t bIdx).leftIndex ≠ M ∧
            (getN t (getN t bIdx).leftIndex).color = Color.Red then
          let s := if deleted then (t, fIdx, bIdx, gIdx)
            else DeleteNode w t fIdx ((getN t fIdx).rightIndex) fIdx bIdx gIdx
          some (deleteCaseLL w s.1 s.2.1 s.2.2.1 s.2.2.2)
        else if (getN t bIdx).rightIndex ≠ M ∧
            (getN t (getN t bIdx).rightIndex).color = Color.Red then
          let s := if deleted then (t, fIdx, bIdx, gIdx)
            else DeleteNode w t fIdx ((getN t fIdx).rightIndex) fIdx bIdx gIdx
          some (deleteCaseLR w s.1 s.2.1 s.2.2.1 s.2.2.2)
        else
          let s := if deleted then (t, fIdx, bIdx, gIdx)
            else DeleteNode w t fIdx ((getN t fIdx).rightIndex) fIdx bIdx gIdx
          -- brotherChildBothBlack (shared goto target)
          let t1 := setColor s.1 s.2.2.1 Color.Red
          if t1.rootIndex = s.2.1 then some t1
          else if (getN t1 s.2.1).color = Color.Red then
            some (setColor t1 s.2.1 Color.Black)
          else deleteFix w t1 s.2.1 ((getN t1 s.2.1).fatherIndex) true fuel
      else
        deleteFix w (deleteRedBrotherR w t fIdx bIdx gIdx) curIdx fIdx deleted fuel


/-- The BST descent loop at the head of `DeleteCore`: locate the slot
holding `key`, or report absence. -/
def deleteDescend (w : Nat) : RBTree → Int → Nat → Nat → Option (Option Nat)
  | _, _, _, 0 => none
  | t, key, curIdx, fuel + 1 =>
    let M := MaxNodeCount w
    let cur := getN t curIdx
    if key > cur.key then
      if cur.rightIndex = M then some none else deleteDescend w t key cur.rightIndex fuel
    else if key < cur.key then
      if cur.leftIndex = M then some none else deleteDescend w t key cur.leftIndex fuel
    else some (some curIdx)

/-- Follow `leftIndex` links from `curIdx` to the leftmost node of the
subtree (the `while (leftIndex != MaxNodeCount)` loops). -/
def leftmostFrom (w : Nat) : RBTree → Nat → Nat → Option Nat
  | _, _, 0 => none
  | t, curIdx, fuel + 1 =>
    if (getN t curIdx).leftIndex = MaxNodeCount w then some curIdx
    else leftmostFrom w t (getN t curIdx).leftIndex fuel

/-- Follow `rightIndex` links from `curIdx` to the rightmost node. -/
def rightmostFrom (w : Nat) : RBTree → Nat → Nat → Option Nat
  | _, _, 0 => none
  | t, curIdx, fuel + 1 =>
    if (getN t curIdx).rightIndex = MaxNodeCount w then some curIdx
    else rightmostFrom w t (getN t curIdx).rightIndex fuel

/-- The `deleteBegin` goto target of `DeleteCore`: the target slot `curIdx`
has no left child.  Either it is a leaf (red: plain removal; black: enter
the double-black fixup) or its right child's payload is copied up and that
child's slot removed. -/
def deleteBegin (w : Nat) (t : RBTree) (curIdx fIdx gIdx : Nat) (fuel : Nat) :
    Option RBTree :=
  let M := MaxNodeCount w
  if (getN t curIdx).rightIndex = M then
    if (getN t curIdx).color = Color.Red then
      let r := DeleteNode w t fIdx curIdx fIdx M gIdx
      some r.1
    else deleteFix w t curIdx fIdx false fuel
  else
    let r := (getN t curIdx).rightIndex
    let t1 := setKey t curIdx (getN t r).key
    let t2 := setValue t1 curIdx (getN t1 r).value
    let s := DeleteNode w t2 curIdx ((getN t2 curIdx).rightIndex) fIdx M gIdx
    some s.1

/-- `DeleteCore(key, deleteIndex)`: single-node fast path, BST descent,
root cases, the one-child copy-up cases, the two-children successor
redirection (`gotoRightSmallest`), and the double-black fixup.  Every found
path returns `true`. -/
def DeleteCore (w : Nat) (t : RBTree) (key : Int) (fuel : Nat) :
    Option (Bool × RBTree) :=
  let M := MaxNodeCount w
  if t.nodeCount = 1 then
    if key = (getN t t.rootIndex).key then
      some (true, { t with rootIndex := 0, nodeCount := 0 })
    else some (false, t)
  else
    match deleteDescend w t key t.rootIndex fuel with
    | none => none
    | some none => some (false, t)
    | some (some curIdx) =>
      let fIdx := (getN t curIdx).fatherIndex
      let rightSmallestPath : Option (Bool × RBTree) :=
        match leftmostFrom w t ((getN t curIdx).rightIndex) fuel with
        | none => none
        | some rs =>
          let t1 := setKey t curIdx (getN t rs).key
          let t2 := setValue t1 curIdx (getN t1 rs).value
          let fIdx2 := (getN t2 rs).fatherIndex
          let gIdx2 := (getN t2 fIdx2).fatherIndex
          (deleteBegin w t2 rs fIdx2 gIdx2 fuel).map (fun t3 => (true, t3))
      if fIdx = M then
        if (getN t curIdx).leftIndex = M then
          let r := (getN t curIdx).rightIndex
          let t1 := setKey t curIdx (getN t r).key
          let t2 := setValue t1 curIdx (getN t1 r).value
          let s := DeleteNode w t2 curIdx ((getN t2 curIdx).rightIndex) fIdx M M
          some (true, s.1)
        else if (getN t curIdx).rightIndex = M then
          let l := (getN t curIdx).leftIndex
          let t1 := setKey t curIdx (getN t l).key
          let t2 := setValue t1 curIdx (getN t1 l).value
          let s := DeleteNode w t2 curIdx ((getN t2 curIdx).leftIndex) fIdx M M
          some (true, s.1)
        else rightSmallestPath
      else
        if (getN t curIdx).leftIndex = M then
          (deleteBegin w t curIdx fIdx M fuel).map (fun t2 => (true, t2))
        else if (getN t curIdx).rightIndex = M then
          let l := (getN t curIdx).leftIndex
          let t1 := setKey t curIdx (getN t l).key
          let t2 := setValue t1 curIdx (getN t1 l).value
          let s := DeleteNode w t2 curIdx ((getN t2 curIdx).leftIndex) fIdx M M
          some (true, s.1)
        else rightSmallestPath

/-- `Delete(key)`: guard the empty tree, then `DeleteCore`. -/
def Delete (w : Nat) (t : RBTree) (key : Int) (fuel : Nat) : Option (Bool × RBTree) :=
  if t.nodeCount = 0 then some (false, t) else DeleteCore w t key fuel

/-- The descent loop of `Search`. -/
def searchLoop (w : Nat) : RBTree → Int → Nat → Nat → Option (Option Int)
  | _, _, _, 0 => none
  | t, key, curIdx, fuel + 1 =>
    let M := MaxNodeCount w
    let cur := getN t curIdx
    if key > cur.key then
      if cur.rightIndex = M then some none else searchLoop w t key cur.rightIndex fuel
    else if key < cur.key then
      if cur.leftIndex = M then some none else searchLoop w t key cur.leftIndex fuel
    else some (some cur.value)

/-- `Search(key, value)`: `some (some v)` models `return true` with `v`
stored through the out-parameter; `some none` models `return false`. -/
def Search (w : Nat) (t : RBTree) (key : Int) (fuel : Nat) : Option (Option Int) :=
  if t.nodeCount = 0 then some none
  else searchLoop w t key t.rootIndex fuel

/-- `GetMin(key, value)`: `some none` models `return false` on the empty
tree (output arguments untouched). -/
def GetMin (w : Nat) (t : RBTree) (fuel : Nat) : Option (Option (Int × Int)) :=
  if t.nodeCount = 0 then some none
  else (leftmostFrom w t t.rootIndex fuel).map
    (fun i => some ((getN t i).key, (getN t i).value))

/-- `GetMax(key, value)`. -/
def GetMax (w : Nat) (t : RBTree) (fuel : Nat) : Option (Option (Int × Int)) :=
  if t.nodeCount = 0 then some none
  else (rightmostFrom w t t.rootIndex fuel).map
    (fun i => some ((getN t i).key, (getN t i).value))

/-- `GetMinIndex(tree)` (static helper). -/
def GetMinIndex (w : Nat) (t : RBTree) (fuel : Nat) : Option Nat :=
  if t.nodeCount ≠ 0 then leftmostFrom w t t.rootIndex fuel
  else some (MaxNodeCount w)

/-- `GetMaxIndex(tree)` (static helper). -/
def GetMaxIndex (w : Nat) (t : RBTree) (fuel : Nat) : Option Nat :=
  if t.nodeCount ≠ 0 then rightmostFrom w t t.rootIndex fuel
  else some (MaxNodeCount w)

/-- The candidate-tracking descent of `IndexSmallestGraterThan`. -/
def sgtLoop (w : Nat) : RBTree → Int → Nat → Nat → Nat → Option Nat
  | _, _, _, _, 0 => none
  | t, key, curIdx, candidate, fuel + 1 =>
    let M := MaxNodeCount w
    if key < (getN t curIdx).key then
      if (getN t curIdx).leftIndex = M then some curIdx
      else sgtLoop w t key (getN t curIdx).leftIndex curIdx fuel
    else
      if (getN t curIdx).rightIndex = M then some candidate
      else sgtLoop w t key (getN t curIdx).rightIndex candidate fuel

/-- `IndexSmallestGraterThan(key)`: index of the smallest key strictly
greater than `key`, or `MaxNodeCount`. -/
def IndexSmallestGraterThan (w : Nat) (t : RBTree) (key : Int) (fuel : Nat) :
    Option Nat :=
  if t.nodeCount = 0 then some (MaxNodeCount w)
  else sgtLoop w t key t.rootIndex (MaxNodeCount w) fuel

/-- The candidate-tracking descent of `IndexBiggestSmallerThan`. -/
def bstLoop (w : Nat) : RBTree → Int → Nat → Nat → Nat → Option Nat
  | _, _, _, _, 0 => none
  | t, key, curIdx, candidate, fuel + 1 =>
    let M := MaxNodeCount w
    if key > (getN t curIdx).key then
      if (getN t curIdx).rightIndex = M then some curIdx
      else bstLoop w t key (getN t curIdx).rightIndex curIdx fuel
    else
      if (getN t curIdx).leftIndex = M then some candidate
      else bstLoop w t key (getN t curIdx).leftIndex candidate fuel

/-- `IndexBiggestSmallerThan(key)`. -/
def IndexBiggestSmallerThan (w : Nat) (t : RBTree) (key : Int) (fuel : Nat) :
    Option Nat :=
  if t.nodeCount = 0 then some (MaxNodeCount w)
  else bstLoop w t key t.rootIndex (MaxNodeCount w) fuel

/-- `GetSmallestGraterThan(key, greater, value)` [sic, the source's
spelling]. -/
def GetSmallestGraterThan (w : Nat) (t : RBTree) (key : Int) (fuel : Nat) :
    Option (Option (Int × Int)) :=
  (IndexSmallestGraterThan w t key fuel).map (fun i =>
    if i ≠ MaxNodeCount w then some ((getN t i).key, (getN t i).value) else none)

/-- `GetBiggestSmallerThan(key, smaller, value)`. -/
def GetBiggestSmallerThan (w : Nat) (t : RBTree) (key : Int) (fuel : Nat) :
    Option (Option (Int × Int)) :=
  (IndexBiggestSmallerThan w t key fuel).map (fun i =>
    if i ≠ MaxNodeCount w then some ((getN t i).key, (getN t i).value) else none)

/-- The state of an `OrderedIterator` (its tree pointer is carried
separately; iterators of the same tree compare by these three fields). -/
structure OrderedIterator where
  currentIndex : Nat
  reachedEnd : Bool
  reachedBegin : Bool
  deriving Repr, DecidableEq

/-- `OrderedEnd()`: index `MaxNodeCount`, `reachedEnd` set. -/
def OrderedEndIter (w : Nat) : OrderedIterator :=
  { currentIndex := MaxNodeCount w, reachedEnd := true, reachedBegin := false }

/-- `OrderedBegin()`: the minimum node, or `OrderedEnd()` on an empty
tree. -/
def OrderedBeginIter (w : Nat) (t : RBTree) (fuel : Nat) : Option OrderedIterator :=
  if t.nodeCount = 0 then some (OrderedEndIter w)
  else (GetMinIndex w t fuel).map
    (fun i => { currentIndex := i, reachedEnd := false, reachedBegin := false })

/-- The climb of the successor walk: go up while the current node is its
father's right child; `some none` means the walk ran off the root. -/
def succClimb (w : Nat) : RBTree → Nat → Nat → Option (Option Nat)
  | _, _, 0 => none
  | t, curIdx, fuel + 1 =>
    if (getN t curIdx).fatherIndex = MaxNodeCount w then some none
    else if (getN t (getN t curIdx).fatherIndex).rightIndex ≠ curIdx then
      some (some (getN t curIdx).fatherIndex)
    else succClimb w t (getN t curIdx).fatherIndex fuel

/-- `OrderedIterator::operator++`. -/
def OrderedIteratorInc (w : Nat) (t : RBTree) (it : OrderedIterator) (fuel : Nat) :
    Option OrderedIterator :=
  if t.nodeCount ≠ 0 then
    if it.reachedBegin then
      (GetMinIndex w t fuel).map (fun i => { it with currentIndex := i, reachedBegin := false })
    else if it.currentIndex ≠ MaxNodeCount w then
      if (getN t it.currentIndex).rightIndex ≠ MaxNodeCount w then
        (leftmostFrom w t ((getN t it.currentIndex).rightIndex) fuel).map
          (fun i => { it with currentIndex := i })
      else
        (succClimb w t it.currentIndex fuel).map (fun r =>
          match r with
          | none => { it with reachedEnd := true, currentIndex := MaxNodeCount w }
          | some i => { it with currentIndex := i })
    else some it
  else some it

/-- Drive the ordered cursor from `it` for at most `steps` increments,
collecting the visited `(key, value)` pairs, stopping at `OrderedEnd()`. -/
def orderedVisit (w : Nat) (t : RBTree) (innerFuel : Nat) :
    OrderedIterator → Nat → Option (List (Int × Int))
  | it, 0 => if it = OrderedEndIter w then some [] else none
  | it, steps + 1 =>
    if it = OrderedEndIter w then some []
    else
      let kv := ((getN t it.currentIndex).key, (getN t it.currentIndex).value)
      match OrderedIteratorInc w t it innerFuel with
      | none => none
      | some it2 => (orderedVisit w t innerFuel it2 steps).map (fun l => kv :: l)

/-- The counting pre-pass of `ConditionalDelete`: the number of live slots
satisfying the predicate. -/
def condCount (p : Int → Int → Bool) (t : RBTree) : Nat :=
  ((List.range t.nodeCount).filter (fun i => p (getN t i).key (getN t i).value)).length

/-- The scratch array of `ConditionalDelete`: the live slot indices whose
pair does not satisfy the predicate, in slot order. -/
def notToDeleteList (p : Int → Int → Bool) (t : RBTree) : List Nat :=
  (List.range t.nodeCount).filter (fun i => !(p (getN t i).key (getN t i).value))

/-- First pass of the sparse tier: slot-order scan with direct deletes; the
loop bound `KeyCount()` is re-evaluated every iteration. -/
def sparsePass1 (w : Nat) (p : Int → Int → Bool) (df : Nat) :
    RBTree → Nat → Nat → Nat → Option (Nat × RBTree)
  | _, _, _, 0 => none
  | t, idx, deleted, fuel + 1 =>
    if idx < t.nodeCount then
      if p (getN t idx).key (getN t idx).value then
        match DeleteCore w t (getN t idx).key df with
        | none => none
        | some (ok, t2) =>
          sparsePass1 w p df t2 (idx + 1) (deleted + if ok then 1 else 0) fuel
      else sparsePass1 w p df t (idx + 1) deleted fuel
    else some (deleted, t)

/-- Second pass of the sparse tier: delete each materialized key. -/
def deleteKeys (w : Nat) (df : Nat) : RBTree → List Int → Nat → Option (Nat × RBTree)
  | t, [], deleted => some (deleted, t)
  | t, k :: ks, deleted =>
    match DeleteCore w t k df with
    | none => none
    | some (ok, t2) => deleteKeys w df t2 ks (deleted + if ok then 1 else 0)

/-- The `normalDelete` (medium) tier: key-order walk with delete-by-key and
successor recomputation by `IndexSmallestGraterThan`. -/
def mediumLoop (w : Nat) (p : Int → Int → Bool) (df : Nat) :
    RBTree → Nat → Nat → Nat → Option (Nat × RBTree)
  | _, _, _, 0 => none
  | t, index, deleted, fuel + 1 =>
    let M := MaxNodeCount w
    if index ≠ M then
      if p (getN t index).key (getN t index).value then
        let deletedKey := (getN t index).key
        match DeleteCore w t (getN t index).key df with
        | none => none
        | some (ok, t2) =>
          match IndexSmallestGraterThan w t2 deletedKey df with
          | none => none
          | some idx2 => mediumLoop w p df t2 idx2 (deleted + if ok then 1 else 0) fuel
      else
        if (getN t index).rightIndex ≠ M then
          match leftmostFrom w t ((getN t index).rightIndex) df with
          | none => none
          | some i2 => mediumLoop w p df t i2 deleted fuel
        else
          match succClimb w t index df with
          | none => none
          | some none => mediumLoop w p df t M deleted fuel
          | some (some i2) => mediumLoop w p df t i2 deleted fuel
    else some (deleted, t)

/-- The rebuild loop of the heavy tier: reinsert the recorded non-matching
slots of the old tree into the fresh tree. -/
def heavyLoop (w : Nat) (df : Nat) (told : RBTree) :
    RBTree → List Nat → Option RBTree
  | tnew, [] => some tnew
  | tnew, i :: rest =>
    match Insert w tnew (getN told i).key (getN told i).value df with
    | none => none
    | some (_, tnew2) => heavyLoop w df told tnew2 rest

/-- `ConditionalDelete(condition, ...)` for a pure predicate `p`.
`scratchOk` models success of the scratch-buffer `malloc`, `heavyOk`
success of the heavy tier's container allocation; either failure falls
back to the medium tier.  The comparisons of the `double` deletion rate
with 0.25 and 0.5 are modelled as exact rational comparisons (they agree
with the IEEE double comparisons for all counts below `2 ^ 54`); an empty
tree yields a NaN rate, whose comparisons are false, selecting the heavy
tier.  Returns the C return value `deleted` with the final tree. -/
def ConditionalDelete (w : Nat) (t : RBTree) (p : Int → Int → Bool)
    (scratchOk heavyOk : Bool) (df : Nat) : Option (Nat × RBTree) :=
  let mediumFrom : RBTree → Nat → Option (Nat × RBTree) := fun t0 deleted0 =>
    match GetMinIndex w t0 df with
    | none => none
    | some i0 => mediumLoop w p df t0 i0 deleted0 df
  if !scratchOk then mediumFrom t 0
  else
    let need := condCount p t
    let notTo := notToDeleteList p t
    if t.nodeCount ≠ 0 ∧ 4 * need < t.nodeCount then
      match sparsePass1 w p df t 0 0 df with
      | none => none
      | some (d1, t1) =>
        let toDelete := ((List.range t1.nodeCount).filter
          (fun i => p (getN t1 i).key (getN t1 i).value)).map (fun i => (getN t1 i).key)
        deleteKeys w df t1 toDelete d1
    else if t.nodeCount ≠ 0 ∧ 2 * need < t.nodeCount then
      mediumFrom t 0
    else
      if heavyOk then
        let newTree := CreateSize w t.size
        match heavyLoop w df t newTree notTo with
        | none => none
        | some tnew => some (t.nodeCount - tnew.nodeCount, tnew)
      else mediumFrom t 0

/-! ### Abstraction: the algebraic tree stored in the slot array -/

/-- Algebraic binary tree of slot indices, the shape abstraction of the
live region. -/
inductive BTree where
  | nil : BTree
  | node : BTree → Nat → BTree → BTree
  deriving Repr, DecidableEq

/-- Inorder slot-index listing. -/
def BTree.inorder : BTree → List Nat
  | .nil => []
  | .node l i r => l.inorder ++ i :: r.inorder

/-- Read the algebraic tree rooted at slot `i` by following the stored
links, with fuel bounding the depth. -/
def toTree (w : Nat) (t : RBTree) : Nat → Nat → Option BTree
  | 0, _ => none
  | fuel + 1, i =>
    if i = MaxNodeCount w then some .nil
    else
      match toTree w t fuel (getN t i).leftIndex, toTree w t fuel (getN t i).rightIndex with
      | some l, some r => some (.node l i r)
      | _, _ => none

/-- The whole stored tree, with the canonical fuel `nodeCount + 1`. -/
def Abs (w : Nat) (t : RBTree) (tr : BTree) : Prop :=
  toTree w t (t.nodeCount + 1) t.rootIndex = some tr

/-- Keys of an index tree, in order. -/
def inorderKeys (t : RBTree) (tr : BTree) : List Int :=
  tr.inorder.map (fun i => (getN t i).key)

/-- Key-value pairs of an index tree, in key order. -/
def inorderPairs (t : RBTree) (tr : BTree) : List (Int × Int) :=
  tr.inorder.map (fun i => ((getN t i).key, (getN t i).value))

/-- Every node's stored `fatherIndex` is its algebraic parent (`f` for the
root). -/
def parentOkB (t : RBTree) : BTree → Nat → Bool
  | .nil, _ => true
  | .node l i r, f => (getN t i).fatherIndex == f && parentOkB t l i && parentOkB t r i

/-- The structural well-formedness invariant used throughout: slot count
bounds, the header/allocation agreement, the density of the live region
(inorder indices are a permutation of `[0, nodeCount)`), strict key order,
and parent-link coherence. -/
structure Inv (w : Nat) (t : RBTree) : Prop where
  len : t.nodes.length = t.size
  countLe : t.nodeCount ≤ t.size
  sizeLe : t.size ≤ MaxNodeCount w
  sizePos : 1 ≤ t.size
  rootZero : t.nodeCount = 0 → t.rootIndex = 0
  struct : t.nodeCount ≠ 0 →
    ∃ tr, Abs w t tr ∧ tr.inorder.Perm (List.range t.nodeCount) ∧
      List.Pairwise (fun a b => a < b) (inorderKeys t tr) ∧
      parentOkB t tr (MaxNodeCount w) = true

/-- The effect of the BST descent of `Insert` on the abstract tree when the
key is absent: the new slot `n0` is grafted at the leaf position the
comparisons select (keys are read in the pre-insert state). -/
def insAbs (t : RBTree) (k : Int) (n0 : Nat) : BTree → BTree
  | .nil => .node .nil n0 .nil
  | .node l j r =>
    if k > (getN t j).key then .node l j (insAbs t k n0 r)
    else if k < (getN t j).key then .node (insAbs t k n0 l) j r
    else .node l j r

/-- States reachable from construction by the mutators named in the claim:
`Insert`, `Delete`, and `Clear`. -/
inductive Reachable (w : Nat) : RBTree → Prop where
  | create : ∀ size t, RBTreeArraySized w size = Except.ok t → Reachable w t
  | insert : ∀ t k v fuel ok t2, Reachable w t → Insert w t k v fuel = some (ok, t2) →
      Reachable w t2
  | delete : ∀ t k fuel ok t2, Reachable w t → Delete w t k fuel = some (ok, t2) →
      Reachable w t2
  | clear : ∀ t, Reachable w t → Reachable w (Clear t)

/-- A concrete well-formed three-node 16-bit tree (keys 1, 2, 3) used by
the witnesses. -/
def witnessTree : RBTree :=
  { nodeCount := 3, rootIndex := 0, size := 3, bitLength := 16,
    nodes := [
      { fatherIndex := 65535, leftIndex := 1, rightIndex := 2, color := Color.Black,
        key := 2, value := 20 },
      { fatherIndex := 0, leftIndex := 65535, rightIndex := 65535, color := Color.Red,
        key := 1, value := 10 },
      { fatherIndex := 0, leftIndex := 65535, rightIndex := 65535, color := Color.Red,
        key := 3, value := 30 }] }

/-- Executable check equivalent to `Inv`, for concrete witnesses. -/
def invCheck (w : Nat) (t : RBTree) : Bool :=
  (t.nodes.length == t.size) && (t.nodeCount ≤ t.size : Bool) &&
  (t.size ≤ MaxNodeCount w : Bool) && (1 ≤ t.size : Bool) &&
  (t.nodeCount != 0 || t.rootIndex == 0) &&
  ((t.nodeCount == 0) ||
    match toTree w t (t.nodeCount + 1) t.rootIndex with
    | none => false
    | some tr =>
      decide (tr.inorder.Perm (List.range t.nodeCount)) &&
      decide (List.Pairwise (fun a b => a < b) (inorderKeys t tr)) &&
      parentOkB t tr (MaxNodeCount w))

theorem Inv_of_invCheck {w : Nat} {t : RBTree} (h : invCheck w t = true) : Inv w t := by
  unfold invCheck at h
  simp only [Bool.and_eq_true, Bool.or_eq_true, beq_iff_eq, decide_eq_true_eq, bne_iff_ne]
    at h
  obtain ⟨⟨⟨⟨⟨h1, h2⟩, h3⟩, h4⟩, h5⟩, h6⟩ := h
  refine ⟨h1, h2, h3, h4, ?_, ?_⟩
  · intro h0
    rcases h5 with h5 | h5
    · exact absurd h0 h5
    · exact h5
  · intro hne
    rcases h6 with h6 | h6
    · exact absurd h6 hne
    · revert h6
      cases htr : toTree w t (t.nodeCount + 1) t.rootIndex with
      | none => intro h6; exact absurd h6 (by simp)
      | some tr =>
        intro h6
        simp only [Bool.and_eq_true, decide_eq_true_eq] at h6
        exact ⟨tr, htr, h6.1.1, h6.1.2, h6.2⟩

/-! ### Claim C9: the sized constructor on over-large requests -/

/-- Claim C9 — the code, evaluated at the failing input: requesting
capacity 65536 from the 16-bit-width constructor does not clamp to the
width's maximum; the constructor throws `std::out_of_range`
(`Except.error`), while the same request minus one succeeds.  This
contradicts both the claim and the constructor's own documentation
("If size >= the most size that the tree allowed, it will create
RBTreeArray with the most size that the tree allowed"). -/
theorem C9_sized_constructor_throws_at_overlarge :
    (∃ msg, RBTreeArraySized 16 65536 = Except.error msg) ∧
      (RBTreeArraySized 16 65535 = Except.ok (CreateSize 16 65535)) := by
  constructor
  · exact ⟨_, rfl⟩
  · rfl

/-! ### Claim C5: Transform failure condition -/

/-- Claim C5 — the code, evaluated at the failing input: a 32-bit source of
capacity 65535 holding zero pairs cannot be transformed into a fresh
16-bit target of capacity 256, although the source's live count (0) does
not exceed the target width's maximum (65535) and no allocation is
attempted.  `Transform` branches on the source capacity `ArraySize()`, not
on its live count, contradicting the claim and its own documentation
("Return false if the KeyCount of another tree is greater than the maximum
node number that this tree allowed or malloc failed"). -/
theorem C5_transform_fails_on_empty_large_capacity_source :
    (Transform 16 true (CreateSize 16 256) (CreateSize 32 65535)).1 = false ∧
      KeyCount (CreateSize 32 65535) = 0 ∧
      KeyCount (CreateSize 32 65535) ≤ MaxNodeCount 16 := by
  refine ⟨?_, rfl, by decide⟩
  rfl

/-! ### Header-field preservation kit -/

@[simp] theorem nodeCount_setN (t : RBTree) (i : Nat) (n : Node) :
    (setN t i n).nodeCount = t.nodeCount := rfl

@[simp] theorem rootIndex_setN (t : RBTree) (i : Nat) (n : Node) :
    (setN t i n).rootIndex = t.rootIndex := rfl

@[simp] theorem size_setN (t : RBTree) (i : Nat) (n : Node) :
    (setN t i n).size = t.size := rfl

@[simp] theorem length_setN (t : RBTree) (i : Nat) (n : Node) :
    (setN t i n).nodes.length = t.nodes.length := List.length_set ..

@[simp] theorem nodeCount_setFather (t : RBTree) (i v : Nat) :
    (setFather t i v).nodeCount = t.nodeCount := rfl

@[simp] theorem nodeCount_setLeft (t : RBTree) (i v : Nat) :
    (setLeft t i v).nodeCount = t.nodeCount := rfl

@[simp] theorem nodeCount_setRight (t : RBTree) (i v : Nat) :
    (setRight t i v).nodeCount = t.nodeCount := rfl

@[simp] theorem nodeCount_setColor (t : RBTree) (i v : Nat) :
    (setColor t i v).nodeCount = t.nodeCount := rfl

@[simp] theorem nodeCount_setKey (t : RBTree) (i : Nat) (k : Int) :
    (setKey t i k).nodeCount = t.nodeCount := rfl

@[simp] theorem nodeCount_setValue (t : RBTree) (i : Nat) (v : Int) :
    (setValue t i v).nodeCount = t.nodeCount := rfl

@[simp] theorem rootIndex_setFather (t : RBTree) (i v : Nat) :
    (setFather t i v).rootIndex = t.rootIndex := rfl

@[simp] theorem rootIndex_setLeft (t : RBTree) (i v : Nat) :
    (setLeft t i v).rootIndex = t.rootIndex := rfl

@[simp] theorem rootIndex_setRight (t : RBTree) (i v : Nat) :
    (setRight t i v).rootIndex = t.rootIndex := rfl

@[simp] theorem rootIndex_setColor (t : RBTree) (i v : Nat) :
    (setColor t i v).rootIndex = t.rootIndex := rfl

@[simp] theorem rootIndex_setKey (t : RBTree) (i : Nat) (k : Int) :
    (setKey t i k).rootIndex = t.rootIndex := rfl

@[simp] theorem rootIndex_setValue (t : RBTree) (i : Nat) (v : Int) :
    (setValue t i v).rootIndex = t.rootIndex := rfl

@[simp] theorem size_setFather (t : RBTree) (i v : Nat) :
    (setFather t i v).size = t.size := rfl

@[simp] theorem size_setLeft (t : RBTree) (i v : Nat) :
    (setLeft t i v).size = t.size := rfl

@[simp] theorem size_setRight (t : RBTree) (i v : Nat) :
    (setRight t i v).size = t.size := rfl

@[simp] theorem size_setColor (t : RBTree) (i v : Nat) :
    (setColor t i v).size = t.size := rfl

@[simp] theorem size_setKey (t : RBTree) (i : Nat) (k : Int) :
    (setKey t i k).size = t.size := rfl

@[simp] theorem size_setValue (t : RBTree) (i : Nat) (v : Int) :
    (setValue t i v).size = t.size := rfl

@[simp] theorem length_setFather (t : RBTree) (i v : Nat) :
    (setFather t i v).nodes.length = t.nodes.length := List.length_set ..

@[simp] theorem length_setLeft (t : RBTree) (i v : Nat) :
    (setLeft t i v).nodes.length = t.nodes.length := List.length_set ..

@[simp] theorem length_setRight (t : RBTree) (i v : Nat) :
    (setRight t i v).nodes.length = t.nodes.length := List.length_set ..

@[simp] theorem length_setColor (t : RBTree) (i v : Nat) :
    (setColor t i v).nodes.length = t.nodes.length := List.length_set ..

@[simp] theorem length_setKey (t : RBTree) (i : Nat) (k : Int) :
    (setKey t i k).nodes.length = t.nodes.length := List.length_set ..

@[simp] theorem length_setValue (t : RBTree) (i : Nat) (v : Int) :
    (setValue t i v).nodes.length = t.nodes.length := List.length_set ..

/-- `FatherBrotherGrandFatherUpdate` only rewrites the root index. -/
theorem FBGF_nodeCount (t : RBTree) (a b f bi g : Nat) :
    (FatherBrotherGrandFatherUpdate t a b f bi g).1.nodeCount = t.nodeCount := by
  simp only [FatherBrotherGrandFatherUpdate]
  split_ifs <;> rfl

theorem FBGF_size (t : RBTree) (a b f bi g : Nat) :
    (FatherBrotherGrandFatherUpdate t a b f bi g).1.size = t.size := by
  simp only [FatherBrotherGrandFatherUpdate]
  split_ifs <;> rfl

/-- `DeleteNode` removes exactly one live slot. -/
theorem DeleteNode_nodeCount (w : Nat) (t : RBTree) (p d f b g : Nat) :
    (DeleteNode w t p d f b g).1.nodeCount = t.nodeCount - 1 := by
  simp only [DeleteNode]
  split_ifs <;> simp [FBGF_nodeCount]

theorem DeleteNode_size (w : Nat) (t : RBTree) (p d f b g : Nat) :
    (DeleteNode w t p d f b g).1.size = t.size := by
  simp only [DeleteNode]
  split_ifs <;> simp [FBGF_size]

theorem deleteCaseRR_nodeCount (w : Nat) (t : RBTree) (f b g : Nat) :
    (deleteCaseRR w t f b g).nodeCount = t.nodeCount := by
  simp only [deleteCaseRR]; split_ifs <;> simp

theorem deleteCaseRL_nodeCount (w : Nat) (t : RBTree) (f b g : Nat) :
    (deleteCaseRL w t f b g).nodeCount = t.nodeCount := by
  simp only [deleteCaseRL]; split_ifs <;> simp

theorem deleteCaseLL_nodeCount (w : Nat) (t : RBTree) (f b g : Nat) :
    (deleteCaseLL w t f b g).nodeCount = t.nodeCount := by
  simp only [deleteCaseLL]; split_ifs <;> simp

theorem deleteCaseLR_nodeCount (w : Nat) (t : RBTree) (f b g : Nat) :
    (deleteCaseLR w t f b g).nodeCount = t.nodeCount := by
  simp only [deleteCaseLR]; split_ifs <;> simp

theorem deleteRedBrotherL_nodeCount (w : Nat) (t : RBTree) (f b g : Nat) :
    (deleteRedBrotherL w t f b g).nodeCount = t.nodeCount := by
  simp only [deleteRedBrotherL]; split_ifs <;> simp

theorem deleteRedBrotherR_nodeCount (w : Nat) (t : RBTree) (f b g : Nat) :
    (deleteRedBrotherR w t f b g).nodeCount = t.nodeCount := by
  simp only [deleteRedBrotherR]; split_ifs <;> simp

/-- Through the whole double-black loop the live count drops by one when
the target slot is still present (`deleted = false`) and is unchanged
otherwise. -/
theorem deleteFix_nodeCount (w : Nat) : ∀ (fuel : Nat) (t : RBTree)
    (curIdx fIdx : Nat) (deleted : Bool) (t2 : RBTree),
    deleteFix w t curIdx fIdx deleted fuel = some t2 →
    t2.nodeCount = t.nodeCount - (if deleted then 0 else 1) := by
  intro fuel
  induction fuel with
  | zero => intro t c f d t2 h; simp [deleteFix] at h
  | succ n ih =>
    intro t c f d t2 h
    simp only [deleteFix] at h
    repeat' split at h
    all_goals
      first
      | (simp only [Option.some.injEq] at h; subst h;
         simp_all [deleteCaseRR_nodeCount, deleteCaseRL_nodeCount,
           deleteCaseLL_nodeCount, deleteCaseLR_nodeCount, DeleteNode_nodeCount])
      | (have h2 := ih _ _ _ _ _ h;
         simp_all [deleteRedBrotherL_nodeCount, deleteRedBrotherR_nodeCount,
           DeleteNode_nodeCount])

theorem insertCaseRR_nodeCount (w r0 : Nat) (t : RBTree) (c f g : Nat) :
    (insertCaseRR w r0 t c f g).nodeCount = t.nodeCount := by
  simp only [insertCaseRR]; split_ifs <;> simp

theorem insertCaseRL_nodeCount (w r0 : Nat) (t : RBTree) (c f g : Nat) :
    (insertCaseRL w r0 t c f g).nodeCount = t.nodeCount := by
  simp only [insertCaseRL]; split_ifs <;> simp

theorem insertCaseLR_nodeCount (w r0 : Nat) (t : RBTree) (c f g : Nat) :
    (insertCaseLR w r0 t c f g).nodeCount = t.nodeCount := by
  simp only [insertCaseLR]; split_ifs <;> simp

theorem insertCaseLL_nodeCount (w r0 : Nat) (t : RBTree) (c f g : Nat) :
    (insertCaseLL w r0 t c f g).nodeCount = t.nodeCount := by
  simp only [insertCaseLL]; split_ifs <;> simp

/-- The insertion fixup never changes the live count. -/
theorem InsertCore_nodeCount (w r0 : Nat) : ∀ (fuel : Nat) (t : RBTree)
    (c f g : Nat) (b : Bool) (t2 : RBTree),
    InsertCore w r0 t c f g fuel = some (b, t2) → t2.nodeCount = t.nodeCount := by
  intro fuel
  induction fuel with
  | zero => intro t c f g b t2 h; simp [InsertCore] at h
  | succ n ih =>
    intro t c f g b t2 h
    simp only [InsertCore] at h
    repeat' split at h
    all_goals
      first
      | (simp only [Option.some.injEq, Prod.mk.injEq] at h;
         obtain ⟨h1, h2⟩ := h; subst h2;
         simp [insertCaseRR_nodeCount, insertCaseRL_nodeCount,
           insertCaseLR_nodeCount, insertCaseLL_nodeCount, redUncleRecolor])
      | (have h2 := ih _ _ _ _ _ _ h; simpa [redUncleRecolor] using h2)
      | simp at h

/-- `NodeCreate` on a not-yet-maximal tree yields a positive live count. -/
theorem NodeCreate_pos (w : Nat) (t : RBTree) (f : Nat) (k v : Int)
    (h : t.nodeCount ≠ MaxNodeCount w) :
    (NodeCreate w t f k v).1.nodeCount ≠ 0 := by
  have h2 : ¬(t.nodeCount = t.size ∧ t.size = MaxNodeCount w) := by
    rintro ⟨a, b⟩; exact h (a.trans b)
  simp only [NodeCreate, if_neg h2]
  simp

/-- If `NodeCreate` results in an empty tree (possible only in the
degenerate zero-width instantiation) the returned index is 0. -/
theorem NodeCreate_zero (w : Nat) (t : RBTree) (f : Nat) (k v : Int) :
    (NodeCreate w t f k v).1.nodeCount = 0 → (NodeCreate w t f k v).2 = 0 := by
  simp only [NodeCreate]
  split_ifs with h1 h2 <;> simp_all <;> omega

theorem insertLoop_pos (w : Nat) : ∀ (fuel : Nat) (t : RBTree) (k v : Int)
    (c : Nat) (ok : Bool) (t2 : RBTree) (r : Option Nat),
    t.nodeCount ≠ 0 → insertLoop w t k v c fuel = some (ok, t2, r) →
    t2.nodeCount ≠ 0 := by
  intro fuel
  induction fuel with
  | zero => intro t k v c ok t2 r h0 h; simp [insertLoop] at h
  | succ n ih =>
    intro t k v c ok t2 r h0 h
    simp only [insertLoop] at h
    repeat' split at h
    all_goals
      first
      | (simp only [Option.some.injEq, Prod.mk.injEq] at h;
         obtain ⟨h1, h2, h3⟩ := h; subst h2;
         first
         | (simp only [nodeCount_setRight, nodeCount_setLeft];
            exact NodeCreate_pos w t _ k v (by assumption))
         | simpa using h0)
      | (exact ih _ _ _ _ _ _ _ h0 h)
      | simp at h

/-- A successful `Insert` re-establishes the empty-root representation:
if the result is empty then its root index is 0. -/
theorem Insert_P (w : Nat) (t : RBTree) (k v : Int) (fuel : Nat)
    (ok : Bool) (t2 : RBTree) (h : Insert w t k v fuel = some (ok, t2))
    (hP : t.nodeCount = 0 → t.rootIndex = 0) :
    t2.nodeCount = 0 → t2.rootIndex = 0 := by
  simp only [Insert] at h
  split at h
  · simp only [Option.some.injEq, Prod.mk.injEq] at h
    obtain ⟨h1, h2⟩ := h; subst h2
    intro hcnt
    simp only [setColor, nodeCount_setN, rootIndex_setN] at hcnt ⊢
    exact NodeCreate_zero w t (MaxNodeCount w) k v hcnt
  · rename_i hne
    split at h
    · simp at h
    · rename_i ok1 t1 hl
      simp only [Option.some.injEq, Prod.mk.injEq] at h
      obtain ⟨h1, h2⟩ := h; subst h2
      have ht1 : t1.nodeCount ≠ 0 :=
        insertLoop_pos w fuel t k v t.rootIndex ok1 t1 none hne hl
      intro hcnt; exact absurd hcnt ht1
    · rename_i ok1 t1 newIdx hl
      have ht1 : t1.nodeCount ≠ 0 :=
        insertLoop_pos w fuel t k v t.rootIndex ok1 t1 (some newIdx) hne hl
      split at h
      · have hcore := InsertCore_nodeCount w t1.rootIndex fuel t1 newIdx
          ((getN t1 newIdx).fatherIndex)
          ((getN t1 (getN t1 newIdx).fatherIndex).fatherIndex) ok t2 h
        intro hcnt
        rw [hcore] at hcnt
        exact absurd hcnt ht1
      · simp only [Option.some.injEq, Prod.mk.injEq] at h
        obtain ⟨h1, h2⟩ := h; subst h2
        intro hcnt; exact absurd hcnt ht1

/-- `deleteBegin` removes exactly one live slot. -/
theorem deleteBegin_nodeCount (w : Nat) (t : RBTree) (c f g fuel : Nat)
    (t2 : RBTree) (h : deleteBegin w t c f g fuel = some t2) :
    t2.nodeCount = t.nodeCount - 1 := by
  simp only [deleteBegin] at h
  repeat' split at h
  all_goals
    first
    | (simp only [Option.some.injEq] at h; subst h; simp [DeleteNode_nodeCount])
    | (have h2 := deleteFix_nodeCount w _ _ _ _ _ _ h; simpa using h2)

/-- A successful `DeleteCore` on a tree of at least two pairs leaves the
tree unchanged (key absent) or removes exactly one slot. -/
theorem DeleteCore_count (w : Nat) (t : RBTree) (k : Int) (fuel : Nat)
    (ok : Bool) (t2 : RBTree) (h : DeleteCore w t k fuel = some (ok, t2))
    (hc : 2 ≤ t.nodeCount) :
    t2 = t ∨ t2.nodeCount = t.nodeCount - 1 := by
  simp only [DeleteCore] at h
  split at h
  · rename_i h1; omega
  · split at h
    · simp at h
    · simp only [Option.some.injEq, Prod.mk.injEq] at h
      left; exact h.2.symm
    · rename_i curIdx hd
      repeat' split at h
      all_goals
        first
        | (simp only [Option.some.injEq, Prod.mk.injEq] at h;
           obtain ⟨h1, h2⟩ := h; subst h2; right; simp [DeleteNode_nodeCount])
        | (rcases Option.map_eq_some'.mp h with ⟨t3, hb3, hq⟩;
           simp only [Prod.mk.injEq] at hq; obtain ⟨hq1, hq2⟩ := hq; subst hq2;
           right;
           have hbc := deleteBegin_nodeCount w _ _ _ _ _ _ hb3;
           simpa using hbc)
        | simp at h


theorem Reachable_rootZero {w : Nat} {t : RBTree} (h : Reachable w t) :
    t.nodeCount = 0 → t.rootIndex = 0 := by
  induction h with
  | create size t hok =>
    intro _
    simp only [RBTreeArraySized] at hok
    split at hok
    · simp at hok
    · simp only [Except.ok.injEq] at hok
      subst hok
      rfl
  | insert t k v fuel ok t2 hre hop ih =>
    exact Insert_P w t k v fuel ok t2 hop ih
  | delete t k fuel ok t2 hre hop ih =>
    intro h0
    simp only [Delete] at hop
    split at hop
    · simp only [Option.some.injEq, Prod.mk.injEq] at hop
      rw [← hop.2]
      rename_i hc0
      exact ih hc0
    · rename_i hc0
      by_cases h1 : t.nodeCount = 1
      · simp only [DeleteCore, if_pos h1] at hop
        split at hop
        · simp only [Option.some.injEq, Prod.mk.injEq] at hop
          rw [← hop.2]
        · simp only [Option.some.injEq, Prod.mk.injEq] at hop
          rw [← hop.2] at h0
          omega
      · have hc2 : 2 ≤ t.nodeCount := by
          rcases Nat.lt_or_ge t.nodeCount 2 with hl | hg
          · interval_cases hn : t.nodeCount <;> simp_all
          · exact hg
        rcases DeleteCore_count w t k fuel ok t2 hop hc2 with he | hcnt
        · rw [he] at h0
          exact absurd h0 hc0
        · omega
  | clear t hre ih => intro _; rfl

/-- Claim C6, counterexample: a freshly constructed tree (here the default
256-slot 16-bit tree) has live count zero but `rootIndex = 0`, not the NIL
sentinel 65535, so "`root_index == NIL` iff `live_count == 0`" fails. -/
theorem C6_counterexample_fresh_tree_root_is_zero :
    (CreateSize 16 256).nodeCount = 0 ∧
      (CreateSize 16 256).rootIndex ≠ MaxNodeCount 16 := by
  constructor
  · rfl
  · decide

/-- Claim C6, amended: in every state reachable by construction, `Insert`,
`Delete` and `Clear`, if the live count is zero then `rootIndex` is 0 (the
code represents the empty tree by root slot 0, and operations guard on the
live count rather than on a NIL root); in particular this covers a freshly
constructed tree, a cleared tree, and a tree whose last pair was just
deleted. -/
theorem C6_empty_reachable_root_zero {w : Nat} {t : RBTree}
    (h : Reachable w t) (h0 : t.nodeCount = 0) : t.rootIndex = 0 :=
  Reachable_rootZero h h0

/-- Witness for the amended C6 at a concrete input: the freshly constructed
default-capacity 16-bit tree is reachable, empty, and has root index 0. -/
theorem C6_empty_reachable_root_zero_witness :
    (CreateSize 16 256).nodeCount = 0 ∧ (CreateSize 16 256).rootIndex = 0 :=
  ⟨rfl, C6_empty_reachable_root_zero
    (@Reachable.create 16 256 (CreateSize 16 256) rfl) rfl⟩


/-! ### Basic facts about the abstraction -/

theorem BTree.inorder_ne_nil (l : BTree) (i : Nat) (r : BTree) :
    (BTree.node l i r).inorder ≠ [] := by
  simp only [BTree.inorder]
  intro h
  exact List.cons_ne_nil i r.inorder (List.append_eq_nil.mp h).2

theorem toTree_mono (w : Nat) : ∀ (f : Nat) (t : RBTree) (i : Nat) (tr : BTree),
    toTree w t f i = some tr → toTree w t (f + 1) i = some tr := by
  intro f
  induction f with
  | zero => intro t i tr h; simp [toTree] at h
  | succ n ih =>
    intro t i tr h
    by_cases hM : i = MaxNodeCount w
    · rw [toTree, if_pos hM] at h
      rw [toTree, if_pos hM]
      exact h
    · rw [toTree, if_neg hM] at h
      rw [toTree, if_neg hM]
      revert h
      cases hl : toTree w t n (getN t i).leftIndex with
      | none => intro h; simp at h
      | some l =>
        cases hr : toTree w t n (getN t i).rightIndex with
        | none => intro h; simp at h
        | some r =>
          intro h
          rw [ih t _ l hl, ih t _ r hr]
          exact h

theorem toTree_le_mono (w : Nat) {f f2 : Nat} {t : RBTree} {i : Nat} {tr : BTree}
    (hle : f ≤ f2) (h : toTree w t f i = some tr) : toTree w t f2 i = some tr := by
  induction hle with
  | refl => exact h
  | step _ ih => exact toTree_mono w _ t i tr ih

theorem toTree_node_shape (w : Nat) {f : Nat} {t : RBTree} {i : Nat} {tr : BTree}
    (h : toTree w t f i = some tr) (hne : i ≠ MaxNodeCount w) :
    ∃ l r f2, f = f2 + 1 ∧ tr = BTree.node l i r ∧
      toTree w t f2 (getN t i).leftIndex = some l ∧
      toTree w t f2 (getN t i).rightIndex = some r := by
  cases f with
  | zero => simp [toTree] at h
  | succ n =>
    rw [toTree, if_neg hne] at h
    revert h
    cases hl : toTree w t n (getN t i).leftIndex with
    | none => intro h; simp at h
    | some l =>
      cases hr : toTree w t n (getN t i).rightIndex with
      | none => intro h; simp at h
      | some r =>
        intro h
        simp only [Option.some.injEq] at h
        exact ⟨l, r, n, rfl, h.symm, hl, hr⟩

theorem toTree_nil_iff (w : Nat) {f : Nat} {t : RBTree} {i : Nat}
    (h : toTree w t f i = some BTree.nil) : i = MaxNodeCount w := by
  by_contra hne
  obtain ⟨l, r, f2, _, htr, _, _⟩ := toTree_node_shape w h hne
  simp at htr

theorem toTree_at_nil (w : Nat) (t : RBTree) (f : Nat) {tr : BTree}
    (h : toTree w t f (MaxNodeCount w) = some tr) : tr = BTree.nil := by
  cases f with
  | zero => simp [toTree] at h
  | succ n =>
    rw [toTree, if_pos rfl] at h
    simpa using h.symm

/-- `toTree` only reads the left and right links of the indices it lists;
any state agreeing there yields the same tree. -/
theorem toTree_congr (w : Nat) : ∀ (f : Nat) (t t2 : RBTree) (i : Nat) (tr : BTree),
    toTree w t f i = some tr →
    (∀ j, j ∈ tr.inorder → (getN t2 j).leftIndex = (getN t j).leftIndex ∧
      (getN t2 j).rightIndex = (getN t j).rightIndex) →
    toTree w t2 f i = some tr := by
  intro f
  induction f with
  | zero => intro t t2 i tr h _; simp [toTree] at h
  | succ n ih =>
    intro t t2 i tr h hagree
    by_cases hne : i = MaxNodeCount w
    · rw [toTree, if_pos hne] at h
      rw [toTree, if_pos hne]
      exact h
    · rw [toTree, if_neg hne] at h
      rw [toTree, if_neg hne]
      revert h
      cases hl : toTree w t n (getN t i).leftIndex with
      | none => intro h; simp at h
      | some l =>
        cases hr : toTree w t n (getN t i).rightIndex with
        | none => intro h; simp at h
        | some r =>
          intro h
          simp only [Option.some.injEq] at h
          subst h
          have hi : i ∈ (BTree.node l i r).inorder := by
            simp [BTree.inorder]
          have hL := (hagree i hi).1
          have hR := (hagree i hi).2
          have hl2 := ih t t2 _ l hl (fun j hj => hagree j (by
            simp [BTree.inorder, hj]))
          have hr2 := ih t t2 _ r hr (fun j hj => hagree j (by
            simp [BTree.inorder, hj]))
          rw [hL, hR, hl2, hr2]

/-- Indices listed by an `Abs` tree are exactly the live slots. -/
theorem Abs_mem_lt {t : RBTree} {tr : BTree}
    (hperm : tr.inorder.Perm (List.range t.nodeCount)) {j : Nat}
    (hj : j ∈ tr.inorder) : j < t.nodeCount := by
  have := hperm.mem_iff.mp hj
  simpa using this

/-! ### Leftmost / rightmost descent -/

theorem leftmostFrom_spec (w : Nat) : ∀ (f : Nat) (t : RBTree) (i : Nat) (tr : BTree),
    toTree w t f i = some tr → i ≠ MaxNodeCount w →
    ∀ fuel, f ≤ fuel →
    ∃ j, leftmostFrom w t i fuel = some j ∧ tr.inorder.head? = some j := by
  intro f
  induction f with
  | zero => intro t i tr h; simp [toTree] at h
  | succ n ih =>
    intro t i tr h hne fuel hfuel
    obtain ⟨l, r, f2, hf2, htr, hl, hr⟩ := toTree_node_shape w h hne
    simp only [Nat.succ.injEq] at hf2
    subst hf2
    subst htr
    cases fuel with
    | zero => omega
    | succ fu =>
      rw [leftmostFrom]
      by_cases hLM : (getN t i).leftIndex = MaxNodeCount w
      · have : l = BTree.nil := toTree_at_nil w t n (hLM ▸ hl)
        subst this
        rw [if_pos hLM]
        exact ⟨i, rfl, by simp [BTree.inorder]⟩
      · rw [if_neg hLM]
        obtain ⟨j, hrec, hhead⟩ := ih t _ l hl hLM fu (by omega)
        refine ⟨j, hrec, ?_⟩
        have hlne : l.inorder ≠ [] := by
          obtain ⟨l2, r2, f3, _, htr2, _, _⟩ := toTree_node_shape w hl hLM
          subst htr2
          exact BTree.inorder_ne_nil _ _ _
        simp only [BTree.inorder]
        rw [List.head?_append_of_ne_nil _ hlne]
        exact hhead

theorem rightmostFrom_spec (w : Nat) : ∀ (f : Nat) (t : RBTree) (i : Nat) (tr : BTree),
    toTree w t f i = some tr → i ≠ MaxNodeCount w →
    ∀ fuel, f ≤ fuel →
    ∃ j, rightmostFrom w t i fuel = some j ∧ tr.inorder.getLast? = some j := by
  intro f
  induction f with
  | zero => intro t i tr h; simp [toTree] at h
  | succ n ih =>
    intro t i tr h hne fuel hfuel
    obtain ⟨l, r, f2, hf2, htr, hl, hr⟩ := toTree_node_shape w h hne
    simp only [Nat.succ.injEq] at hf2
    subst hf2
    subst htr
    cases fuel with
    | zero => omega
    | succ fu =>
      rw [rightmostFrom]
      by_cases hRM : (getN t i).rightIndex = MaxNodeCount w
      · have : r = BTree.nil := toTree_at_nil w t n (hRM ▸ hr)
        subst this
        rw [if_pos hRM]
        refine ⟨i, rfl, ?_⟩
        simp [BTree.inorder]
      · rw [if_neg hRM]
        obtain ⟨j, hrec, hlast⟩ := ih t _ r hr hRM fu (by omega)
        refine ⟨j, hrec, ?_⟩
        have hrne : r.inorder ≠ [] := by
          obtain ⟨l2, r2, f3, _, htr2, _, _⟩ := toTree_node_shape w hr hRM
          subst htr2
          exact BTree.inorder_ne_nil _ _ _
        simp only [BTree.inorder]
        rw [List.getLast?_append_cons]
        have hsplit : i :: r.inorder = [i] ++ r.inorder := rfl
        rw [hsplit, List.getLast?_append_of_ne_nil _ hrne]
        exact hlast


theorem pairwise_lt_head_le {l : List Int} {a : Int}
    (hp : List.Pairwise (fun x y => x < y) l) (hh : l.head? = some a) :
    ∀ b ∈ l, a ≤ b := by
  cases l with
  | nil => simp at hh
  | cons x xs =>
    simp only [List.head?_cons, Option.some.injEq] at hh
    subst hh
    intro b hb
    rcases List.mem_cons.mp hb with rfl | hb2
    · exact le_refl _
    · exact le_of_lt (List.rel_of_pairwise_cons hp hb2)

theorem pairwise_lt_getLast_ge {l : List Int} {a : Int}
    (hp : List.Pairwise (fun x y => x < y) l) (hl : l.getLast? = some a) :
    ∀ b ∈ l, b ≤ a := by
  induction l with
  | nil => simp at hl
  | cons x xs ih =>
    cases hxs : xs with
    | nil =>
      subst hxs
      simp only [List.getLast?_singleton, Option.some.injEq] at hl
      subst hl
      intro b hb
      simp only [List.mem_singleton] at hb
      subst hb
      exact le_refl _
    | cons y ys =>
      subst hxs
      rw [List.getLast?_cons_cons] at hl
      intro b hb
      rcases List.mem_cons.mp hb with rfl | hb2
      · have ha : a ∈ y :: ys := by
          have := List.mem_of_mem_getLast? (by rw [hl]; rfl : a ∈ (y :: ys).getLast?)
          exact this
        exact le_of_lt (List.rel_of_pairwise_cons hp ha)
      · exact ih (List.Pairwise.of_cons hp) hl b hb2

/-- The root of a non-empty well-formed tree is a real slot, and its `Abs`
tree is the unique one. -/
theorem Abs_root_ne (w : Nat) {t : RBTree} {tr : BTree} (htr : Abs w t tr)
    (hperm : tr.inorder.Perm (List.range t.nodeCount)) (hne : t.nodeCount ≠ 0) :
    t.rootIndex ≠ MaxNodeCount w := by
  intro hM
  have htr2 : toTree w t (t.nodeCount + 1) t.rootIndex = some tr := htr
  rw [hM] at htr2
  have : tr = BTree.nil := toTree_at_nil w t _ htr2
  subst this
  have := hperm.length_eq
  simp only [BTree.inorder, List.length_nil, List.length_range] at this
  exact hne this.symm

/-- Claim C10: on an empty tree `GetMin` and `GetMax` return false and
leave the key and value output arguments unmodified (modelled by
`some none`); on every non-empty well-formed tree they return true and
produce the minimum (respectively maximum) stored key together with its
associated value. -/
theorem C10_GetMin_GetMax_spec (w : Nat) (t : RBTree) (fuel : Nat)
    (hInv : Inv w t) (hfuel : t.nodeCount + 1 ≤ fuel) :
    (t.nodeCount = 0 → GetMin w t fuel = some none ∧ GetMax w t fuel = some none) ∧
    (t.nodeCount ≠ 0 → ∀ tr, Abs w t tr →
      ∃ kmin vmin kmax vmax,
        GetMin w t fuel = some (some (kmin, vmin)) ∧
        GetMax w t fuel = some (some (kmax, vmax)) ∧
        (kmin, vmin) ∈ inorderPairs t tr ∧ (∀ p ∈ inorderPairs t tr, kmin ≤ p.1) ∧
        (kmax, vmax) ∈ inorderPairs t tr ∧ (∀ p ∈ inorderPairs t tr, p.1 ≤ kmax)) := by
  constructor
  · intro h0
    constructor <;> simp [GetMin, GetMax, h0]
  · intro hne tr htr
    obtain ⟨tr0, htr0, hperm0, hsort0, hpar0⟩ := hInv.struct hne
    have htreq : tr = tr0 := by
      have h1 : toTree w t (t.nodeCount + 1) t.rootIndex = some tr := htr
      have h2 : toTree w t (t.nodeCount + 1) t.rootIndex = some tr0 := htr0
      exact Option.some.inj (h1.symm.trans h2)
    subst htreq
    have hrootne : t.rootIndex ≠ MaxNodeCount w := Abs_root_ne w htr hperm0 hne
    obtain ⟨jmin, hlm, hheadid⟩ :=
      leftmostFrom_spec w (t.nodeCount + 1) t t.rootIndex tr htr hrootne fuel hfuel
    obtain ⟨jmax, hrm, hlastid⟩ :=
      rightmostFrom_spec w (t.nodeCount + 1) t t.rootIndex tr htr hrootne fuel hfuel
    refine ⟨(getN t jmin).key, (getN t jmin).value, (getN t jmax).key, (getN t jmax).value,
      ?_, ?_, ?_, ?_, ?_, ?_⟩
    · simp [GetMin, hne, hlm]
    · simp [GetMax, hne, hrm]
    · exact List.mem_map_of_mem _ (List.mem_of_mem_head? (by rw [hheadid]; rfl))
    · intro p hp
      obtain ⟨j2, hj2, hpj⟩ := List.mem_map.mp hp
      subst hpj
      refine pairwise_lt_head_le hsort0 ?_ _ (List.mem_map_of_mem _ hj2)
      show (tr.inorder.map fun i => (getN t i).key).head? = some (getN t jmin).key
      rw [List.head?_map, hheadid]
      rfl
    · exact List.mem_map_of_mem _ (List.mem_of_mem_getLast? (by rw [hlastid]; rfl))
    · intro p hp
      obtain ⟨j2, hj2, hpj⟩ := List.mem_map.mp hp
      subst hpj
      refine pairwise_lt_getLast_ge hsort0 ?_ _ (List.mem_map_of_mem _ hj2)
      show (tr.inorder.map fun i => (getN t i).key).getLast? = some (getN t jmax).key
      rw [List.getLast?_map, hlastid]
      rfl


/-- Witness for C10 at the concrete three-node tree. -/
theorem C10_GetMin_GetMax_spec_witness :
    (witnessTree.nodeCount = 0 →
      GetMin 16 witnessTree 4 = some none ∧ GetMax 16 witnessTree 4 = some none) ∧
    (witnessTree.nodeCount ≠ 0 → ∀ tr, Abs 16 witnessTree tr →
      ∃ kmin vmin kmax vmax,
        GetMin 16 witnessTree 4 = some (some (kmin, vmin)) ∧
        GetMax 16 witnessTree 4 = some (some (kmax, vmax)) ∧
        (kmin, vmin) ∈ inorderPairs witnessTree tr ∧
        (∀ p ∈ inorderPairs witnessTree tr, kmin ≤ p.1) ∧
        (kmax, vmax) ∈ inorderPairs witnessTree tr ∧
        (∀ p ∈ inorderPairs witnessTree tr, p.1 ≤ kmax)) :=
  C10_GetMin_GetMax_spec 16 witnessTree 4 (Inv_of_invCheck (by decide)) (by decide)


/-! ### Floor / ceiling descent -/

theorem inorderKeys_node (t : RBTree) (l : BTree) (i : Nat) (r : BTree) :
    inorderKeys t (BTree.node l i r) =
      inorderKeys t l ++ (getN t i).key :: inorderKeys t r := by
  simp [inorderKeys, BTree.inorder]

/-- The candidate-tracking floor descent returns the last index of the
subtree inorder whose key is below the query, defaulting to the incoming
candidate. -/
theorem getLast_cons_getD (c cand : Nat) (L : List Nat) :
    L.getLast?.getD c = ((c :: L).getLast?).getD cand := by
  cases L with
  | nil => simp
  | cons x xs =>
    rw [List.getLast?_cons_cons]
    cases h2 : (x :: xs).getLast? with
    | none => simp [List.getLast?_eq_none] at h2
    | some y => simp [h2]

theorem bstLoop_spec (w : Nat) : ∀ (f : Nat) (t : RBTree) (key : Int) (c : Nat)
    (tr : BTree), toTree w t f c = some tr → c ≠ MaxNodeCount w →
    List.Pairwise (fun a b => a < b) (inorderKeys t tr) →
    ∀ cand fuel, f ≤ fuel →
    bstLoop w t key c cand fuel =
      some (((tr.inorder.filter (fun i => decide ((getN t i).key < key))).getLast?).getD cand) := by
  intro f
  induction f with
  | zero => intro t key c tr h; simp [toTree] at h
  | succ n ih =>
    intro t key c tr h hne hsort cand fuel hfuel
    obtain ⟨l, r, f2, hf2, htr, hl, hr⟩ := toTree_node_shape w h hne
    simp only [Nat.succ.injEq] at hf2
    subst hf2
    subst htr
    rw [inorderKeys_node, List.pairwise_append] at hsort
    obtain ⟨hsl, hsr, hcross⟩ := hsort
    cases fuel with
    | zero => omega
    | succ fu =>
      rw [bstLoop]
      simp only [BTree.inorder, List.filter_append, List.filter_cons]
      by_cases hgt : key > (getN t c).key
      · rw [if_pos hgt]
        have hcpass : decide ((getN t c).key < key) = true := by simpa using hgt
        rw [hcpass, if_pos rfl, List.getLast?_append_cons]
        by_cases hRM : (getN t c).rightIndex = MaxNodeCount w
        · have : r = BTree.nil := toTree_at_nil w t n (hRM ▸ hr)
          subst this
          rw [if_pos hRM]
          simp [BTree.inorder]
        · rw [if_neg hRM]
          rw [ih t key _ r hr hRM (List.Pairwise.of_cons hsr) c fu (by omega)]
          exact congrArg some (getLast_cons_getD c cand _)
      · rw [if_neg hgt]
        have hcfail : decide ((getN t c).key < key) = false := by
          simp only [decide_eq_false_iff_not, not_lt]
          omega
        rw [hcfail, if_neg Bool.false_ne_true]
        have hrf : List.filter (fun i => decide ((getN t i).key < key)) r.inorder = [] := by
          rw [List.filter_eq_nil]
          intro j hj
          simp only [decide_eq_true_eq, not_lt]
          have h1 : (getN t c).key < (getN t j).key :=
            List.rel_of_pairwise_cons hsr
              (List.mem_map_of_mem (fun i => (getN t i).key) hj)
          omega
        rw [hrf]
        by_cases hLM : (getN t c).leftIndex = MaxNodeCount w
        · have : l = BTree.nil := toTree_at_nil w t n (hLM ▸ hl)
          subst this
          rw [if_pos hLM]
          simp [BTree.inorder]
        · rw [if_neg hLM]
          rw [ih t key _ l hl hLM hsl cand fu (by omega)]
          simp


theorem head_append_getD (c cand : Nat) (A B : List Nat) :
    A.head?.getD c = ((A ++ c :: B).head?).getD cand := by
  cases A with
  | nil => simp
  | cons x xs => simp

/-- The candidate-tracking ceiling descent returns the first index of the
subtree inorder whose key is above the query, defaulting to the incoming
candidate. -/
theorem sgtLoop_spec (w : Nat) : ∀ (f : Nat) (t : RBTree) (key : Int) (c : Nat)
    (tr : BTree), toTree w t f c = some tr → c ≠ MaxNodeCount w →
    List.Pairwise (fun a b => a < b) (inorderKeys t tr) →
    ∀ cand fuel, f ≤ fuel →
    sgtLoop w t key c cand fuel =
      some (((tr.inorder.filter (fun i => decide (key < (getN t i).key))).head?).getD cand) := by
  intro f
  induction f with
  | zero => intro t key c tr h; simp [toTree] at h
  | succ n ih =>
    intro t key c tr h hne hsort cand fuel hfuel
    obtain ⟨l, r, f2, hf2, htr, hl, hr⟩ := toTree_node_shape w h hne
    simp only [Nat.succ.injEq] at hf2
    subst hf2
    subst htr
    rw [inorderKeys_node, List.pairwise_append] at hsort
    obtain ⟨hsl, hsr, hcross⟩ := hsort
    cases fuel with
    | zero => omega
    | succ fu =>
      rw [sgtLoop]
      simp only [BTree.inorder, List.filter_append, List.filter_cons]
      by_cases hlt : key < (getN t c).key
      · rw [if_pos hlt]
        have hcpass : decide (key < (getN t c).key) = true := by simpa using hlt
        rw [hcpass, if_pos rfl]
        by_cases hLM : (getN t c).leftIndex = MaxNodeCount w
        · have : l = BTree.nil := toTree_at_nil w t n (hLM ▸ hl)
          subst this
          rw [if_pos hLM]
          simp [BTree.inorder]
        · rw [if_neg hLM]
          rw [ih t key _ l hl hLM hsl c fu (by omega)]
          exact congrArg some (head_append_getD c cand _ _)
      · rw [if_neg hlt]
        have hcfail : decide (key < (getN t c).key) = false := by
          simp only [decide_eq_false_iff_not, not_lt]
          omega
        rw [hcfail, if_neg Bool.false_ne_true]
        have hlf : List.filter (fun i => decide (key < (getN t i).key)) l.inorder = [] := by
          rw [List.filter_eq_nil]
          intro j hj
          simp only [decide_eq_true_eq, not_lt]
          have h1 : (getN t j).key < (getN t c).key :=
            hcross _ (List.mem_map_of_mem (fun i => (getN t i).key) hj) _ (by simp)
          omega
        rw [hlf]
        by_cases hRM : (getN t c).rightIndex = MaxNodeCount w
        · have : r = BTree.nil := toTree_at_nil w t n (hRM ▸ hr)
          subst this
          rw [if_pos hRM]
          simp [BTree.inorder]
        · rw [if_neg hRM]
          rw [ih t key _ r hr hRM (List.Pairwise.of_cons hsr) cand fu (by omega)]
          simp

/-- Claim C8: `GetBiggestSmallerThan(k)` returns true with the largest
stored key strictly below `k` (and its value) when one exists and false
otherwise; `GetSmallestGraterThan(k)` symmetrically returns the smallest
stored key strictly above `k`.  The returned key is strictly on the
requested side of `k`, so it is never `k` itself, even when `k` is
stored. -/
theorem C8_floor_ceiling_spec (w : Nat) (t : RBTree) (key : Int) (fuel : Nat)
    (hInv : Inv w t) (hfuel : t.nodeCount + 1 ≤ fuel) :
    (t.nodeCount = 0 →
      GetBiggestSmallerThan w t key fuel = some none ∧
      GetSmallestGraterThan w t key fuel = some none) ∧
    (t.nodeCount ≠ 0 → ∀ tr, Abs w t tr →
      ((∀ k2 ∈ inorderKeys t tr, ¬ k2 < key) →
          GetBiggestSmallerThan w t key fuel = some none) ∧
      (∀ k2 ∈ inorderKeys t tr, k2 < key →
        ∃ kv, GetBiggestSmallerThan w t key fuel = some (some kv) ∧
          kv ∈ inorderPairs t tr ∧ kv.1 < key ∧
          ∀ k3 ∈ inorderKeys t tr, k3 < key → k3 ≤ kv.1) ∧
      ((∀ k2 ∈ inorderKeys t tr, ¬ key < k2) →
          GetSmallestGraterThan w t key fuel = some none) ∧
      (∀ k2 ∈ inorderKeys t tr, key < k2 →
        ∃ kv, GetSmallestGraterThan w t key fuel = some (some kv) ∧
          kv ∈ inorderPairs t tr ∧ key < kv.1 ∧
          ∀ k3 ∈ inorderKeys t tr, key < k3 → kv.1 ≤ k3)) := by
  constructor
  · intro h0
    constructor <;>
      simp [GetBiggestSmallerThan, GetSmallestGraterThan,
        IndexBiggestSmallerThan, IndexSmallestGraterThan, h0]
  · intro hne tr htr
    obtain ⟨tr0, htr0, hperm0, hsort0, hpar0⟩ := hInv.struct hne
    have htreq : tr = tr0 := by
      have h1 : toTree w t (t.nodeCount + 1) t.rootIndex = some tr := htr
      have h2 : toTree w t (t.nodeCount + 1) t.rootIndex = some tr0 := htr0
      exact Option.some.inj (h1.symm.trans h2)
    subst htreq
    have hrootne : t.rootIndex ≠ MaxNodeCount w := Abs_root_ne w htr hperm0 hne
    have hix_ne : ∀ j ∈ tr.inorder, j ≠ MaxNodeCount w := by
      intro j hj
      have hlt := Abs_mem_lt hperm0 hj
      have : t.nodeCount ≤ MaxNodeCount w := le_trans hInv.countLe hInv.sizeLe
      omega
    have hBfloor := bstLoop_spec w (t.nodeCount + 1) t key t.rootIndex tr htr
      hrootne hsort0 (MaxNodeCount w) fuel hfuel
    have hBceil := sgtLoop_spec w (t.nodeCount + 1) t key t.rootIndex tr htr
      hrootne hsort0 (MaxNodeCount w) fuel hfuel
    refine ⟨?_, ?_, ?_, ?_⟩
    · intro hnone
      have hF : tr.inorder.filter (fun i => decide ((getN t i).key < key)) = [] := by
        rw [List.filter_eq_nil]
        intro j hj
        simp only [decide_eq_true_eq]
        exact hnone _ (List.mem_map_of_mem _ hj)
      simp [GetBiggestSmallerThan, IndexBiggestSmallerThan, hne, hBfloor, hF]
    · intro k2 hk2 hk2lt
      obtain ⟨j2, hj2, hj2k⟩ := List.mem_map.mp hk2
      have hj2F : j2 ∈ tr.inorder.filter (fun i => decide ((getN t i).key < key)) :=
        List.mem_filter.mpr ⟨hj2, by simp [hj2k, hk2lt]⟩
      cases hF : tr.inorder.filter (fun i => decide ((getN t i).key < key)) with
      | nil => rw [hF] at hj2F; simp at hj2F
      | cons x xs =>
        have hlast : ∃ j, (x :: xs).getLast? = some j := by
          cases h2 : (x :: xs).getLast? with
          | none => simp [List.getLast?_eq_none] at h2
          | some y => exact ⟨y, rfl⟩
        obtain ⟨j, hj⟩ := hlast
        have hjF : j ∈ x :: xs := List.mem_of_mem_getLast? (by rw [hj]; rfl)
        rw [hF] at hj2F
        have hjmem : j ∈ tr.inorder ∧ decide ((getN t j).key < key) = true := by
          have := List.mem_filter.mp (hF ▸ hjF)
          exact this
        have hjne : j ≠ MaxNodeCount w := hix_ne j hjmem.1
        refine ⟨((getN t j).key, (getN t j).value), ?_, ?_, ?_, ?_⟩
        · simp [GetBiggestSmallerThan, IndexBiggestSmallerThan, hne, hBfloor, hF, hj, hjne]
        · exact List.mem_map_of_mem _ hjmem.1
        · simpa using hjmem.2
        · intro k3 hk3 hk3lt
          obtain ⟨j3, hj3, hj3k⟩ := List.mem_map.mp hk3
          have hj3F : j3 ∈ x :: xs := by
            rw [← hF]
            exact List.mem_filter.mpr ⟨hj3, by simp [hj3k, hk3lt]⟩
          have hsortF : List.Pairwise (fun a b => a < b)
              ((x :: xs).map (fun i => (getN t i).key)) := by
            refine List.Pairwise.sublist ?_ hsort0
            rw [← hF]
            exact (List.filter_sublist _).map _
          have := pairwise_lt_getLast_ge hsortF
            (by rw [List.getLast?_map, hj]; rfl)
            ((fun i => (getN t i).key) j3) (List.mem_map_of_mem _ hj3F)
          rw [← hj3k]
          exact this
    · intro hnone
      have hF : tr.inorder.filter (fun i => decide (key < (getN t i).key)) = [] := by
        rw [List.filter_eq_nil]
        intro j hj
        simp only [decide_eq_true_eq]
        exact hnone _ (List.mem_map_of_mem _ hj)
      simp [GetSmallestGraterThan, IndexSmallestGraterThan, hne, hBceil, hF]
    · intro k2 hk2 hk2lt
      obtain ⟨j2, hj2, hj2k⟩ := List.mem_map.mp hk2
      have hj2F : j2 ∈ tr.inorder.filter (fun i => decide (key < (getN t i).key)) :=
        List.mem_filter.mpr ⟨hj2, by simp [hj2k, hk2lt]⟩
      cases hF : tr.inorder.filter (fun i => decide (key < (getN t i).key)) with
      | nil => rw [hF] at hj2F; simp at hj2F
      | cons x xs =>
        have hjF : x ∈ x :: xs := by simp
        have hxmem : x ∈ tr.inorder ∧ decide (key < (getN t x).key) = true := by
          have := List.mem_filter.mp (hF ▸ hjF)
          exact this
        have hxne : x ≠ MaxNodeCount w := hix_ne x hxmem.1
        refine ⟨((getN t x).key, (getN t x).value), ?_, ?_, ?_, ?_⟩
        · simp [GetSmallestGraterThan, IndexSmallestGraterThan, hne, hBceil, hF, hxne]
        · exact List.mem_map_of_mem _ hxmem.1
        · simpa using hxmem.2
        · intro k3 hk3 hk3lt
          obtain ⟨j3, hj3, hj3k⟩ := List.mem_map.mp hk3
          have hj3F : j3 ∈ x :: xs := by
            rw [← hF]
            exact List.mem_filter.mpr ⟨hj3, by simp [hj3k, hk3lt]⟩
          have hsortF : List.Pairwise (fun a b => a < b)
              ((x :: xs).map (fun i => (getN t i).key)) := by
            refine List.Pairwise.sublist ?_ hsort0
            rw [← hF]
            exact (List.filter_sublist _).map _
          have := pairwise_lt_head_le hsortF
            (by rw [List.head?_map]; rfl)
            ((fun i => (getN t i).key) j3) (List.mem_map_of_mem _ hj3F)
          rw [← hj3k]
          exact this

/-- Witness for C8 at the concrete three-node tree with query key 2. -/
theorem C8_floor_ceiling_spec_witness :
    (witnessTree.nodeCount = 0 →
      GetBiggestSmallerThan 16 witnessTree 2 4 = some none ∧
      GetSmallestGraterThan 16 witnessTree 2 4 = some none) ∧
    (witnessTree.nodeCount ≠ 0 → ∀ tr, Abs 16 witnessTree tr →
      ((∀ k2 ∈ inorderKeys witnessTree tr, ¬ k2 < 2) →
          GetBiggestSmallerThan 16 witnessTree 2 4 = some none) ∧
      (∀ k2 ∈ inorderKeys witnessTree tr, k2 < 2 →
        ∃ kv, GetBiggestSmallerThan 16 witnessTree 2 4 = some (some kv) ∧
          kv ∈ inorderPairs witnessTree tr ∧ kv.1 < 2 ∧
          ∀ k3 ∈ inorderKeys witnessTree tr, k3 < 2 → k3 ≤ kv.1) ∧
      ((∀ k2 ∈ inorderKeys witnessTree tr, ¬ (2 : Int) < k2) →
          GetSmallestGraterThan 16 witnessTree 2 4 = some none) ∧
      (∀ k2 ∈ inorderKeys witnessTree tr, (2 : Int) < k2 →
        ∃ kv, GetSmallestGraterThan 16 witnessTree 2 4 = some (some kv) ∧
          kv ∈ inorderPairs witnessTree tr ∧ (2 : Int) < kv.1 ∧
          ∀ k3 ∈ inorderKeys witnessTree tr, (2 : Int) < k3 → kv.1 ≤ k3)) :=
  C8_floor_ceiling_spec 16 witnessTree 2 4 (Inv_of_invCheck (by decide)) (by decide)


/-! ### Ordered iteration -/

theorem nodup_split_unique {α : Type} {i : α} :
    ∀ {l A B X Y : List α}, l.Nodup → l = A ++ i :: B → l = X ++ i :: Y →
    A = X ∧ B = Y := by
  intro l A
  induction A generalizing l with
  | nil =>
    intro B X Y hnd h1 h2
    rw [List.nil_append] at h1
    subst h1
    cases X with
    | nil => simp_all
    | cons x X2 =>
      simp only [List.cons_append, List.cons.injEq] at h2
      obtain ⟨rfl, h3⟩ := h2
      rw [List.nodup_cons] at hnd
      exact absurd (h3.symm ▸ List.mem_append_right X2 (List.mem_cons_self i Y)) hnd.1
  | cons a A2 ih =>
    intro B X Y hnd h1 h2
    subst h1
    cases X with
    | nil =>
      simp only [List.nil_append, List.cons_append, List.cons.injEq] at h2
      obtain ⟨rfl, h3⟩ := h2
      rw [List.cons_append, List.nodup_cons] at hnd
      exact absurd (List.mem_append_right A2 (List.mem_cons_self _ B)) hnd.1
    | cons x X2 =>
      simp only [List.cons_append, List.cons.injEq] at h2
      obtain ⟨rfl, h3⟩ := h2
      rw [List.cons_append, List.nodup_cons] at hnd
      obtain ⟨hA, hB⟩ := ih hnd.2 rfl h3
      exact ⟨by rw [hA], hB⟩

theorem succClimb_mono (w : Nat) (t : RBTree) : ∀ (f : Nat) (i : Nat) (x : Option Nat),
    succClimb w t i f = some x → ∀ f2, f ≤ f2 → succClimb w t i f2 = some x := by
  intro f
  induction f with
  | zero => intro i x h; simp [succClimb] at h
  | succ n ih =>
    intro i x h f2 hle
    cases f2 with
    | zero => omega
    | succ m =>
      rw [succClimb] at h ⊢
      by_cases h1 : (getN t i).fatherIndex = MaxNodeCount w
      · rw [if_pos h1] at h ⊢; exact h
      · rw [if_neg h1] at h ⊢
        by_cases h2 : (getN t (getN t i).fatherIndex).rightIndex ≠ i
        · rw [if_pos h2] at h ⊢; exact h
        · rw [if_neg h2] at h ⊢; exact ih _ _ h m (by omega)

theorem parentOkB_node {t : RBTree} {l : BTree} {i : Nat} {r : BTree} {f : Nat} :
    parentOkB t (BTree.node l i r) f = true ↔
    (getN t i).fatherIndex = f ∧ parentOkB t l i = true ∧ parentOkB t r i = true := by
  simp [parentOkB, Bool.and_eq_true, beq_iff_eq, and_assoc]

/-- Every listed slot roots a subtree of the abstraction, and the inorder
listing splits around that subtree. -/
theorem subtree_decomp (w : Nat) (t : RBTree) : ∀ (f : Nat) (tr : BTree) (c : Nat),
    toTree w t f c = some tr →
    ∀ i, i ∈ tr.inorder → ∃ f2 l2 r2 C D, f2 ≤ f ∧
      toTree w t f2 i = some (BTree.node l2 i r2) ∧
      tr.inorder = C ++ (l2.inorder ++ i :: r2.inorder) ++ D := by
  intro f
  induction f with
  | zero => intro tr c h; simp [toTree] at h
  | succ n ih =>
    intro tr c h i hi
    by_cases hM : c = MaxNodeCount w
    · rw [toTree, if_pos hM] at h
      simp only [Option.some.injEq] at h
      subst h
      simp [BTree.inorder] at hi
    · obtain ⟨l, r, f2, hf2, htr, hl, hr⟩ := toTree_node_shape w h hM
      simp only [Nat.succ.injEq] at hf2
      subst hf2
      subst htr
      simp only [BTree.inorder, List.mem_append, List.mem_cons] at hi
      rcases hi with hiL | hiC | hiR
      · obtain ⟨g2, l2, r2, C, D, hg2, hsub, hsplit⟩ := ih l _ hl i hiL
        refine ⟨g2, l2, r2, C, D ++ c :: r.inorder, by omega, hsub, ?_⟩
        simp only [BTree.inorder, hsplit]
        simp
      · subst hiC
        exact ⟨n + 1, l, r, [], [], le_refl _, h, by simp [BTree.inorder]⟩
      · obtain ⟨g2, l2, r2, C, D, hg2, hsub, hsplit⟩ := ih r _ hr i hiR
        refine ⟨g2, l2, r2, l.inorder ++ c :: C, D, by omega, hsub, ?_⟩
        simp only [BTree.inorder, hsplit]
        simp


/-- Climbing from a node with no right child: when the inorder suffix
after the node inside the subtree is non-empty, the climb stops at its
head; when the node is the subtree's rightmost, the climb continues as a
climb from the subtree's root (with fuel slack the subtree size). -/
theorem climb_step (w : Nat) (t : RBTree) : ∀ (f : Nat) (tr : BTree) (c f0 : Nat),
    toTree w t f c = some tr → parentOkB t tr f0 = true →
    tr.inorder.Nodup → (∀ j ∈ tr.inorder, j ≠ MaxNodeCount w) →
    ∀ i A B, tr.inorder = A ++ i :: B → (getN t i).rightIndex = MaxNodeCount w →
    (∀ j, B.head? = some j → ∀ fuel, tr.inorder.length + 1 ≤ fuel →
        succClimb w t i fuel = some (some j)) ∧
    (B = [] → ∀ x fuel, succClimb w t c fuel = some x →
        succClimb w t i (tr.inorder.length + fuel) = some x) := by
  intro f
  induction f with
  | zero => intro tr c f0 h; simp [toTree] at h
  | succ n ih =>
    intro tr c f0 h hpar hnd hnM i A B hsplit hiR
    by_cases hM : c = MaxNodeCount w
    · rw [toTree, if_pos hM] at h
      simp only [Option.some.injEq] at h
      subst h
      simp only [BTree.inorder] at hsplit
      exact absurd hsplit.symm (List.append_ne_nil_of_right_ne_nil A (by simp))
    · obtain ⟨l, r, f2, hf2, htr, hl, hr⟩ := toTree_node_shape w h hM
      simp only [Nat.succ.injEq] at hf2
      subst hf2
      subst htr
      rw [parentOkB_node] at hpar
      obtain ⟨hfc, hpl, hpr⟩ := hpar
      have hio : (BTree.node l c r).inorder = l.inorder ++ c :: r.inorder := rfl
      have hndA : l.inorder.Nodup ∧ (c :: r.inorder).Nodup ∧
          l.inorder.Disjoint (c :: r.inorder) := by
        have := hnd
        rw [hio, List.nodup_append] at this
        exact this
      have hi : i ∈ l.inorder ++ c :: r.inorder := by
        rw [← hio, hsplit]; simp
      simp only [List.mem_append, List.mem_cons] at hi
      rcases hi with hiL | hiC | hiR2
      · -- i in the left subtree
        obtain ⟨A1, B1, hsplitL⟩ := List.append_of_mem hiL
        have hLM : (getN t c).leftIndex ≠ MaxNodeCount w := by
          intro hh
          have hnil : l = BTree.nil := toTree_at_nil w t n (hh ▸ hl)
          subst hnil
          simp [BTree.inorder] at hiL
        obtain ⟨l1, r1, f3, hf3, hlshape, _, _⟩ :=
          toTree_node_shape w hl hLM
        have hAB : A = A1 ∧ B = B1 ++ c :: r.inorder := by
          refine nodup_split_unique hnd hsplit ?_
          rw [hio, hsplitL]
          simp
        obtain ⟨hA, hB⟩ := hAB
        subst hB
        have ihl := ih l ((getN t c).leftIndex) c hl hpl hndA.1
          (fun j hj => hnM j (by rw [hio]; exact List.mem_append_left _ hj))
          i A1 B1 hsplitL hiR
        constructor
        · intro j hj fuel hfuel
          cases hB1 : B1 with
          | nil =>
            subst hB1
            simp only [List.nil_append, List.head?_cons, Option.some.injEq] at hj
            subst hj
            -- climb reaches c through the left-subtree root
            have hclne : (getN t c).leftIndex ∈ l.inorder := by
              rw [hlshape]
              simp [BTree.inorder]
            have hstep : succClimb w t ((getN t c).leftIndex) 1 = some (some c) := by
              rw [succClimb]
              have hfa : (getN t ((getN t c).leftIndex)).fatherIndex = c := by
                rw [hlshape, parentOkB_node] at hpl
                exact hpl.1
              rw [hfa, if_neg hM]
              have hrneq : (getN t c).rightIndex ≠ (getN t c).leftIndex := by
                by_cases hRM2 : (getN t c).rightIndex = MaxNodeCount w
                · rw [hRM2]
                  exact fun hh => hnM _ (by rw [hio]; exact List.mem_append_left _ hclne) hh.symm
                · obtain ⟨l2, r2, f4, _, hrshape, _, _⟩ := toTree_node_shape w hr hRM2
                  intro hh
                  refine hndA.2.2 hclne ?_
                  rw [← hh, hrshape]
                  refine List.mem_cons_of_mem _ ?_
                  simp only [BTree.inorder]
                  exact List.mem_append_right _ (List.mem_cons_self _ _)
              rw [if_pos hrneq]
            have := ihl.2 rfl (some c) 1 hstep
            refine succClimb_mono w t _ _ _ this fuel ?_
            rw [hio] at hfuel
            simp only [List.length_append, List.length_cons] at hfuel
            omega
          | cons j2 B1t =>
            subst hB1
            simp only [List.cons_append, List.head?_cons, Option.some.injEq] at hj
            subst hj
            refine ihl.1 j2 (by simp) fuel ?_
            rw [hio] at hfuel
            simp only [List.length_append, List.length_cons] at hfuel
            omega
        · intro hBnil
          exact absurd hBnil (by simp)
      · -- i is the subtree root
        subst hiC
        have hrnil : r = BTree.nil := toTree_at_nil w t n (hiR ▸ hr)
        subst hrnil
        have hAB : A = l.inorder ∧ B = [] := by
          refine nodup_split_unique hnd hsplit ?_
          simp [BTree.inorder]
        obtain ⟨hA, hB⟩ := hAB
        subst hB
        constructor
        · intro j hj; simp at hj
        · intro _ x fuel hcl
          exact succClimb_mono w t fuel i x hcl _ (by omega)
      · -- i in the right subtree
        obtain ⟨A1, B1, hsplitR⟩ := List.append_of_mem hiR2
        have hRM : (getN t c).rightIndex ≠ MaxNodeCount w := by
          intro hh
          have hnil : r = BTree.nil := toTree_at_nil w t n (hh ▸ hr)
          subst hnil
          simp [BTree.inorder] at hiR2
        obtain ⟨l2, r2, f3, hf3, hrshape, _, _⟩ := toTree_node_shape w hr hRM
        have hAB : A = l.inorder ++ c :: A1 ∧ B = B1 := by
          refine nodup_split_unique hnd hsplit ?_
          rw [hio, hsplitR]
          simp
        obtain ⟨hA, hB⟩ := hAB
        subst hB
        have ihr := ih r ((getN t c).rightIndex) c hr hpr
          ((List.nodup_cons.mp hndA.2.1).2)
          (fun j hj => hnM j (by rw [hio]; exact List.mem_append_right _ (by simp [hj])))
          i A1 B hsplitR hiR
        constructor
        · intro j hj fuel hfuel
          refine ihr.1 j hj fuel ?_
          rw [hio] at hfuel
          simp only [List.length_append, List.length_cons] at hfuel
          omega
        · intro hBnil x fuel hcl
          subst hBnil
          have hstep : succClimb w t ((getN t c).rightIndex) (fuel + 1) = some x := by
            rw [succClimb]
            have hfa : (getN t ((getN t c).rightIndex)).fatherIndex = c := by
              rw [hrshape, parentOkB_node] at hpr
              exact hpr.1
            rw [hfa, if_neg hM]
            rw [if_neg (by simp : ¬ (getN t c).rightIndex ≠ (getN t c).rightIndex)]
            exact hcl
          have := ihr.2 rfl x (fuel + 1) hstep
          refine succClimb_mono w t _ _ _ this _ ?_
          rw [hio]
          simp only [List.length_append, List.length_cons]
          omega


/-- One `operator++` from a cursor sitting at the inorder position `i`:
it moves to the next inorder index, or to `OrderedEnd()` past the last. -/
theorem inc_spec (w : Nat) (t : RBTree) (tr : BTree) (f0 : Nat)
    (htr : toTree w t f0 t.rootIndex = some tr)
    (hpar : parentOkB t tr (MaxNodeCount w) = true)
    (hnd : tr.inorder.Nodup)
    (hnM : ∀ j ∈ tr.inorder, j ≠ MaxNodeCount w)
    (hcz : t.nodeCount ≠ 0)
    (i : Nat) (A B : List Nat) (hsplit : tr.inorder = A ++ i :: B)
    (fuel : Nat) (hfuel : tr.inorder.length + 1 ≤ fuel) (hfuel2 : f0 ≤ fuel) :
    OrderedIteratorInc w t ⟨i, false, false⟩ fuel =
      some (match B.head? with
            | some j => ⟨j, false, false⟩
            | none => OrderedEndIter w) := by
  have hiM : i ≠ MaxNodeCount w := hnM i (by rw [hsplit]; simp)
  rw [OrderedIteratorInc, if_pos hcz]
  rw [if_neg (by simp : ¬ ((⟨i, false, false⟩ : OrderedIterator).reachedBegin = true))]
  rw [if_pos (by simpa using hiM :
    (⟨i, false, false⟩ : OrderedIterator).currentIndex ≠ MaxNodeCount w)]
  by_cases hR : (getN t i).rightIndex = MaxNodeCount w
  · -- no right child: climb
    rw [if_neg (by simpa using hR)]
    have hcs := climb_step w t f0 tr t.rootIndex (MaxNodeCount w)
      htr hpar hnd hnM i A B hsplit hR
    cases hB : B with
    | cons j B2 =>
      have hclimb : succClimb w t i fuel = some (some j) := by
        refine hcs.1 j ?_ fuel hfuel
        rw [hB]; rfl
      rw [show (⟨i, false, false⟩ : OrderedIterator).currentIndex = i from rfl, hclimb]
      rfl
    | nil =>
      subst hB
      -- the root's father link is NIL, so the climb off the rightmost
      -- node reaches OrderedEnd
      have hrootM : t.rootIndex ≠ MaxNodeCount w := by
        intro hh
        have : tr = BTree.nil := toTree_at_nil w t f0 (hh ▸ htr)
        subst this
        simp only [BTree.inorder] at hsplit
        exact absurd hsplit.symm (List.append_ne_nil_of_right_ne_nil A (by simp))
      obtain ⟨lt2, rt2, f2, hf2, htrsh, _, _⟩ := toTree_node_shape w htr hrootM
      have hfaroot : (getN t t.rootIndex).fatherIndex = MaxNodeCount w := by
        rw [htrsh, parentOkB_node] at hpar
        exact hpar.1
      have hroot1 : succClimb w t t.rootIndex 1 = some none := by
        rw [succClimb, if_pos hfaroot]
      have := hcs.2 rfl none 1 hroot1
      have hclimb : succClimb w t i fuel = some none :=
        succClimb_mono w t _ _ _ this fuel (by omega)
      rw [show (⟨i, false, false⟩ : OrderedIterator).currentIndex = i from rfl, hclimb]
      rfl
  · -- a right child exists: its leftmost node is the successor
    rw [if_pos (by simpa using hR)]
    obtain ⟨f2, l2, r2, C, D, hf2le, hti, hdec⟩ :=
      subtree_decomp w t f0 tr t.rootIndex htr i (by rw [hsplit]; simp)
    obtain ⟨l2b, r2b, f3, hf3, hsh, hl2, hr2⟩ := toTree_node_shape w hti hiM
    simp only [BTree.node.injEq] at hsh
    obtain ⟨hsh1, -, hsh2⟩ := hsh
    subst hsh1
    subst hsh2
    obtain ⟨j, hleft, hhead⟩ :=
      leftmostFrom_spec w f3 t ((getN t i).rightIndex) r2 hr2 hR fuel (by omega)
    have hr2ne : r2.inorder ≠ [] := by
      obtain ⟨l3, r3, f4, _, hsh3, _, _⟩ := toTree_node_shape w hr2 hR
      rw [hsh3]
      simp only [BTree.inorder]
      exact List.append_ne_nil_of_right_ne_nil _ (by simp)
    have hB : B = r2.inorder ++ D := by
      have hdec2 : tr.inorder = (C ++ l2.inorder) ++ i :: (r2.inorder ++ D) := by
        rw [hdec]
        simp
      exact (nodup_split_unique hnd hsplit hdec2).2
    have hBhead : B.head? = some j := by
      rw [hB, List.head?_append_of_ne_nil _ hr2ne, hhead]
    rw [show (⟨i, false, false⟩ : OrderedIterator).currentIndex = i from rfl, hleft, hBhead]
    rfl


/-- Driving the cursor from any inorder position collects exactly the
remaining inorder pairs. -/
theorem orderedVisit_spec (w : Nat) (t : RBTree) (tr : BTree) (f0 : Nat)
    (htr : toTree w t f0 t.rootIndex = some tr)
    (hpar : parentOkB t tr (MaxNodeCount w) = true)
    (hnd : tr.inorder.Nodup)
    (hnM : ∀ j ∈ tr.inorder, j ≠ MaxNodeCount w)
    (hcz : t.nodeCount ≠ 0)
    (fuel : Nat) (hfuel : tr.inorder.length + 1 ≤ fuel) (hfuel2 : f0 ≤ fuel) :
    ∀ (B A : List Nat) (i : Nat), tr.inorder = A ++ i :: B →
    orderedVisit w t fuel ⟨i, false, false⟩ (B.length + 1) =
      some ((i :: B).map (fun j => ((getN t j).key, (getN t j).value))) := by
  intro B
  induction B with
  | nil =>
    intro A i hsplit
    have hne : (⟨i, false, false⟩ : OrderedIterator) ≠ OrderedEndIter w := by
      simp [OrderedEndIter]
    rw [orderedVisit, if_neg hne]
    have hinc := inc_spec w t tr f0 htr hpar hnd hnM hcz i A [] hsplit fuel hfuel hfuel2
    rw [hinc]
    simp [orderedVisit]
  | cons j B2 ih =>
    intro A i hsplit
    have hne : (⟨i, false, false⟩ : OrderedIterator) ≠ OrderedEndIter w := by
      simp [OrderedEndIter]
    rw [show (j :: B2).length + 1 = (B2.length + 1) + 1 from rfl]
    rw [orderedVisit, if_neg hne]
    have hinc := inc_spec w t tr f0 htr hpar hnd hnM hcz i A (j :: B2) hsplit fuel hfuel hfuel2
    rw [hinc]
    have hrec := ih (A ++ [i]) j (by rw [hsplit]; simp)
    simp only [List.head?_cons]
    rw [hrec]
    rfl


/-- C7: iterating with the ordered cursor from `OrderedBegin()` to
`OrderedEnd()` visits every stored pair exactly once, with keys in
strictly increasing order, and the number of pairs visited equals the
live count (zero steps for an empty tree). -/
theorem C7_ordered_iteration_spec (w : Nat) (t : RBTree) (fuel : Nat)
    (hInv : Inv w t) (hfuel : t.nodeCount + 1 ≤ fuel) :
    ∃ it0 L, OrderedBeginIter w t fuel = some it0 ∧
      orderedVisit w t fuel it0 t.nodeCount = some L ∧
      L.length = t.nodeCount ∧
      List.Pairwise (fun a b => a.1 < b.1) L ∧
      L.Perm ((List.range t.nodeCount).map
        (fun i => ((getN t i).key, (getN t i).value))) := by
  by_cases hcz : t.nodeCount = 0
  · refine ⟨OrderedEndIter w, [], ?_, ?_, ?_, ?_, ?_⟩
    · rw [OrderedBeginIter, if_pos hcz]
    · rw [hcz, orderedVisit, if_pos rfl]
    · simp [hcz]
    · simp
    · simp [hcz]
  · obtain ⟨tr, htr, hperm, hkeys, hpar⟩ := hInv.struct hcz
    have htr' : toTree w t (t.nodeCount + 1) t.rootIndex = some tr := htr
    have hnd : tr.inorder.Nodup := hperm.nodup_iff.mpr (List.nodup_range t.nodeCount)
    have hnM : ∀ j ∈ tr.inorder, j ≠ MaxNodeCount w := by
      intro j hj
      have hlt := Abs_mem_lt hperm hj
      have h1 := hInv.countLe
      have h2 := hInv.sizeLe
      omega
    have hlen : tr.inorder.length = t.nodeCount := by
      simpa using hperm.length_eq
    cases hio : tr.inorder with
    | nil => rw [hio] at hlen; simp at hlen; omega
    | cons i0 rest =>
      have hrootne : t.rootIndex ≠ MaxNodeCount w := Abs_root_ne w htr' hperm hcz
      obtain ⟨j0, hleft, hhead⟩ :=
        leftmostFrom_spec w (t.nodeCount + 1) t t.rootIndex tr htr' hrootne fuel hfuel
      have hj0 : j0 = i0 := by
        rw [hio] at hhead
        simpa using hhead.symm
      subst hj0
      refine ⟨⟨j0, false, false⟩,
        tr.inorder.map (fun j => ((getN t j).key, (getN t j).value)), ?_, ?_, ?_, ?_, ?_⟩
      · rw [OrderedBeginIter, if_neg hcz, GetMinIndex, if_pos hcz, hleft]
        rfl
      · have hvisit := orderedVisit_spec w t tr (t.nodeCount + 1) htr' hpar hnd hnM hcz
          fuel (by omega) hfuel rest [] j0 (by rw [hio]; rfl)
        have hsteps : t.nodeCount = rest.length + 1 := by
          rw [hio] at hlen
          simp at hlen
          omega
        rw [hsteps, hvisit, hio]
      · rw [List.length_map, hlen]
      · have hk := hkeys
        rw [inorderKeys, List.pairwise_map] at hk
        rw [List.pairwise_map]
        exact hk
      · exact hperm.map _
  

/-- Witness for C7 at the concrete three-node tree. -/
theorem C7_ordered_iteration_spec_witness :
    ∃ it0 L, OrderedBeginIter 16 witnessTree 4 = some it0 ∧
      orderedVisit 16 witnessTree 4 it0 witnessTree.nodeCount = some L ∧
      L.length = witnessTree.nodeCount ∧
      List.Pairwise (fun a b => a.1 < b.1) L ∧
      L.Perm ((List.range witnessTree.nodeCount).map
        (fun i => ((getN witnessTree i).key, (getN witnessTree i).value))) :=
  C7_ordered_iteration_spec 16 witnessTree 4 (Inv_of_invCheck (by decide)) (by decide)


/-! ### Slot-update frame lemmas -/

theorem getN_setN_ne (t : RBTree) (i j : Nat) (n : Node) (h : j ≠ i) :
    getN (setN t i n) j = getN t j := by
  simp [getN, setN, List.getD, List.getElem?_set_ne (fun hh => h hh.symm)]

theorem getN_setN_lt (t : RBTree) (i : Nat) (n : Node) (h : i < t.nodes.length) :
    getN (setN t i n) i = n := by
  simp [getN, setN, List.getD, List.getElem?_set_self, h]

theorem getN_setN_ge (t : RBTree) (i : Nat) (n : Node) (h : ¬ i < t.nodes.length) :
    getN (setN t i n) i = getN t i := by
  simp only [getN, setN]
  rw [List.set_eq_of_length_le]
  omega

theorem setN_length (t : RBTree) (i : Nat) (n : Node) :
    (setN t i n).nodes.length = t.nodes.length := by
  simp [setN]

theorem getN_setFather_frame (t : RBTree) (i v j : Nat) :
    (getN (setFather t i v) j).leftIndex = (getN t j).leftIndex ∧
    (getN (setFather t i v) j).rightIndex = (getN t j).rightIndex ∧
    (getN (setFather t i v) j).color = (getN t j).color ∧
    (getN (setFather t i v) j).key = (getN t j).key ∧
    (getN (setFather t i v) j).value = (getN t j).value := by
  unfold setFather
  by_cases h : j = i
  · subst h
    by_cases h2 : j < t.nodes.length
    · rw [getN_setN_lt t j _ h2]
      exact ⟨rfl, rfl, rfl, rfl, rfl⟩
    · rw [getN_setN_ge t j _ h2]
      exact ⟨rfl, rfl, rfl, rfl, rfl⟩
  · rw [getN_setN_ne t i j _ h]
    exact ⟨rfl, rfl, rfl, rfl, rfl⟩

theorem getN_setFather_ne (t : RBTree) (i v j : Nat) (h : j ≠ i) :
    getN (setFather t i v) j = getN t j := getN_setN_ne t i j _ h

theorem getN_setFather_self (t : RBTree) (i v : Nat) (h : i < t.nodes.length) :
    getN (setFather t i v) i = { getN t i with fatherIndex := v } :=
  getN_setN_lt t i _ h

theorem getN_setColor_frame (t : RBTree) (i v j : Nat) :
    (getN (setColor t i v) j).fatherIndex = (getN t j).fatherIndex ∧
    (getN (setColor t i v) j).leftIndex = (getN t j).leftIndex ∧
    (getN (setColor t i v) j).rightIndex = (getN t j).rightIndex ∧
    (getN (setColor t i v) j).key = (getN t j).key ∧
    (getN (setColor t i v) j).value = (getN t j).value := by
  unfold setColor
  by_cases h : j = i
  · subst h
    by_cases h2 : j < t.nodes.length
    · rw [getN_setN_lt t j _ h2]
      exact ⟨rfl, rfl, rfl, rfl, rfl⟩
    · rw [getN_setN_ge t j _ h2]
      exact ⟨rfl, rfl, rfl, rfl, rfl⟩
  · rw [getN_setN_ne t i j _ h]
    exact ⟨rfl, rfl, rfl, rfl, rfl⟩

theorem getN_setValue_frame (t : RBTree) (i : Nat) (v : Int) (j : Nat) :
    (getN (setValue t i v) j).fatherIndex = (getN t j).fatherIndex ∧
    (getN (setValue t i v) j).leftIndex = (getN t j).leftIndex ∧
    (getN (setValue t i v) j).rightIndex = (getN t j).rightIndex ∧
    (getN (setValue t i v) j).color = (getN t j).color ∧
    (getN (setValue t i v) j).key = (getN t j).key := by
  unfold setValue
  by_cases h : j = i
  · subst h
    by_cases h2 : j < t.nodes.length
    · rw [getN_setN_lt t j _ h2]
      exact ⟨rfl, rfl, rfl, rfl, rfl⟩
    · rw [getN_setN_ge t j _ h2]
      exact ⟨rfl, rfl, rfl, rfl, rfl⟩
  · rw [getN_setN_ne t i j _ h]
    exact ⟨rfl, rfl, rfl, rfl, rfl⟩

theorem getN_setLeft_frame (t : RBTree) (i v j : Nat) :
    (getN (setLeft t i v) j).fatherIndex = (getN t j).fatherIndex ∧
    (getN (setLeft t i v) j).rightIndex = (getN t j).rightIndex ∧
    (getN (setLeft t i v) j).color = (getN t j).color ∧
    (getN (setLeft t i v) j).key = (getN t j).key ∧
    (getN (setLeft t i v) j).value = (getN t j).value := by
  unfold setLeft
  by_cases h : j = i
  · subst h
    by_cases h2 : j < t.nodes.length
    · rw [getN_setN_lt t j _ h2]
      exact ⟨rfl, rfl, rfl, rfl, rfl⟩
    · rw [getN_setN_ge t j _ h2]
      exact ⟨rfl, rfl, rfl, rfl, rfl⟩
  · rw [getN_setN_ne t i j _ h]
    exact ⟨rfl, rfl, rfl, rfl, rfl⟩

theorem getN_setLeft_ne (t : RBTree) (i v j : Nat) (h : j ≠ i) :
    getN (setLeft t i v) j = getN t j := getN_setN_ne t i j _ h

theorem getN_setLeft_self (t : RBTree) (i v : Nat) (h : i < t.nodes.length) :
    getN (setLeft t i v) i = { getN t i with leftIndex := v } :=
  getN_setN_lt t i _ h

theorem getN_setRight_frame (t : RBTree) (i v j : Nat) :
    (getN (setRight t i v) j).fatherIndex = (getN t j).fatherIndex ∧
    (getN (setRight t i v) j).leftIndex = (getN t j).leftIndex ∧
    (getN (setRight t i v) j).color = (getN t j).color ∧
    (getN (setRight t i v) j).key = (getN t j).key ∧
    (getN (setRight t i v) j).value = (getN t j).value := by
  unfold setRight
  by_cases h : j = i
  · subst h
    by_cases h2 : j < t.nodes.length
    · rw [getN_setN_lt t j _ h2]
      exact ⟨rfl, rfl, rfl, rfl, rfl⟩
    · rw [getN_setN_ge t j _ h2]
      exact ⟨rfl, rfl, rfl, rfl, rfl⟩
  · rw [getN_setN_ne t i j _ h]
    exact ⟨rfl, rfl, rfl, rfl, rfl⟩

theorem getN_setRight_ne (t : RBTree) (i v j : Nat) (h : j ≠ i) :
    getN (setRight t i v) j = getN t j := getN_setN_ne t i j _ h

theorem getN_setRight_self (t : RBTree) (i v : Nat) (h : i < t.nodes.length) :
    getN (setRight t i v) i = { getN t i with rightIndex := v } :=
  getN_setN_lt t i _ h

/-! ### Abstraction invariance under non-link writes -/

theorem toTree_ext (w : Nat) (t t2 : RBTree)
    (h : ∀ j, (getN t2 j).leftIndex = (getN t j).leftIndex ∧
      (getN t2 j).rightIndex = (getN t j).rightIndex) :
    ∀ f i, toTree w t2 f i = toTree w t f i := by
  intro f
  induction f with
  | zero => intro i; rfl
  | succ n ih =>
    intro i
    rw [toTree, toTree]
    by_cases hM : i = MaxNodeCount w
    · rw [if_pos hM, if_pos hM]
    · rw [if_neg hM, if_neg hM, (h i).1, (h i).2, ih, ih]

theorem toTree_setFather (w : Nat) (t : RBTree) (i v : Nat) (f j : Nat) :
    toTree w (setFather t i v) f j = toTree w t f j :=
  toTree_ext w t _ (fun j2 => ⟨(getN_setFather_frame t i v j2).1,
    (getN_setFather_frame t i v j2).2.1⟩) f j

theorem toTree_setColor (w : Nat) (t : RBTree) (i v : Nat) (f j : Nat) :
    toTree w (setColor t i v) f j = toTree w t f j :=
  toTree_ext w t _ (fun j2 => ⟨(getN_setColor_frame t i v j2).2.1,
    (getN_setColor_frame t i v j2).2.2.1⟩) f j

theorem toTree_setValue (w : Nat) (t : RBTree) (i : Nat) (v : Int) (f j : Nat) :
    toTree w (setValue t i v) f j = toTree w t f j :=
  toTree_ext w t _ (fun j2 => ⟨(getN_setValue_frame t i v j2).2.1,
    (getN_setValue_frame t i v j2).2.2.1⟩) f j

theorem parentOkB_ext (t t2 : RBTree)
    (h : ∀ j, (getN t2 j).fatherIndex = (getN t j).fatherIndex) :
    ∀ (tr : BTree) (f : Nat), parentOkB t2 tr f = parentOkB t tr f := by
  intro tr
  induction tr with
  | nil => intro f; rfl
  | node l i r ihl ihr => intro f; simp [parentOkB, h i, ihl, ihr]

theorem parentOkB_congr_mem (t t2 : RBTree) :
    ∀ (tr : BTree) (f : Nat),
    (∀ j ∈ tr.inorder, (getN t2 j).fatherIndex = (getN t j).fatherIndex) →
    parentOkB t2 tr f = parentOkB t tr f := by
  intro tr
  induction tr with
  | nil => intro f _; rfl
  | node l i r ihl ihr =>
    intro f h
    have hi : i ∈ (BTree.node l i r).inorder := by simp [BTree.inorder]
    have h1 := ihl i (fun j hj => h j (by simp only [BTree.inorder]; exact List.mem_append_left _ hj))
    have h2 := ihr i (fun j hj => h j (by simp only [BTree.inorder]; exact List.mem_append_right _ (List.mem_cons_of_mem _ hj)))
    simp [parentOkB, h i hi, h1, h2]

/-! ### Link and father membership bounds -/

theorem links_mem (w : Nat) (t : RBTree) : ∀ (f : Nat) (c : Nat) (tr : BTree),
    toTree w t f c = some tr →
    ∀ j ∈ tr.inorder,
      ((getN t j).leftIndex = MaxNodeCount w ∨ (getN t j).leftIndex ∈ tr.inorder) ∧
      ((getN t j).rightIndex = MaxNodeCount w ∨ (getN t j).rightIndex ∈ tr.inorder) := by
  intro f
  induction f with
  | zero => intro c tr h; simp [toTree] at h
  | succ n ih =>
    intro c tr h j hj
    by_cases hM : c = MaxNodeCount w
    · rw [toTree, if_pos hM] at h
      simp only [Option.some.injEq] at h
      subst h
      simp [BTree.inorder] at hj
    · obtain ⟨l, r, f2, hf2, htr, hl, hr⟩ := toTree_node_shape w h hM
      simp only [Nat.succ.injEq] at hf2
      subst hf2
      subst htr
      simp only [BTree.inorder, List.mem_append, List.mem_cons] at hj
      rcases hj with hjl | hjc | hjr
      · obtain ⟨hL, hR⟩ := ih ((getN t c).leftIndex) l hl j hjl
        constructor
        · rcases hL with h1 | h1
          · exact Or.inl h1
          · exact Or.inr (by simp only [BTree.inorder]; exact List.mem_append_left _ h1)
        · rcases hR with h1 | h1
          · exact Or.inl h1
          · exact Or.inr (by simp only [BTree.inorder]; exact List.mem_append_left _ h1)
      · subst hjc
        constructor
        · by_cases hL : (getN t j).leftIndex = MaxNodeCount w
          · exact Or.inl hL
          · obtain ⟨l2, r2, f3, _, hsh, _, _⟩ := toTree_node_shape w hl hL
            refine Or.inr ?_
            rw [hsh]
            simp [BTree.inorder]
        · by_cases hR : (getN t j).rightIndex = MaxNodeCount w
          · exact Or.inl hR
          · obtain ⟨l2, r2, f3, _, hsh, _, _⟩ := toTree_node_shape w hr hR
            refine Or.inr ?_
            rw [hsh]
            simp [BTree.inorder]
      · obtain ⟨hL, hR⟩ := ih ((getN t c).rightIndex) r hr j hjr
        constructor
        · rcases hL with h1 | h1
          · exact Or.inl h1
          · exact Or.inr (by simp only [BTree.inorder]; exact List.mem_append_right _ (List.mem_cons_of_mem _ h1))
        · rcases hR with h1 | h1
          · exact Or.inl h1
          · exact Or.inr (by simp only [BTree.inorder]; exact List.mem_append_right _ (List.mem_cons_of_mem _ h1))

theorem parentOkB_father_mem (t : RBTree) : ∀ (tr : BTree) (f0 : Nat),
    parentOkB t tr f0 = true →
    ∀ j ∈ tr.inorder,
      (getN t j).fatherIndex = f0 ∨ (getN t j).fatherIndex ∈ tr.inorder := by
  intro tr
  induction tr with
  | nil => intro f0 _ j hj; simp [BTree.inorder] at hj
  | node l i r ihl ihr =>
    intro f0 hp j hj
    rw [parentOkB_node] at hp
    simp only [BTree.inorder, List.mem_append, List.mem_cons] at hj
    rcases hj with hjl | hjc | hjr
    · rcases ihl i hp.2.1 j hjl with h1 | h1
      · exact Or.inr (by rw [h1]; simp [BTree.inorder])
      · exact Or.inr (by simp only [BTree.inorder]; exact List.mem_append_left _ h1)
    · subst hjc
      exact Or.inl hp.1
    · rcases ihr i hp.2.2 j hjr with h1 | h1
      · exact Or.inr (by rw [h1]; simp [BTree.inorder])
      · exact Or.inr (by simp only [BTree.inorder]; exact List.mem_append_right _ (List.mem_cons_of_mem _ h1))


/-! ### Slot-array copy (`NodeAssign`) and growth (`NodeCreate`) -/

theorem NodeAssign_length (wd : Nat) (d s : List Node) :
    ∀ c, (NodeAssign wd d s c).length = d.length := by
  intro c
  induction c with
  | zero => rfl
  | succ n ih =>
    rw [NodeAssign, List.range_succ, List.foldl_append]
    rw [NodeAssign] at ih
    simp only [List.foldl_cons, List.foldl_nil, List.length_set]
    exact ih

theorem NodeAssign_getD_lt (wd : Nat) (d s : List Node) :
    ∀ c j, j < c → c ≤ d.length →
    (NodeAssign wd d s c).getD j defaultNode = convertNode wd (s.getD j defaultNode) := by
  intro c
  induction c with
  | zero => intro j hj; omega
  | succ n ih =>
    intro j hj hle
    rw [NodeAssign, List.range_succ, List.foldl_append]
    have hlen : (NodeAssign wd d s n).length = d.length := NodeAssign_length wd d s n
    show ((NodeAssign wd d s n).set n (convertNode wd (s.getD n defaultNode))).getD j
        defaultNode = _
    by_cases hjn : j = n
    · subst hjn
      simp only [List.getD]
      rw [List.get?_set_eq_of_lt _ (by omega)]
      rfl
    · simp only [List.getD]
      rw [List.get?_set_ne _ _ (fun hh => hjn hh.symm)]
      exact ih j (by omega) (by omega)

theorem convertNode_id (w : Nat) (nd : Node)
    (h1 : nd.fatherIndex < 2 ^ w) (h2 : nd.leftIndex < 2 ^ w) (h3 : nd.rightIndex < 2 ^ w) :
    convertNode w nd = nd := by
  simp [convertNode, Nat.mod_eq_of_lt, h1, h2, h3]

theorem NodeCreate_spec (w : Nat) (t : RBTree) (fa : Nat) (k v : Int)
    (hroom : t.nodeCount < MaxNodeCount w)
    (hlen : t.nodes.length = t.size) (hcount : t.nodeCount ≤ t.size)
    (hsize : t.size ≤ MaxNodeCount w) (hsizePos : 1 ≤ t.size)
    (hbitw : t.bitLength = w) (hw : w = 16 ∨ w = 32 ∨ w = 64)
    (hov : 2 * t.size < 2 ^ 64)
    (hlb : ∀ j, j < t.nodeCount → (getN t j).fatherIndex < 2 ^ w ∧
      (getN t j).leftIndex < 2 ^ w ∧ (getN t j).rightIndex < 2 ^ w) :
    ∃ t2, NodeCreate w t fa k v = (t2, t.nodeCount) ∧
      t2.nodeCount = t.nodeCount + 1 ∧ t2.rootIndex = t.rootIndex ∧
      t2.bitLength = w ∧
      t2.nodes.length = t2.size ∧ t2.nodeCount ≤ t2.size ∧
      t2.size ≤ MaxNodeCount w ∧ 1 ≤ t2.size ∧
      (∀ j, j < t.nodeCount → getN t2 j = getN t j) ∧
      getN t2 t.nodeCount =
        { fatherIndex := fa, leftIndex := MaxNodeCount w, rightIndex := MaxNodeCount w,
          color := Color.Red, key := k, value := v } := by
  have hMw : MaxNodeCount w < 2 ^ w := by
    have h1 : 1 ≤ 2 ^ w := Nat.one_le_two_pow
    simp only [MaxNodeCount]
    omega
  rw [NodeCreate]
  simp only []
  rw [if_neg (by omega : ¬ (t.nodeCount = t.size ∧ t.size = MaxNodeCount w))]
  by_cases hgrow : t.nodeCount = t.size
  · rw [if_pos hgrow]
    have hs2 : t.size * 2 % 2 ^ 64 = t.size * 2 := Nat.mod_eq_of_lt (by omega)
    set size3 := if t.size * 2 % 2 ^ 64 > MaxNodeCount w then MaxNodeCount w
      else t.size * 2 % 2 ^ 64 with hsize3
    have hs3a : t.nodeCount < size3 := by
      rw [hsize3, hs2]
      split <;> omega
    have hs3b : size3 ≤ MaxNodeCount w := by
      rw [hsize3, hs2]
      split <;> omega
    have hs3mod : size3 % 2 ^ w = size3 := Nat.mod_eq_of_lt (by omega)
    have hs3pos : size3 ≠ 0 := by omega
    have hcs_nodes : (CreateSize w size3).nodes = List.replicate size3 defaultNode := by
      simp [CreateSize, if_neg hs3pos, hs3mod]
    have hcs_size : (CreateSize w size3).size = size3 := by
      simp [CreateSize, if_neg hs3pos, hs3mod]
    have hassign : Assign w (CreateSize w size3) t =
        (true, TreeInformationAssign
          { CreateSize w size3 with
            nodes := NodeAssign w (CreateSize w size3).nodes t.nodes t.nodeCount } t) := by
      rw [Assign, if_neg (by rw [hcs_size]; omega), if_pos (by rw [hbitw]; exact hw)]
    rw [hassign]
    set g := TreeInformationAssign
      { CreateSize w size3 with
        nodes := NodeAssign w (CreateSize w size3).nodes t.nodes t.nodeCount } t with hg
    have hglen : g.nodes.length = size3 := by
      show (NodeAssign w (CreateSize w size3).nodes t.nodes t.nodeCount).length = size3
      rw [NodeAssign_length, hcs_nodes, List.length_replicate]
    have hgets : ∀ j, j < t.nodeCount → getN g j = getN t j := by
      intro j hj
      have h1 : getN g j = convertNode w (t.nodes.getD j defaultNode) := by
        show (NodeAssign w (CreateSize w size3).nodes t.nodes t.nodeCount).getD j
          defaultNode = _
        exact NodeAssign_getD_lt w _ _ t.nodeCount j hj
          (by rw [hcs_nodes, List.length_replicate]; omega)
      rw [h1]
      exact convertNode_id w _ (hlb j hj).1 (hlb j hj).2.1 (hlb j hj).2.2
    have hgcount : g.nodeCount = t.nodeCount := rfl
    have hcnt_len : t.nodeCount < g.nodes.length := by omega
    refine ⟨_, rfl, ?_, rfl, rfl, ?_, ?_, ?_, ?_, ?_, ?_⟩
    · show g.nodeCount + 1 = t.nodeCount + 1
      rw [hgcount]
    · show (setN g t.nodeCount _).nodes.length = g.size
      rw [setN_length]
      rw [hglen]
      exact (hcs_size).symm
    · show g.nodeCount + 1 ≤ g.size
      have : g.size = size3 := hcs_size
      omega
    · show g.size ≤ MaxNodeCount w
      have : g.size = size3 := hcs_size
      omega
    · show 1 ≤ g.size
      have : g.size = size3 := hcs_size
      omega
    · intro j hj
      show getN (setN g t.nodeCount _) j = getN t j
      rw [getN_setN_ne g t.nodeCount j _ (by omega), hgets j hj]
    · show getN (setN g t.nodeCount _) t.nodeCount = _
      rw [getN_setN_lt g t.nodeCount _ hcnt_len]
  · rw [if_neg hgrow]
    have hcnt_len : t.nodeCount < t.nodes.length := by omega
    refine ⟨_, rfl, rfl, rfl, hbitw, ?_, ?_, hsize, hsizePos, ?_, ?_⟩
    · show (setN t t.nodeCount _).nodes.length = t.size
      rw [setN_length]
      exact hlen
    · show t.nodeCount + 1 ≤ t.size
      omega
    · intro j hj
      show getN (setN t t.nodeCount _) j = getN t j
      exact getN_setN_ne t t.nodeCount j _ (by omega)
    · show getN (setN t t.nodeCount _) t.nodeCount = _
      rw [getN_setN_lt t t.nodeCount _ hcnt_len]


theorem Inv_link_bounds {w : Nat} {t : RBTree} (hInv : Inv w t) :
    ∀ j, j < t.nodeCount → (getN t j).fatherIndex < 2 ^ w ∧
      (getN t j).leftIndex < 2 ^ w ∧ (getN t j).rightIndex < 2 ^ w := by
  intro j hj
  have hMw : MaxNodeCount w < 2 ^ w := by
    have h1 : 1 ≤ 2 ^ w := Nat.one_le_two_pow
    simp only [MaxNodeCount]
    omega
  have hcz : t.nodeCount ≠ 0 := by omega
  obtain ⟨tr, htr, hperm, hkeys, hpar⟩ := hInv.struct hcz
  have hjm : j ∈ tr.inorder := hperm.mem_iff.mpr (List.mem_range.mpr hj)
  have hcM : t.nodeCount ≤ MaxNodeCount w := le_trans hInv.countLe hInv.sizeLe
  refine ⟨?_, ?_, ?_⟩
  · rcases parentOkB_father_mem t tr (MaxNodeCount w) hpar j hjm with h1 | h1
    · omega
    · have := Abs_mem_lt hperm h1
      omega
  · rcases (links_mem w t (t.nodeCount + 1) t.rootIndex tr htr j hjm).1 with h1 | h1
    · omega
    · have := Abs_mem_lt hperm h1
      omega
  · rcases (links_mem w t (t.nodeCount + 1) t.rootIndex tr htr j hjm).2 with h1 | h1
    · omega
    · have := Abs_mem_lt hperm h1
      omega

/-! ### The BST search descent -/

theorem searchLoop_spec (w : Nat) : ∀ (f : Nat) (t : RBTree) (k : Int) (c : Nat) (sub : BTree),
    toTree w t f c = some sub → c ≠ MaxNodeCount w →
    List.Pairwise (fun a b => a < b) (inorderKeys t sub) →
    ∀ fuel, f ≤ fuel →
    ∃ res, searchLoop w t k c fuel = some res ∧
      ((res = none ∧ ∀ j ∈ sub.inorder, (getN t j).key ≠ k) ∨
       (∃ j, j ∈ sub.inorder ∧ (getN t j).key = k ∧ res = some (getN t j).value)) := by
  intro f
  induction f with
  | zero => intro t k c sub h; simp [toTree] at h
  | succ n ih =>
    intro t k c sub h hcM hsort fuel hfuel
    obtain ⟨l, r, f2, hf2, htr, hl, hr⟩ := toTree_node_shape w h hcM
    simp only [Nat.succ.injEq] at hf2
    subst hf2
    subst htr
    have hio : (BTree.node l c r).inorder = l.inorder ++ c :: r.inorder := rfl
    have hsortl : List.Pairwise (fun a b => a < b) (inorderKeys t l) := by
      rw [inorderKeys, hio, List.map_append, List.pairwise_append] at hsort
      exact hsort.1
    have hsortr : List.Pairwise (fun a b => a < b) (inorderKeys t r) := by
      rw [inorderKeys, hio, List.map_append, List.pairwise_append] at hsort
      exact (List.pairwise_cons.mp hsort.2.1).2
    have hlc : ∀ j ∈ l.inorder, (getN t j).key < (getN t c).key := by
      intro j hj
      rw [inorderKeys, hio, List.map_append, List.pairwise_append] at hsort
      exact hsort.2.2 _ (List.mem_map_of_mem _ hj) _ (by simp)
    have hrc : ∀ j ∈ r.inorder, (getN t c).key < (getN t j).key := by
      intro j hj
      rw [inorderKeys, hio, List.map_append, List.pairwise_append] at hsort
      exact (List.pairwise_cons.mp hsort.2.1).1 _ (List.mem_map_of_mem _ hj)
    cases fuel with
    | zero => omega
    | succ m =>
      rw [searchLoop]
      by_cases hgt : k > (getN t c).key
      · rw [if_pos hgt]
        by_cases hrM : (getN t c).rightIndex = MaxNodeCount w
        · rw [if_pos hrM]
          have hrnil : r = BTree.nil := toTree_at_nil w t n (hrM ▸ hr)
          subst hrnil
          refine ⟨none, rfl, Or.inl ⟨rfl, ?_⟩⟩
          intro j hj
          rw [hio] at hj
          simp only [List.mem_append, List.mem_cons] at hj
          rcases hj with hj | hj | hj
          · have := hlc j hj
            omega
          · subst hj
            omega
          · simp [BTree.inorder] at hj
        · rw [if_neg hrM]
          obtain ⟨res, hres, hcase⟩ := ih t k ((getN t c).rightIndex) r hr hrM hsortr m (by omega)
          refine ⟨res, hres, ?_⟩
          rcases hcase with ⟨h1, h2⟩ | ⟨j, hj, hk, hres2⟩
          · refine Or.inl ⟨h1, ?_⟩
            intro j hj
            rw [hio] at hj
            simp only [List.mem_append, List.mem_cons] at hj
            rcases hj with hj | hj | hj
            · have := hlc j hj
              omega
            · subst hj
              omega
            · exact h2 j hj
          · exact Or.inr ⟨j, by rw [hio]; simp [hj], hk, hres2⟩
      · rw [if_neg hgt]
        by_cases hlt : k < (getN t c).key
        · rw [if_pos hlt]
          by_cases hlM : (getN t c).leftIndex = MaxNodeCount w
          · rw [if_pos hlM]
            have hlnil : l = BTree.nil := toTree_at_nil w t n (hlM ▸ hl)
            subst hlnil
            refine ⟨none, rfl, Or.inl ⟨rfl, ?_⟩⟩
            intro j hj
            rw [hio] at hj
            simp only [List.mem_append, List.mem_cons] at hj
            rcases hj with hj | hj | hj
            · simp [BTree.inorder] at hj
            · subst hj
              omega
            · have := hrc j hj
              omega
          · rw [if_neg hlM]
            obtain ⟨res, hres, hcase⟩ := ih t k ((getN t c).leftIndex) l hl hlM hsortl m (by omega)
            refine ⟨res, hres, ?_⟩
            rcases hcase with ⟨h1, h2⟩ | ⟨j, hj, hk, hres2⟩
            · refine Or.inl ⟨h1, ?_⟩
              intro j hj
              rw [hio] at hj
              simp only [List.mem_append, List.mem_cons] at hj
              rcases hj with hj | hj | hj
              · exact h2 j hj
              · subst hj
                omega
              · have := hrc j hj
                omega
            · exact Or.inr ⟨j, by rw [hio]; simp [hj], hk, hres2⟩
        · rw [if_neg hlt]
          refine ⟨some (getN t c).value, rfl, Or.inr ⟨c, by rw [hio]; simp, by omega, rfl⟩⟩


/-! ### The BST insert descent -/

theorem insAbs_split (t : RBTree) (k : Int) (n0 : Nat) :
    ∀ sub : BTree, (∀ j ∈ sub.inorder, (getN t j).key ≠ k) →
    ∃ A B, sub.inorder = A ++ B ∧ (insAbs t k n0 sub).inorder = A ++ n0 :: B ∧
      (List.Pairwise (fun a b => a < b) (inorderKeys t sub) →
        (∀ j ∈ A, (getN t j).key < k) ∧ (∀ j ∈ B, k < (getN t j).key)) := by
  intro sub
  induction sub with
  | nil =>
    exact fun _ => ⟨[], [], rfl, rfl, fun _ => ⟨by simp, by simp⟩⟩
  | node l c r ihl ihr =>
    intro hfresh
    have hio : (BTree.node l c r).inorder = l.inorder ++ c :: r.inorder := rfl
    have hsplit : ∀ hs : List.Pairwise (fun a b => a < b)
        (inorderKeys t (BTree.node l c r)),
        List.Pairwise (fun a b => a < b) (inorderKeys t l) ∧
        List.Pairwise (fun a b => a < b) (inorderKeys t r) ∧
        (∀ j ∈ l.inorder, (getN t j).key < (getN t c).key) ∧
        (∀ j ∈ r.inorder, (getN t c).key < (getN t j).key) := by
      intro hs
      rw [inorderKeys, hio, List.map_append, List.pairwise_append] at hs
      refine ⟨hs.1, (List.pairwise_cons.mp hs.2.1).2, ?_, ?_⟩
      · intro j hj
        exact hs.2.2 _ (List.mem_map_of_mem _ hj) _ (by simp)
      · intro j hj
        exact (List.pairwise_cons.mp hs.2.1).1 _ (List.mem_map_of_mem _ hj)
    by_cases hgt : k > (getN t c).key
    · obtain ⟨A, B, h1, h2, h3⟩ := ihr (fun j hj => hfresh j (by rw [hio]; simp [hj]))
      refine ⟨l.inorder ++ c :: A, B, ?_, ?_, ?_⟩
      · rw [hio, h1]
        simp
      · show (insAbs t k n0 (BTree.node l c r)).inorder = _
        rw [insAbs, if_pos hgt]
        show l.inorder ++ c :: (insAbs t k n0 r).inorder = _
        rw [h2]
        simp
      · intro hs
        obtain ⟨hsl, hsr, hlc, hrc⟩ := hsplit hs
        obtain ⟨hA, hB⟩ := h3 hsr
        refine ⟨?_, hB⟩
        intro j hj
        simp only [List.mem_append, List.mem_cons] at hj
        rcases hj with hj | hj | hj
        · have := hlc j hj
          omega
        · subst hj
          omega
        · exact hA j hj
    · by_cases hlt : k < (getN t c).key
      · obtain ⟨A, B, h1, h2, h3⟩ := ihl (fun j hj => hfresh j (by rw [hio]; simp [hj]))
        refine ⟨A, B ++ c :: r.inorder, ?_, ?_, ?_⟩
        · rw [hio, h1]
          simp
        · show (insAbs t k n0 (BTree.node l c r)).inorder = _
          rw [insAbs, if_neg (by omega), if_pos hlt]
          show (insAbs t k n0 l).inorder ++ c :: r.inorder = _
          rw [h2]
          simp
        · intro hs
          obtain ⟨hsl, hsr, hlc, hrc⟩ := hsplit hs
          obtain ⟨hA, hB⟩ := h3 hsl
          refine ⟨hA, ?_⟩
          intro j hj
          simp only [List.mem_append, List.mem_cons] at hj
          rcases hj with hj | hj | hj
          · exact hB j hj
          · subst hj
            omega
          · have := hrc j hj
            omega
      · exact absurd (by omega : (getN t c).key = k) (hfresh c (by rw [hio]; simp))


theorem insertLoop_dup (w : Nat) (t : RBTree) (k v : Int) :
    ∀ (f : Nat) (c : Nat) (sub : BTree), toTree w t f c = some sub →
    c ≠ MaxNodeCount w →
    List.Pairwise (fun a b => a < b) (inorderKeys t sub) →
    (∃ j ∈ sub.inorder, (getN t j).key = k) →
    ∀ fuel, f ≤ fuel →
    ∃ j0, j0 ∈ sub.inorder ∧ (getN t j0).key = k ∧
      insertLoop w t k v c fuel = some (true, setValue t j0 v, none) := by
  intro f
  induction f with
  | zero => intro c sub h; simp [toTree] at h
  | succ n ih =>
    intro c sub h hcM hsort hex fuel hfuel
    obtain ⟨l, r, f2, hf2, htr, hl, hr⟩ := toTree_node_shape w h hcM
    simp only [Nat.succ.injEq] at hf2
    subst hf2
    subst htr
    have hio : (BTree.node l c r).inorder = l.inorder ++ c :: r.inorder := rfl
    have hsp : List.Pairwise (fun a b => a < b) (inorderKeys t l) ∧
        List.Pairwise (fun a b => a < b) (inorderKeys t r) ∧
        (∀ j ∈ l.inorder, (getN t j).key < (getN t c).key) ∧
        (∀ j ∈ r.inorder, (getN t c).key < (getN t j).key) := by
      rw [inorderKeys, hio, List.map_append, List.pairwise_append] at hsort
      refine ⟨hsort.1, (List.pairwise_cons.mp hsort.2.1).2, ?_, ?_⟩
      · intro j hj
        exact hsort.2.2 _ (List.mem_map_of_mem _ hj) _ (by simp)
      · intro j hj
        exact (List.pairwise_cons.mp hsort.2.1).1 _ (List.mem_map_of_mem _ hj)
    obtain ⟨j, hjm, hjk⟩ := hex
    cases fuel with
    | zero => omega
    | succ m =>
      rw [insertLoop]
      by_cases hgt : k > (getN t c).key
      · rw [if_pos hgt]
        have hjr : j ∈ r.inorder := by
          rw [hio] at hjm
          simp only [List.mem_append, List.mem_cons] at hjm
          rcases hjm with hj1 | hj1 | hj1
          · have := hsp.2.2.1 j hj1
            omega
          · subst hj1
            omega
          · exact hj1
        have hrM : (getN t c).rightIndex ≠ MaxNodeCount w := by
          intro hh
          have : r = BTree.nil := toTree_at_nil w t n (hh ▸ hr)
          subst this
          simp [BTree.inorder] at hjr
        rw [if_neg hrM]
        obtain ⟨j0, hj0m, hj0k, hrec⟩ := ih ((getN t c).rightIndex) r hr hrM hsp.2.1
          ⟨j, hjr, hjk⟩ m (by omega)
        exact ⟨j0, by rw [hio]; simp [hj0m], hj0k, hrec⟩
      · rw [if_neg hgt]
        by_cases hlt : k < (getN t c).key
        · rw [if_pos hlt]
          have hjl : j ∈ l.inorder := by
            rw [hio] at hjm
            simp only [List.mem_append, List.mem_cons] at hjm
            rcases hjm with hj1 | hj1 | hj1
            · exact hj1
            · subst hj1
              omega
            · have := hsp.2.2.2 j hj1
              omega
          have hlM : (getN t c).leftIndex ≠ MaxNodeCount w := by
            intro hh
            have : l = BTree.nil := toTree_at_nil w t n (hh ▸ hl)
            subst this
            simp [BTree.inorder] at hjl
          rw [if_neg hlM]
          obtain ⟨j0, hj0m, hj0k, hrec⟩ := ih ((getN t c).leftIndex) l hl hlM hsp.1
            ⟨j, hjl, hjk⟩ m (by omega)
          exact ⟨j0, by rw [hio]; simp [hj0m], hj0k, hrec⟩
        · rw [if_neg hlt]
          exact ⟨c, by rw [hio]; simp, by omega, rfl⟩


theorem toTree_M (w : Nat) (t : RBTree) : ∀ f, 1 ≤ f →
    toTree w t f (MaxNodeCount w) = some BTree.nil := by
  intro f hf
  cases f with
  | zero => omega
  | succ n => rw [toTree, if_pos rfl]

theorem insertLoop_fresh (w : Nat) (t : RBTree) (k v : Int)
    (hroom : t.nodeCount < MaxNodeCount w)
    (hlen : t.nodes.length = t.size) (hcount : t.nodeCount ≤ t.size)
    (hsize : t.size ≤ MaxNodeCount w) (hsizePos : 1 ≤ t.size)
    (hbitw : t.bitLength = w) (hw : w = 16 ∨ w = 32 ∨ w = 64)
    (hov : 2 * t.size < 2 ^ 64)
    (hlb : ∀ j, j < t.nodeCount → (getN t j).fatherIndex < 2 ^ w ∧
      (getN t j).leftIndex < 2 ^ w ∧ (getN t j).rightIndex < 2 ^ w) :
    ∀ (f : Nat) (c : Nat) (sub : BTree),
    toTree w t f c = some sub → c ≠ MaxNodeCount w →
    sub.inorder.Nodup →
    (∀ j ∈ sub.inorder, j < t.nodeCount) →
    (∀ j ∈ sub.inorder, (getN t j).key ≠ k) →
    ∀ fuel, f ≤ fuel →
    ∃ t2, insertLoop w t k v c fuel = some (true, t2, some t.nodeCount) ∧
      toTree w t2 (f + 1) c = some (insAbs t k t.nodeCount sub) ∧
      t2.nodeCount = t.nodeCount + 1 ∧ t2.rootIndex = t.rootIndex ∧
      t2.bitLength = w ∧ t2.nodes.length = t2.size ∧ t2.nodeCount ≤ t2.size ∧
      t2.size ≤ MaxNodeCount w ∧ 1 ≤ t2.size ∧
      (∀ j, j < t.nodeCount → (getN t2 j).key = (getN t j).key ∧
        (getN t2 j).value = (getN t j).value ∧ (getN t2 j).color = (getN t j).color ∧
        (getN t2 j).fatherIndex = (getN t j).fatherIndex) ∧
      (getN t2 t.nodeCount).key = k ∧ (getN t2 t.nodeCount).value = v ∧
      (getN t2 t.nodeCount).color = Color.Red ∧
      (getN t2 t.nodeCount).leftIndex = MaxNodeCount w ∧
      (getN t2 t.nodeCount).rightIndex = MaxNodeCount w ∧
      (getN t2 t.nodeCount).fatherIndex ∈ sub.inorder ∧
      (∀ j, j < t.nodeCount → j ∉ sub.inorder →
        (getN t2 j).leftIndex = (getN t j).leftIndex ∧
        (getN t2 j).rightIndex = (getN t j).rightIndex) ∧
      (∀ c0, parentOkB t sub c0 = true →
        parentOkB t2 (insAbs t k t.nodeCount sub) c0 = true) := by
  intro f
  induction f with
  | zero => intro c sub h; simp [toTree] at h
  | succ n ih =>
    intro c sub h hcM hnd hmem hfresh fuel hfuel
    obtain ⟨l, r, f2, hf2, htr, hl, hr⟩ := toTree_node_shape w h hcM
    simp only [Nat.succ.injEq] at hf2
    subst hf2
    subst htr
    have hio : (BTree.node l c r).inorder = l.inorder ++ c :: r.inorder := rfl
    have hcmem : c ∈ (BTree.node l c r).inorder := by rw [hio]; simp
    have hclt : c < t.nodeCount := hmem c hcmem
    have hndp : l.inorder.Nodup ∧ (c :: r.inorder).Nodup ∧
        l.inorder.Disjoint (c :: r.inorder) := by
      have h2 := hnd
      rw [hio, List.nodup_append] at h2
      exact h2
    cases fuel with
    | zero => omega
    | succ m =>
      rw [insertLoop]
      by_cases hgt : k > (getN t c).key
      · rw [if_pos hgt]
        by_cases hrM : (getN t c).rightIndex = MaxNodeCount w
        · -- graft the new leaf as the right child of c
          rw [if_pos hrM, if_neg (by omega : ¬ t.nodeCount = MaxNodeCount w)]
          have hrnil : r = BTree.nil := toTree_at_nil w t n (hrM ▸ hr)
          subst hrnil
          obtain ⟨t0, hnc, h1, h2, h3, h4, h5, h6, h7, h8, h9⟩ :=
            NodeCreate_spec w t c k v hroom hlen hcount hsize hsizePos hbitw hw hov hlb
          rw [hnc]
          have hclen : c < t0.nodes.length := by
            rw [h4]
            omega
          have hgc : getN (setRight t0 c t.nodeCount) c =
              { getN t c with rightIndex := t.nodeCount } := by
            rw [getN_setRight_self t0 c t.nodeCount hclen, h8 c hclt]
          have hgn0 : getN (setRight t0 c t.nodeCount) t.nodeCount =
              { fatherIndex := c, leftIndex := MaxNodeCount w,
                rightIndex := MaxNodeCount w, color := Color.Red, key := k, value := v } := by
            rw [getN_setRight_ne t0 c t.nodeCount t.nodeCount (by omega), h9]
          have hgother : ∀ j, j < t.nodeCount → j ≠ c →
              getN (setRight t0 c t.nodeCount) j = getN t j := by
            intro j hj hjc
            rw [getN_setRight_ne t0 c t.nodeCount j hjc, h8 j hj]
          have hiAbs : insAbs t k t.nodeCount (BTree.node l c BTree.nil) =
              BTree.node l c (BTree.node BTree.nil t.nodeCount BTree.nil) := by
            rw [insAbs, if_pos hgt]
            rfl
          have hn1 : 1 ≤ n := by
            cases n with
            | zero => simp [toTree] at hl
            | succ n2 => omega
          refine ⟨setRight t0 c t.nodeCount, rfl, ?_, h1, h2, h3, ?_, h5, h6, h7,
            ?_, ?_, ?_, ?_, ?_, ?_, ?_, ?_, ?_⟩
          · rw [hiAbs]
            rw [toTree, if_neg hcM, hgc]
            have hltree : toTree w (setRight t0 c t.nodeCount) (n + 1)
                (getN t c).leftIndex = some l := by
              refine toTree_le_mono w (by omega : n ≤ n + 1) ?_
              refine toTree_congr w n t _ _ l hl ?_
              intro j hj
              have hjl : j < t.nodeCount := hmem j (by rw [hio]; simp [hj])
              have hjc : j ≠ c := by
                intro hh
                exact hndp.2.2 (hh ▸ hj) (by simp)
              rw [hgother j hjl hjc]
              exact ⟨rfl, rfl⟩
            have hrtree : toTree w (setRight t0 c t.nodeCount) (n + 1) t.nodeCount =
                some (BTree.node BTree.nil t.nodeCount BTree.nil) := by
              rw [toTree, if_neg (by omega : ¬ t.nodeCount = MaxNodeCount w), hgn0]
              rw [toTree_M w _ n hn1]
            show (match toTree w (setRight t0 c t.nodeCount) (n + 1) (getN t c).leftIndex,
                toTree w (setRight t0 c t.nodeCount) (n + 1) t.nodeCount with
              | some l2, some r2 => some (BTree.node l2 c r2)
              | _, _ => none) = _
            rw [hltree, hrtree]
          · show (setN t0 c _).nodes.length = t0.size
            rw [setN_length]
            exact h4
          · intro j hj
            by_cases hjc : j = c
            · subst hjc
              rw [hgc]
              exact ⟨rfl, rfl, rfl, rfl⟩
            · rw [hgother j hj hjc]
              exact ⟨rfl, rfl, rfl, rfl⟩
          · rw [hgn0]
          · rw [hgn0]
          · rw [hgn0]
          · rw [hgn0]
          · rw [hgn0]
          · rw [hgn0]
            exact hcmem
          · intro j hj hjs
            have hjc : j ≠ c := fun hh => hjs (hh ▸ hcmem)
            rw [hgother j hj hjc]
            exact ⟨rfl, rfl⟩
          · intro c0 hp
            rw [hiAbs]
            rw [parentOkB_node] at hp ⊢
            refine ⟨?_, ?_, ?_⟩
            · rw [hgc]
              exact hp.1
            · rw [parentOkB_congr_mem t _ l c ?_]
              · exact hp.2.1
              · intro j hj
                have hjl : j < t.nodeCount := hmem j (by rw [hio]; simp [hj])
                have hjc : j ≠ c := by
                  intro hh
                  exact hndp.2.2 (hh ▸ hj) (by simp)
                rw [hgother j hjl hjc]
            · rw [parentOkB_node]
              refine ⟨?_, rfl, rfl⟩
              rw [hgn0]
        · -- descend to the right child
          rw [if_neg hrM]
          have hrm : ∀ j ∈ r.inorder, j < t.nodeCount := by
            intro j hj
            exact hmem j (by rw [hio]; simp [hj])
          obtain ⟨t2, hloop, htree, hcc, hrr, hbb, hll, hc2, hs2, hp2, hkvf, hk1, hk2,
            hk3, hk4, hk5, hk6, hlr, hpar⟩ :=
            ih ((getN t c).rightIndex) r hr hrM
              ((List.nodup_cons.mp hndp.2.1).2) hrm
              (fun j hj => hfresh j (by rw [hio]; simp [hj])) m (by omega)
          have hiAbs : insAbs t k t.nodeCount (BTree.node l c r) =
              BTree.node l c (insAbs t k t.nodeCount r) := by
            rw [insAbs, if_pos hgt]
          have hcnr : c ∉ r.inorder := (List.nodup_cons.mp hndp.2.1).1
          have hgc2 : (getN t2 c).leftIndex = (getN t c).leftIndex ∧
              (getN t2 c).rightIndex = (getN t c).rightIndex :=
            hlr c hclt hcnr
          refine ⟨t2, hloop, ?_, hcc, hrr, hbb, hll, hc2, hs2, hp2, hkvf, hk1, hk2,
            hk3, hk4, hk5, by rw [hio]; simp [hk6], ?_, ?_⟩
          · rw [hiAbs]
            rw [toTree, if_neg hcM, hgc2.1, hgc2.2]
            have hltree : toTree w t2 (n + 1) (getN t c).leftIndex = some l := by
              refine toTree_le_mono w (by omega : n ≤ n + 1) ?_
              refine toTree_congr w n t t2 _ l hl ?_
              intro j hj
              have hjl : j < t.nodeCount := hmem j (by rw [hio]; simp [hj])
              exact hlr j hjl (fun hh =>
                hndp.2.2 hj (List.mem_cons_of_mem _ hh))
            show (match toTree w t2 (n + 1) (getN t c).leftIndex,
                toTree w t2 (n + 1) (getN t c).rightIndex with
              | some l2, some r2 => some (BTree.node l2 c r2)
              | _, _ => none) = _
            rw [hltree, htree]
          · intro j hj hjs
            refine hlr j hj (fun hh => hjs ?_)
            rw [hio]
            simp [hh]
          · intro c0 hp
            rw [hiAbs]
            rw [parentOkB_node] at hp ⊢
            refine ⟨?_, ?_, ?_⟩
            · rw [(hkvf c hclt).2.2.2]
              exact hp.1
            · rw [parentOkB_congr_mem t t2 l c ?_]
              · exact hp.2.1
              · intro j hj
                have hjl : j < t.nodeCount := hmem j (by rw [hio]; simp [hj])
                exact (hkvf j hjl).2.2.2
            · exact hpar c hp.2.2
      · rw [if_neg hgt]
        by_cases hlt : k < (getN t c).key
        · rw [if_pos hlt]
          by_cases hlM : (getN t c).leftIndex = MaxNodeCount w
          · -- graft the new leaf as the left child of c
            rw [if_pos hlM, if_neg (by omega : ¬ t.nodeCount = MaxNodeCount w)]
            have hlnil : l = BTree.nil := toTree_at_nil w t n (hlM ▸ hl)
            subst hlnil
            obtain ⟨t0, hnc, h1, h2, h3, h4, h5, h6, h7, h8, h9⟩ :=
              NodeCreate_spec w t c k v hroom hlen hcount hsize hsizePos hbitw hw hov hlb
            rw [hnc]
            have hclen : c < t0.nodes.length := by
              rw [h4]
              omega
            have hgc : getN (setLeft t0 c t.nodeCount) c =
                { getN t c with leftIndex := t.nodeCount } := by
              rw [getN_setLeft_self t0 c t.nodeCount hclen, h8 c hclt]
            have hgn0 : getN (setLeft t0 c t.nodeCount) t.nodeCount =
                { fatherIndex := c, leftIndex := MaxNodeCount w,
                  rightIndex := MaxNodeCount w, color := Color.Red, key := k, value := v } := by
              rw [getN_setLeft_ne t0 c t.nodeCount t.nodeCount (by omega), h9]
            have hgother : ∀ j, j < t.nodeCount → j ≠ c →
                getN (setLeft t0 c t.nodeCount) j = getN t j := by
              intro j hj hjc
              rw [getN_setLeft_ne t0 c t.nodeCount j hjc, h8 j hj]
            have hiAbs : insAbs t k t.nodeCount (BTree.node BTree.nil c r) =
                BTree.node (BTree.node BTree.nil t.nodeCount BTree.nil) c r := by
              rw [insAbs, if_neg (by omega), if_pos hlt]
              rfl
            have hn1 : 1 ≤ n := by
              cases n with
              | zero => simp [toTree] at hr
              | succ n2 => omega
            refine ⟨setLeft t0 c t.nodeCount, rfl, ?_, h1, h2, h3, ?_, h5, h6, h7,
              ?_, ?_, ?_, ?_, ?_, ?_, ?_, ?_, ?_⟩
            · rw [hiAbs]
              rw [toTree, if_neg hcM, hgc]
              have hrtree : toTree w (setLeft t0 c t.nodeCount) (n + 1)
                  (getN t c).rightIndex = some r := by
                refine toTree_le_mono w (by omega : n ≤ n + 1) ?_
                refine toTree_congr w n t _ _ r hr ?_
                intro j hj
                have hjl : j < t.nodeCount := hmem j (by rw [hio]; simp [hj])
                have hjc : j ≠ c := by
                  intro hh
                  subst hh
                  exact (List.nodup_cons.mp hndp.2.1).1 hj
                rw [hgother j hjl hjc]
                exact ⟨rfl, rfl⟩
              have hltree : toTree w (setLeft t0 c t.nodeCount) (n + 1) t.nodeCount =
                  some (BTree.node BTree.nil t.nodeCount BTree.nil) := by
                rw [toTree, if_neg (by omega : ¬ t.nodeCount = MaxNodeCount w), hgn0]
                rw [toTree_M w _ n hn1]
              show (match toTree w (setLeft t0 c t.nodeCount) (n + 1) t.nodeCount,
                  toTree w (setLeft t0 c t.nodeCount) (n + 1) (getN t c).rightIndex with
                | some l2, some r2 => some (BTree.node l2 c r2)
                | _, _ => none) = _
              rw [hltree, hrtree]
            · show (setN t0 c _).nodes.length = t0.size
              rw [setN_length]
              exact h4
            · intro j hj
              by_cases hjc : j = c
              · subst hjc
                rw [hgc]
                exact ⟨rfl, rfl, rfl, rfl⟩
              · rw [hgother j hj hjc]
                exact ⟨rfl, rfl, rfl, rfl⟩
            · rw [hgn0]
            · rw [hgn0]
            · rw [hgn0]
            · rw [hgn0]
            · rw [hgn0]
            · rw [hgn0]
              exact hcmem
            · intro j hj hjs
              have hjc : j ≠ c := fun hh => hjs (hh ▸ hcmem)
              rw [hgother j hj hjc]
              exact ⟨rfl, rfl⟩
            · intro c0 hp
              rw [hiAbs]
              rw [parentOkB_node] at hp ⊢
              refine ⟨?_, ?_, ?_⟩
              · rw [hgc]
                exact hp.1
              · rw [parentOkB_node]
                refine ⟨?_, rfl, rfl⟩
                rw [hgn0]
              · rw [parentOkB_congr_mem t _ r c ?_]
                · exact hp.2.2
                · intro j hj
                  have hjl : j < t.nodeCount := hmem j (by rw [hio]; simp [hj])
                  have hjc : j ≠ c := by
                    intro hh
                    subst hh
                    exact (List.nodup_cons.mp hndp.2.1).1 hj
                  rw [hgother j hjl hjc]
          · -- descend to the left child
            rw [if_neg hlM]
            have hlm : ∀ j ∈ l.inorder, j < t.nodeCount := by
              intro j hj
              exact hmem j (by rw [hio]; simp [hj])
            obtain ⟨t2, hloop, htree, hcc, hrr, hbb, hll, hc2, hs2, hp2, hkvf, hk1, hk2,
              hk3, hk4, hk5, hk6, hlr, hpar⟩ :=
              ih ((getN t c).leftIndex) l hl hlM hndp.1 hlm
                (fun j hj => hfresh j (by rw [hio]; simp [hj])) m (by omega)
            have hiAbs : insAbs t k t.nodeCount (BTree.node l c r) =
                BTree.node (insAbs t k t.nodeCount l) c r := by
              rw [insAbs, if_neg (by omega), if_pos hlt]
            have hcnl : c ∉ l.inorder := fun hh => hndp.2.2 hh (by simp)
            have hgc2 : (getN t2 c).leftIndex = (getN t c).leftIndex ∧
                (getN t2 c).rightIndex = (getN t c).rightIndex :=
              hlr c hclt hcnl
            refine ⟨t2, hloop, ?_, hcc, hrr, hbb, hll, hc2, hs2, hp2, hkvf, hk1, hk2,
              hk3, hk4, hk5, by rw [hio]; simp [hk6], ?_, ?_⟩
            · rw [hiAbs]
              rw [toTree, if_neg hcM, hgc2.1, hgc2.2]
              have hrtree : toTree w t2 (n + 1) (getN t c).rightIndex = some r := by
                refine toTree_le_mono w (by omega : n ≤ n + 1) ?_
                refine toTree_congr w n t t2 _ r hr ?_
                intro j hj
                have hjl : j < t.nodeCount := hmem j (by rw [hio]; simp [hj])
                refine hlr j hjl (fun hh => ?_)
                exact hndp.2.2 hh (List.mem_cons_of_mem _ hj)
              show (match toTree w t2 (n + 1) (getN t c).leftIndex,
                  toTree w t2 (n + 1) (getN t c).rightIndex with
                | some l2, some r2 => some (BTree.node l2 c r2)
                | _, _ => none) = _
              rw [htree, hrtree]
            · intro j hj hjs
              refine hlr j hj (fun hh => hjs ?_)
              rw [hio]
              simp [hh]
            · intro c0 hp
              rw [hiAbs]
              rw [parentOkB_node] at hp ⊢
              refine ⟨?_, ?_, ?_⟩
              · rw [(hkvf c hclt).2.2.2]
                exact hp.1
              · exact hpar c hp.2.1
              · rw [parentOkB_congr_mem t t2 r c ?_]
                · exact hp.2.2
                · intro j hj
                  have hjl : j < t.nodeCount := hmem j (by rw [hio]; simp [hj])
                  exact (hkvf j hjl).2.2.2
        · exact absurd (by omega : (getN t c).key = k) (hfresh c hcmem)


/-! ### Subtree grafting -/

theorem toTree_det (w : Nat) {t : RBTree} {f1 f2 i : Nat} {a b : BTree}
    (h1 : toTree w t f1 i = some a) (h2 : toTree w t f2 i = some b) : a = b := by
  have h3 := toTree_le_mono w (Nat.le_max_left f1 f2) h1
  have h4 := toTree_le_mono w (Nat.le_max_right f1 f2) h2
  exact Option.some.inj (h3.symm.trans h4)

/-- Replacing the subtree rooted at slot `g` by a new tree rooted at slot
`g2`: if outside the old subtree only the one child link pointing to `g`
is redirected to `g2` and no father link changes, the whole abstraction is
rebuilt with the old block of the inorder listing replaced by the new one,
and father coherence transfers. -/
theorem toTree_graft (w : Nat) (t t2 : RBTree) (g g2 : Nat) (sub sub2 : BTree)
    (fg fs : Nat)
    (hsub : toTree w t fg g = some sub)
    (hsub2 : toTree w t2 fs g2 = some sub2)
    (hsub2par : parentOkB t2 sub2 ((getN t g).fatherIndex) = true) :
    ∀ (f : Nat) (c : Nat) (tr : BTree) (f0 : Nat),
    toTree w t f c = some tr → tr.inorder.Nodup →
    (∀ j ∈ tr.inorder, j ≠ MaxNodeCount w) →
    g ∈ tr.inorder →
    parentOkB t tr f0 = true →
    (∀ j ∈ tr.inorder, j ∉ sub.inorder →
      ((getN t j).leftIndex ≠ g → (getN t2 j).leftIndex = (getN t j).leftIndex) ∧
      ((getN t j).rightIndex ≠ g → (getN t2 j).rightIndex = (getN t j).rightIndex) ∧
      ((getN t j).leftIndex = g → (getN t2 j).leftIndex = g2) ∧
      ((getN t j).rightIndex = g → (getN t2 j).rightIndex = g2)) →
    (∀ j ∈ tr.inorder, j ∉ sub.inorder →
      (getN t2 j).fatherIndex = (getN t j).fatherIndex) →
    ∃ A D tr2, tr.inorder = A ++ sub.inorder ++ D ∧
      toTree w t2 (f + fs) (if c = g then g2 else c) = some tr2 ∧
      tr2.inorder = A ++ sub2.inorder ++ D ∧
      parentOkB t2 tr2 f0 = true := by
  intro f
  induction f with
  | zero => intro c tr f0 h; simp [toTree] at h
  | succ n ih =>
    intro c tr f0 h hnd hnM hgmem hpar hlink hfath
    by_cases hcM : c = MaxNodeCount w
    · rw [toTree, if_pos hcM] at h
      simp only [Option.some.injEq] at h
      subst h
      simp [BTree.inorder] at hgmem
    · obtain ⟨l, r, f2, hf2, htr, hl, hr⟩ := toTree_node_shape w h hcM
      simp only [Nat.succ.injEq] at hf2
      subst hf2
      subst htr
      have hio : (BTree.node l c r).inorder = l.inorder ++ c :: r.inorder := rfl
      rw [parentOkB_node] at hpar
      have hndp : l.inorder.Nodup ∧ (c :: r.inorder).Nodup ∧
          l.inorder.Disjoint (c :: r.inorder) := by
        have h2 := hnd
        rw [hio, List.nodup_append] at h2
        exact h2
      by_cases hcg : c = g
      · -- the graft point itself
        subst hcg
        have hsubeq : sub = BTree.node l c r := toTree_det w hsub h
        refine ⟨[], [], sub2, by rw [← hsubeq]; simp, ?_, by simp, ?_⟩
        · rw [if_pos rfl]
          exact toTree_le_mono w (by omega : fs ≤ n + 1 + fs) hsub2
        · rw [hpar.1] at hsub2par
          exact hsub2par
      · rw [if_neg hcg]
        have hgm : g ∈ l.inorder ∨ g ∈ r.inorder := by
          rw [hio] at hgmem
          simp only [List.mem_append, List.mem_cons] at hgmem
          rcases hgmem with h1 | h1 | h1
          · exact Or.inl h1
          · exact absurd h1.symm hcg
          · exact Or.inr h1
        rcases hgm with hgl | hgr
        · -- graft inside the left subtree
          obtain ⟨A2, D2, l2t, hdec, htree2, hino2, hpar2⟩ :=
            ih ((getN t c).leftIndex) l c hl hndp.1
              (fun j hj => hnM j (by rw [hio]; simp [hj]))
              hgl hpar.2.1
              (fun j hj hjs => hlink j (by rw [hio]; simp [hj]) hjs)
              (fun j hj hjs => hfath j (by rw [hio]; simp [hj]) hjs)
          have hsubl : ∀ x ∈ sub.inorder, x ∈ l.inorder := by
            intro x hx
            rw [hdec]
            simp [hx]
          have hcns : c ∉ sub.inorder := fun hcs =>
            hndp.2.2 (hsubl c hcs) (by simp)
          have hcmem2 : c ∈ (BTree.node l c r).inorder := by rw [hio]; simp
          have hlc := hlink c hcmem2 hcns
          have hrcg : (getN t c).rightIndex ≠ g := by
            by_cases hRM : (getN t c).rightIndex = MaxNodeCount w
            · rw [hRM]
              exact fun hh => hnM g (by rw [hio]; simp [hgl]) hh.symm
            · obtain ⟨l3, r3, f3, _, hsh, _, _⟩ := toTree_node_shape w hr hRM
              intro hh
              have hgr2 : g ∈ r.inorder := by
                rw [hsh, ← hh]
                simp [BTree.inorder]
              exact hndp.2.2 hgl (by simp [hgr2])
          have hrtree : toTree w t2 (n + fs) (getN t c).rightIndex = some r := by
            refine toTree_le_mono w (by omega : n ≤ n + fs) ?_
            refine toTree_congr w n t t2 _ r hr ?_
            intro j hj
            have hjs : j ∉ sub.inorder := by
              intro hjs2
              exact hndp.2.2 (hsubl j hjs2) (by simp [hj])
            have hjmem : j ∈ (BTree.node l c r).inorder := by rw [hio]; simp [hj]
            have hlj := hlink j hjmem hjs
            have hgnl : g ∉ r.inorder := fun hh => hndp.2.2 hgl (by simp [hh])
            obtain ⟨hLm, hRm⟩ := links_mem w t n ((getN t c).rightIndex) r hr j hj
            refine ⟨hlj.1 ?_, hlj.2.1 ?_⟩
            · rcases hLm with h1 | h1
              · rw [h1]
                exact fun hh => hnM g (by rw [hio]; simp [hgl]) hh.symm
              · exact fun hh => hgnl (hh ▸ h1)
            · rcases hRm with h1 | h1
              · rw [h1]
                exact fun hh => hnM g (by rw [hio]; simp [hgl]) hh.symm
              · exact fun hh => hgnl (hh ▸ h1)
          refine ⟨A2, D2 ++ c :: r.inorder, BTree.node l2t c r, ?_, ?_, ?_, ?_⟩
          · rw [hio, hdec]
            simp
          · rw [show n + 1 + fs = (n + fs) + 1 from by omega]
            rw [toTree, if_neg hcM]
            have hR2 : (getN t2 c).rightIndex = (getN t c).rightIndex := hlc.2.1 hrcg
            rw [hR2]
            by_cases hLg : (getN t c).leftIndex = g
            · rw [hlc.2.2.1 hLg]
              rw [if_pos hLg] at htree2
              show (match toTree w t2 (n + fs) g2,
                  toTree w t2 (n + fs) (getN t c).rightIndex with
                | some l3, some r3 => some (BTree.node l3 c r3)
                | _, _ => none) = _
              rw [htree2, hrtree]
            · rw [hlc.1 hLg]
              rw [if_neg hLg] at htree2
              show (match toTree w t2 (n + fs) (getN t c).leftIndex,
                  toTree w t2 (n + fs) (getN t c).rightIndex with
                | some l3, some r3 => some (BTree.node l3 c r3)
                | _, _ => none) = _
              rw [htree2, hrtree]
          · show l2t.inorder ++ c :: r.inorder = _
            rw [hino2]
            simp
          · rw [parentOkB_node]
            refine ⟨?_, hpar2, ?_⟩
            · rw [hfath c hcmem2 hcns]
              exact hpar.1
            · rw [parentOkB_congr_mem t t2 r c ?_]
              · exact hpar.2.2
              · intro j hj
                refine hfath j (by rw [hio]; simp [hj]) ?_
                intro hjs2
                exact hndp.2.2 (hsubl j hjs2) (by simp [hj])
        · -- graft inside the right subtree
          obtain ⟨A2, D2, r2t, hdec, htree2, hino2, hpar2⟩ :=
            ih ((getN t c).rightIndex) r c hr
              ((List.nodup_cons.mp hndp.2.1).2)
              (fun j hj => hnM j (by rw [hio]; simp [hj]))
              hgr hpar.2.2
              (fun j hj hjs => hlink j (by rw [hio]; simp [hj]) hjs)
              (fun j hj hjs => hfath j (by rw [hio]; simp [hj]) hjs)
          have hsubr : ∀ x ∈ sub.inorder, x ∈ r.inorder := by
            intro x hx
            rw [hdec]
            simp [hx]
          have hcns : c ∉ sub.inorder := fun hcs =>
            (List.nodup_cons.mp hndp.2.1).1 (hsubr c hcs)
          have hcmem2 : c ∈ (BTree.node l c r).inorder := by rw [hio]; simp
          have hlc := hlink c hcmem2 hcns
          have hlcg : (getN t c).leftIndex ≠ g := by
            by_cases hLM : (getN t c).leftIndex = MaxNodeCount w
            · rw [hLM]
              exact fun hh => hnM g (by rw [hio]; simp [hgr]) hh.symm
            · obtain ⟨l3, r3, f3, _, hsh, _, _⟩ := toTree_node_shape w hl hLM
              intro hh
              have hgl2 : g ∈ l.inorder := by
                rw [hsh, ← hh]
                simp [BTree.inorder]
              exact hndp.2.2 hgl2 (by simp [hgr])
          have hltree : toTree w t2 (n + fs) (getN t c).leftIndex = some l := by
            refine toTree_le_mono w (by omega : n ≤ n + fs) ?_
            refine toTree_congr w n t t2 _ l hl ?_
            intro j hj
            have hjs : j ∉ sub.inorder := by
              intro hjs2
              exact hndp.2.2 hj (by simp [hsubr j hjs2])
            have hjmem : j ∈ (BTree.node l c r).inorder := by rw [hio]; simp [hj]
            have hlj := hlink j hjmem hjs
            have hgnl : g ∉ l.inorder := fun hh => hndp.2.2 hh (by simp [hgr])
            obtain ⟨hLm, hRm⟩ := links_mem w t n ((getN t c).leftIndex) l hl j hj
            refine ⟨hlj.1 ?_, hlj.2.1 ?_⟩
            · rcases hLm with h1 | h1
              · rw [h1]
                exact fun hh => hnM g (by rw [hio]; simp [hgr]) hh.symm
              · exact fun hh => hgnl (hh ▸ h1)
            · rcases hRm with h1 | h1
              · rw [h1]
                exact fun hh => hnM g (by rw [hio]; simp [hgr]) hh.symm
              · exact fun hh => hgnl (hh ▸ h1)
          refine ⟨l.inorder ++ c :: A2, D2, BTree.node l c r2t, ?_, ?_, ?_, ?_⟩
          · rw [hio, hdec]
            simp
          · rw [show n + 1 + fs = (n + fs) + 1 from by omega]
            rw [toTree, if_neg hcM]
            have hL2 : (getN t2 c).leftIndex = (getN t c).leftIndex := hlc.1 hlcg
            rw [hL2]
            by_cases hRg : (getN t c).rightIndex = g
            · rw [hlc.2.2.2 hRg]
              rw [if_pos hRg] at htree2
              show (match toTree w t2 (n + fs) (getN t c).leftIndex,
                  toTree w t2 (n + fs) g2 with
                | some l3, some r3 => some (BTree.node l3 c r3)
                | _, _ => none) = _
              rw [hltree, htree2]
            · rw [hlc.2.1 hRg]
              rw [if_neg hRg] at htree2
              show (match toTree w t2 (n + fs) (getN t c).leftIndex,
                  toTree w t2 (n + fs) (getN t c).rightIndex with
                | some l3, some r3 => some (BTree.node l3 c r3)
                | _, _ => none) = _
              rw [hltree, htree2]
          · show l.inorder ++ c :: r2t.inorder = _
            rw [hino2]
            simp
          · rw [parentOkB_node]
            refine ⟨?_, ?_, hpar2⟩
            · rw [hfath c hcmem2 hcns]
              exact hpar.1
            · rw [parentOkB_congr_mem t t2 l c ?_]
              · exact hpar.2.1
              · intro j hj
                refine hfath j (by rw [hio]; simp [hj]) ?_
                intro hjs2
                exact hndp.2.2 hj (by simp [hsubr j hjs2])


theorem parent_child_link (w : Nat) (t : RBTree) : ∀ (f : Nat) (c : Nat) (tr : BTree),
    toTree w t f c = some tr → ∀ f0, parentOkB t tr f0 = true →
    ∀ i ∈ tr.inorder, i ≠ c →
      (getN t (getN t i).fatherIndex).leftIndex = i ∨
      (getN t (getN t i).fatherIndex).rightIndex = i := by
  intro f
  induction f with
  | zero => intro c tr h; simp [toTree] at h
  | succ n ih =>
    intro c tr h f0 hpar i hi hic
    by_cases hcM : c = MaxNodeCount w
    · rw [toTree, if_pos hcM] at h
      simp only [Option.some.injEq] at h
      subst h
      simp [BTree.inorder] at hi
    · obtain ⟨l, r, f2, hf2, htr, hl, hr⟩ := toTree_node_shape w h hcM
      simp only [Nat.succ.injEq] at hf2
      subst hf2
      subst htr
      rw [parentOkB_node] at hpar
      have hio : (BTree.node l c r).inorder = l.inorder ++ c :: r.inorder := rfl
      rw [hio] at hi
      simp only [List.mem_append, List.mem_cons] at hi
      rcases hi with hil | hic2 | hir
      · by_cases hroot : i = (getN t c).leftIndex
        · -- i is the left child of c
          have hlM : (getN t c).leftIndex ≠ MaxNodeCount w := by
            intro hh
            have : l = BTree.nil := toTree_at_nil w t n (hh ▸ hl)
            subst this
            simp [BTree.inorder] at hil
          obtain ⟨l2, r2, f3, _, hsh, _, _⟩ := toTree_node_shape w hl hlM
          have hfa : (getN t i).fatherIndex = c := by
            rw [hsh, parentOkB_node] at hpar
            rw [hroot]
            exact hpar.2.1.1
          rw [hfa]
          exact Or.inl hroot.symm
        · -- i lies deeper in the left subtree
          have hlM : (getN t c).leftIndex ≠ MaxNodeCount w := by
            intro hh
            have : l = BTree.nil := toTree_at_nil w t n (hh ▸ hl)
            subst this
            simp [BTree.inorder] at hil
          exact ih ((getN t c).leftIndex) l hl c hpar.2.1 i hil hroot
      · exact absurd hic2 hic
      · by_cases hroot : i = (getN t c).rightIndex
        · have hrM : (getN t c).rightIndex ≠ MaxNodeCount w := by
            intro hh
            have : r = BTree.nil := toTree_at_nil w t n (hh ▸ hr)
            subst this
            simp [BTree.inorder] at hir
          obtain ⟨l2, r2, f3, _, hsh, _, _⟩ := toTree_node_shape w hr hrM
          have hfa : (getN t i).fatherIndex = c := by
            rw [hsh, parentOkB_node] at hpar
            rw [hroot]
            exact hpar.2.2.1
          rw [hfa]
          exact Or.inr hroot.symm
        · have hrM : (getN t c).rightIndex ≠ MaxNodeCount w := by
            intro hh
            have : r = BTree.nil := toTree_at_nil w t n (hh ▸ hr)
            subst this
            simp [BTree.inorder] at hir
          exact ih ((getN t c).rightIndex) r hr c hpar.2.2 i hir hroot


/-! ### The insert fixup rotations, locally -/

theorem getN_setColor_ne (t : RBTree) (i v j : Nat) (h : j ≠ i) :
    getN (setColor t i v) j = getN t j := getN_setN_ne t i j _ h

theorem getN_setColor_self (t : RBTree) (i v : Nat) (h : i < t.nodes.length) :
    getN (setColor t i v) i = { getN t i with color := v } :=
  getN_setN_lt t i _ h

theorem getN_setFather_self2 (t : RBTree) (i v : Nat) (h : ¬ i < t.nodes.length) :
    getN (setFather t i v) i = getN t i := getN_setN_ge t i _ h

theorem setColor_length (t : RBTree) (i v : Nat) :
    (setColor t i v).nodes.length = t.nodes.length := setN_length t i _

theorem setFather_length (t : RBTree) (i v : Nat) :
    (setFather t i v).nodes.length = t.nodes.length := setN_length t i _

theorem setLeft_length (t : RBTree) (i v : Nat) :
    (setLeft t i v).nodes.length = t.nodes.length := setN_length t i _

theorem setRight_length (t : RBTree) (i v : Nat) :
    (setRight t i v).nodes.length = t.nodes.length := setN_length t i _

theorem setFather_rootIndex (t : RBTree) (i v : Nat) :
    (setFather t i v).rootIndex = t.rootIndex := rfl

theorem setFather_nodeCount (t : RBTree) (i v : Nat) :
    (setFather t i v).nodeCount = t.nodeCount := rfl

theorem setFather_size (t : RBTree) (i v : Nat) :
    (setFather t i v).size = t.size := rfl

theorem setFather_bitLength (t : RBTree) (i v : Nat) :
    (setFather t i v).bitLength = t.bitLength := rfl

theorem setLeft_rootIndex (t : RBTree) (i v : Nat) :
    (setLeft t i v).rootIndex = t.rootIndex := rfl

theorem setLeft_nodeCount (t : RBTree) (i v : Nat) :
    (setLeft t i v).nodeCount = t.nodeCount := rfl

theorem setLeft_size (t : RBTree) (i v : Nat) :
    (setLeft t i v).size = t.size := rfl

theorem setLeft_bitLength (t : RBTree) (i v : Nat) :
    (setLeft t i v).bitLength = t.bitLength := rfl

theorem setRight_rootIndex (t : RBTree) (i v : Nat) :
    (setRight t i v).rootIndex = t.rootIndex := rfl

theorem setRight_nodeCount (t : RBTree) (i v : Nat) :
    (setRight t i v).nodeCount = t.nodeCount := rfl

theorem setRight_size (t : RBTree) (i v : Nat) :
    (setRight t i v).size = t.size := rfl

theorem setRight_bitLength (t : RBTree) (i v : Nat) :
    (setRight t i v).bitLength = t.bitLength := rfl

theorem setColor_rootIndex (t : RBTree) (i v : Nat) :
    (setColor t i v).rootIndex = t.rootIndex := rfl

theorem setColor_nodeCount (t : RBTree) (i v : Nat) :
    (setColor t i v).nodeCount = t.nodeCount := rfl

theorem setColor_size (t : RBTree) (i v : Nat) :
    (setColor t i v).size = t.size := rfl

theorem setColor_bitLength (t : RBTree) (i v : Nat) :
    (setColor t i v).bitLength = t.bitLength := rfl

theorem insertCaseRR_local (w r0 : Nat) (t : RBTree) (cur f g : Nat)
    (A B C : BTree) (F : Nat)
    (hg : toTree w t F g = some (BTree.node A g (BTree.node B f C)))
    (hnd : (BTree.node A g (BTree.node B f C)).inorder.Nodup)
    (hnM : ∀ j ∈ (BTree.node A g (BTree.node B f C)).inorder, j ≠ MaxNodeCount w)
    (hlenm : ∀ j ∈ (BTree.node A g (BTree.node B f C)).inorder, j < t.nodes.length)
    (hlenM : t.nodes.length ≤ MaxNodeCount w)
    (hggout : (getN t g).fatherIndex ∉ (BTree.node A g (BTree.node B f C)).inorder)
    (hgg : g ≠ r0 → (getN t g).fatherIndex < t.nodes.length) :
    toTree w (insertCaseRR w r0 t cur f g) (F + 1) f =
      some (BTree.node (BTree.node A g B) f C) ∧
    (∀ j, j ∉ (BTree.node A g (BTree.node B f C)).inorder →
      j ≠ (getN t g).fatherIndex →
      getN (insertCaseRR w r0 t cur f g) j = getN t j) ∧
    (∀ j, (getN (insertCaseRR w r0 t cur f g) j).key = (getN t j).key ∧
      (getN (insertCaseRR w r0 t cur f g) j).value = (getN t j).value) ∧
    (∀ j, j ∉ (BTree.node A g (BTree.node B f C)).inorder →
      (getN (insertCaseRR w r0 t cur f g) j).fatherIndex = (getN t j).fatherIndex) ∧
    (g = r0 →
      (∀ j, j ∉ (BTree.node A g (BTree.node B f C)).inorder →
        getN (insertCaseRR w r0 t cur f g) j = getN t j) ∧
      (insertCaseRR w r0 t cur f g).rootIndex = f) ∧
    (g ≠ r0 → (insertCaseRR w r0 t cur f g).rootIndex = t.rootIndex ∧
      ((getN t (getN t g).fatherIndex).leftIndex = g →
        (getN (insertCaseRR w r0 t cur f g) (getN t g).fatherIndex).leftIndex = f ∧
        (getN (insertCaseRR w r0 t cur f g) (getN t g).fatherIndex).rightIndex =
          (getN t (getN t g).fatherIndex).rightIndex) ∧
      ((getN t (getN t g).fatherIndex).leftIndex ≠ g →
        (getN (insertCaseRR w r0 t cur f g) (getN t g).fatherIndex).leftIndex =
          (getN t (getN t g).fatherIndex).leftIndex ∧
        (getN (insertCaseRR w r0 t cur f g) (getN t g).fatherIndex).rightIndex = f)) ∧
    (parentOkB t (BTree.node A g (BTree.node B f C)) ((getN t g).fatherIndex) = true →
      parentOkB (insertCaseRR w r0 t cur f g) (BTree.node (BTree.node A g B) f C)
        ((getN t g).fatherIndex) = true) ∧
    ((insertCaseRR w r0 t cur f g).nodeCount = t.nodeCount ∧
      (insertCaseRR w r0 t cur f g).size = t.size ∧
      (insertCaseRR w r0 t cur f g).bitLength = t.bitLength ∧
      (insertCaseRR w r0 t cur f g).nodes.length = t.nodes.length) := by
  have hio : (BTree.node A g (BTree.node B f C)).inorder =
      A.inorder ++ g :: (B.inorder ++ f :: C.inorder) := rfl
  have hgmem : g ∈ (BTree.node A g (BTree.node B f C)).inorder := by rw [hio]; simp
  have hfmem : f ∈ (BTree.node A g (BTree.node B f C)).inorder := by rw [hio]; simp
  have hgM : g ≠ MaxNodeCount w := hnM g hgmem
  have hfM : f ≠ MaxNodeCount w := hnM f hfmem
  have hglen : g < t.nodes.length := hlenm g hgmem
  have hflen : f < t.nodes.length := hlenm f hfmem
  have hndparts : (∀ j ∈ A.inorder, j ≠ g ∧ j ≠ f ∧ j ∉ B.inorder ∧ j ∉ C.inorder) ∧
      g ∉ B.inorder ∧ g ∉ C.inorder ∧ f ∉ B.inorder ∧ f ∉ C.inorder ∧
      (∀ j ∈ B.inorder, j ∉ C.inorder) ∧
      B.inorder.Nodup ∧ C.inorder.Nodup := by
    have h2 := hnd
    rw [hio, List.nodup_append] at h2
    obtain ⟨hA2, hB2, hD2⟩ := h2
    rw [List.nodup_cons, List.nodup_append] at hB2
    obtain ⟨hg2, hBn, hCn, hBC⟩ := hB2
    rw [List.nodup_cons] at hCn
    refine ⟨?_, ?_, ?_, ?_, hCn.1, ?_, hBn, hCn.2⟩
    · intro j hj
      refine ⟨?_, ?_, ?_, ?_⟩
      · exact fun hh => hD2 hj (by simp [hh])
      · exact fun hh => hD2 hj (by rw [hh]; simp)
      · exact fun hh => hD2 hj (by simp [hh])
      · exact fun hh => hD2 hj (by simp [hh])
    · exact fun hh => hg2 (List.mem_append_left _ hh)
    · exact fun hh => hg2 (List.mem_append_right _ (List.mem_cons_of_mem _ hh))
    · intro hf2
      exact hBC hf2 (by simp)
    · intro j hj hj2
      exact hBC hj (by simp [hj2])
  have hgf : g ≠ f := by
    have h2 := hnd
    rw [hio, List.nodup_append, List.nodup_cons] at h2
    exact fun hh => h2.2.1.1 (by rw [hh]; simp)
  -- shape unfolding
  obtain ⟨l0, rr0, F2, hF2, heq, hA, hR⟩ := toTree_node_shape w hg hgM
  simp only [BTree.node.injEq] at heq
  obtain ⟨heqA, -, heqR⟩ := heq
  subst heqA
  subst heqR
  have hrgne : (getN t g).rightIndex ≠ MaxNodeCount w := by
    intro hh
    have h2 := toTree_at_nil w t F2 (hh ▸ hR)
    cases h2
  obtain ⟨B0, C0, F3, hF3, heq2, hB, hC⟩ := toTree_node_shape w hR hrgne
  simp only [BTree.node.injEq] at heq2
  obtain ⟨heqB, heqf, heqC⟩ := heq2
  subst heqB
  subst heqC
  rw [← heqf] at hB hC
  have hF3pos : 1 ≤ F3 := by
    cases hhF : F3 with
    | zero => rw [hhF] at hC; simp [toTree] at hC
    | succ n2 => omega
  -- the inner child and the grandfather
  have hbinfo : (getN t f).leftIndex ≠ MaxNodeCount w → (getN t f).leftIndex ∈ B.inorder := by
    intro hbM
    obtain ⟨B1, B2, F4, _, hsh, _, _⟩ := toTree_node_shape w hB hbM
    rw [hsh]
    simp [BTree.inorder]
  have hbg : (getN t f).leftIndex ≠ MaxNodeCount w → (getN t f).leftIndex ≠ g := by
    intro hbM hh
    exact hndparts.2.1 (hh ▸ hbinfo hbM)
  have hbf : (getN t f).leftIndex ≠ MaxNodeCount w → (getN t f).leftIndex ≠ f := by
    intro hbM hh
    exact hndparts.2.2.2.1 (hh ▸ hbinfo hbM)
  have hblen : (getN t f).leftIndex ≠ MaxNodeCount w →
      (getN t f).leftIndex < t.nodes.length := by
    intro hbM
    refine hlenm _ ?_
    rw [hio]
    simp [hbinfo hbM]
  have hbmemio : (getN t f).leftIndex ≠ MaxNodeCount w →
      (getN t f).leftIndex ∈ (BTree.node A g (BTree.node B f C)).inorder := by
    intro hbM
    rw [hio]
    simp [hbinfo hbM]
  have hggg : (getN t g).fatherIndex ≠ g :=
    fun hh => hggout (by rw [hh]; exact hgmem)
  have hggf : (getN t g).fatherIndex ≠ f :=
    fun hh => hggout (by rw [hh]; exact hfmem)
  have hggb : (getN t f).leftIndex ≠ MaxNodeCount w →
      (getN t g).fatherIndex ≠ (getN t f).leftIndex := by
    intro hbM hh
    exact hggout (by rw [hh]; exact hbmemio hbM)
  -- the write chain
  set b := (getN t f).leftIndex with hbdef
  set gg := (getN t g).fatherIndex with hggdef
  set t1 := setRight t g b with he1
  set t2 := if (getN t1 g).rightIndex ≠ MaxNodeCount w then
      setFather t1 ((getN t1 g).rightIndex) g else t1 with he2
  set t3 := setLeft t2 f g with he3
  set gg1 := (getN t3 g).fatherIndex with hgg1def
  set t4 := setFather t3 g f with he4
  set t5 := setFather t4 f gg1 with he5
  set t6 := if g = r0 then { t5 with rootIndex := f }
    else if (getN t5 gg1).leftIndex = g then setLeft t5 gg1 f
    else setRight t5 gg1 f with he6
  have hE : insertCaseRR w r0 t cur f g =
      setColor (setColor t6 f Color.Black) g Color.Red := rfl
  clear_value t6 t5 t4 t3 t2 t1
  have h1g : getN t1 g = { getN t g with rightIndex := b } := by
    rw [he1]
    exact getN_setRight_self t g b hglen
  have h1ne : ∀ j, j ≠ g → getN t1 j = getN t j := fun j hj => by
    rw [he1]
    exact getN_setRight_ne t g b j hj
  have hlen1 : t1.nodes.length = t.nodes.length := by rw [he1, setRight_length]
  have hrt1 : (getN t1 g).rightIndex = b := by rw [h1g]
  have h2g : getN t2 g = getN t1 g := by
    rw [he2, hrt1]
    by_cases hbM : b = MaxNodeCount w
    · rw [if_neg (by simp [hbM])]
    · rw [if_pos hbM]
      exact getN_setFather_ne t1 b g g (fun hh => hbg hbM hh.symm)
  have h2ne : ∀ j, j ≠ g → (j ≠ b ∨ b = MaxNodeCount w) → getN t2 j = getN t j := by
    intro j hjg hjb
    rw [he2, hrt1]
    by_cases hbM : b = MaxNodeCount w
    · rw [if_neg (by simp [hbM])]
      exact h1ne j hjg
    · rw [if_pos hbM]
      rcases hjb with hjb | hjb
      · rw [getN_setFather_ne t1 b g j hjb]
        exact h1ne j hjg
      · exact absurd hjb hbM
  have h2b : b ≠ MaxNodeCount w → getN t2 b = { getN t b with fatherIndex := g } := by
    intro hbM
    rw [he2, hrt1, if_pos hbM]
    rw [getN_setFather_self t1 b g (by rw [hlen1]; exact hblen hbM)]
    rw [h1ne b (hbg hbM)]
  have hlen2 : t2.nodes.length = t.nodes.length := by
    rw [he2]
    split
    · rw [setFather_length, hlen1]
    · exact hlen1
  have h2f : getN t2 f = getN t f := by
    refine h2ne f (fun hh => hgf hh.symm) ?_
    by_cases hbM : b = MaxNodeCount w
    · exact Or.inr hbM
    · exact Or.inl (fun hh => hbf hbM hh.symm)
  have h3f : getN t3 f = { getN t f with leftIndex := g } := by
    rw [he3, getN_setLeft_self t2 f g (by rw [hlen2]; exact hflen), h2f]
  have h3ne : ∀ j, j ≠ f → getN t3 j = getN t2 j := fun j hj => by
    rw [he3]
    exact getN_setLeft_ne t2 f g j hj
  have hlen3 : t3.nodes.length = t.nodes.length := by
    rw [he3, setLeft_length, hlen2]
  have hggv : gg1 = gg := by
    rw [hgg1def, h3ne g hgf, h2g, h1g]
  have h4g : getN t4 g = { getN t g with rightIndex := b, fatherIndex := f } := by
    rw [he4, getN_setFather_self t3 g f (by rw [hlen3]; exact hglen), h3ne g hgf, h2g, h1g]
  have h4ne : ∀ j, j ≠ g → getN t4 j = getN t3 j := fun j hj => by
    rw [he4]
    exact getN_setFather_ne t3 g f j hj
  have hlen4 : t4.nodes.length = t.nodes.length := by
    rw [he4, setFather_length, hlen3]
  have h5f : getN t5 f = { getN t f with leftIndex := g, fatherIndex := gg } := by
    rw [he5, getN_setFather_self t4 f gg1 (by rw [hlen4]; exact hflen),
      h4ne f (fun hh => hgf hh.symm), h3f, hggv]
  have h5ne : ∀ j, j ≠ f → getN t5 j = getN t4 j := fun j hj => by
    rw [he5]
    exact getN_setFather_ne t4 f gg1 j hj
  have hlen5 : t5.nodes.length = t.nodes.length := by
    rw [he5, setFather_length, hlen4]
  have s5g : getN t5 g = { getN t g with rightIndex := b, fatherIndex := f } := by
    rw [h5ne g hgf, h4g]
  have s5b : b ≠ MaxNodeCount w → getN t5 b = { getN t b with fatherIndex := g } := by
    intro hbM
    rw [h5ne b (hbf hbM), h4ne b (hbg hbM), h3ne b (hbf hbM), h2b hbM]
  have s5x : ∀ j, j ≠ g → j ≠ f → (j ≠ b ∨ b = MaxNodeCount w) →
      getN t5 j = getN t j := by
    intro j h1 h2 h3
    rw [h5ne j h2, h4ne j h1, h3ne j h2]
    exact h2ne j h1 h3
  have hggbor : gg ≠ b ∨ b = MaxNodeCount w := by
    by_cases hbM : b = MaxNodeCount w
    · exact Or.inr hbM
    · exact Or.inl (hggb hbM)
  have s5gg : getN t5 gg = getN t gg := s5x gg hggg hggf hggbor
  have hroot1 : t1.rootIndex = t.rootIndex := by rw [he1, setRight_rootIndex]
  have hroot2 : t2.rootIndex = t.rootIndex := by
    rw [he2]
    split
    · rw [setFather_rootIndex]
      exact hroot1
    · exact hroot1
  have hroot5 : t5.rootIndex = t.rootIndex := by
    have e5 : t5.rootIndex = t4.rootIndex := by rw [he5, setFather_rootIndex]
    have e4 : t4.rootIndex = t3.rootIndex := by rw [he4, setFather_rootIndex]
    have e3 : t3.rootIndex = t2.rootIndex := by rw [he3, setLeft_rootIndex]
    rw [e5, e4, e3, hroot2]
  have hcount1 : t1.nodeCount = t.nodeCount := by rw [he1, setRight_nodeCount]
  have hcount2 : t2.nodeCount = t.nodeCount := by
    rw [he2]
    split
    · rw [setFather_nodeCount]
      exact hcount1
    · exact hcount1
  have hcount5 : t5.nodeCount = t.nodeCount := by
    have e5 : t5.nodeCount = t4.nodeCount := by rw [he5, setFather_nodeCount]
    have e4 : t4.nodeCount = t3.nodeCount := by rw [he4, setFather_nodeCount]
    have e3 : t3.nodeCount = t2.nodeCount := by rw [he3, setLeft_nodeCount]
    rw [e5, e4, e3, hcount2]
  have hsize1 : t1.size = t.size := by rw [he1, setRight_size]
  have hsize2 : t2.size = t.size := by
    rw [he2]
    split
    · rw [setFather_size]
      exact hsize1
    · exact hsize1
  have hsize5 : t5.size = t.size := by
    have e5 : t5.size = t4.size := by rw [he5, setFather_size]
    have e4 : t4.size = t3.size := by rw [he4, setFather_size]
    have e3 : t3.size = t2.size := by rw [he3, setLeft_size]
    rw [e5, e4, e3, hsize2]
  have hbit1 : t1.bitLength = t.bitLength := by rw [he1, setRight_bitLength]
  have hbit2 : t2.bitLength = t.bitLength := by
    rw [he2]
    split
    · rw [setFather_bitLength]
      exact hbit1
    · exact hbit1
  have hbit5 : t5.bitLength = t.bitLength := by
    have e5 : t5.bitLength = t4.bitLength := by rw [he5, setFather_bitLength]
    have e4 : t4.bitLength = t3.bitLength := by rw [he4, setFather_bitLength]
    have e3 : t3.bitLength = t2.bitLength := by rw [he3, setLeft_bitLength]
    rw [e5, e4, e3, hbit2]
  -- the grandfather update
  have u6ne : ∀ j, j ≠ gg → getN t6 j = getN t5 j := by
    intro j hj
    rw [he6]
    by_cases hr0 : g = r0
    · rw [if_pos hr0]
      rfl
    · rw [if_neg hr0, hggv]
      split
      · exact getN_setLeft_ne t5 gg f j hj
      · exact getN_setRight_ne t5 gg f j hj
  have u6ggroot : g = r0 → getN t6 gg = getN t5 gg := by
    intro hr0
    rw [he6, if_pos hr0]
    rfl
  have u6gg : g ≠ r0 →
      ((getN t gg).leftIndex = g → getN t6 gg = { getN t gg with leftIndex := f }) ∧
      ((getN t gg).leftIndex ≠ g → getN t6 gg = { getN t gg with rightIndex := f }) := by
    intro hr0
    have hgglen2 : gg < t5.nodes.length := by
      rw [hlen5]
      exact hgg hr0
    constructor
    · intro hside
      rw [he6, if_neg hr0, hggv, if_pos (by rw [s5gg]; exact hside)]
      rw [getN_setLeft_self t5 gg f hgglen2, s5gg]
    · intro hside
      rw [he6, if_neg hr0, hggv, if_neg (by rw [s5gg]; exact hside)]
      rw [getN_setRight_self t5 gg f hgglen2, s5gg]
  have u6root : t6.rootIndex = if g = r0 then f else t.rootIndex := by
    rw [he6]
    by_cases hr0 : g = r0
    · rw [if_pos hr0, if_pos hr0]
    · rw [if_neg hr0, if_neg hr0]
      split
      · exact hroot5
      · exact hroot5
  have u6len : t6.nodes.length = t.nodes.length := by
    rw [he6]
    split
    · exact hlen5
    split
    · rw [setLeft_length, hlen5]
    · rw [setRight_length, hlen5]
  have u6count : t6.nodeCount = t.nodeCount := by
    rw [he6]
    split
    · exact hcount5
    split
    · exact hcount5
    · exact hcount5
  have u6size : t6.size = t.size := by
    rw [he6]
    split
    · exact hsize5
    split
    · exact hsize5
    · exact hsize5
  have u6bit : t6.bitLength = t.bitLength := by
    rw [he6]
    split
    · exact hbit5
    split
    · exact hbit5
    · exact hbit5
  have u6kvf : ∀ j, (getN t6 j).key = (getN t5 j).key ∧
      (getN t6 j).value = (getN t5 j).value ∧
      (getN t6 j).fatherIndex = (getN t5 j).fatherIndex := by
    intro j
    rw [he6]
    by_cases hr0 : g = r0
    · rw [if_pos hr0]
      exact ⟨rfl, rfl, rfl⟩
    · rw [if_neg hr0]
      split
      · exact ⟨(getN_setLeft_frame t5 gg1 f j).2.2.2.1,
          (getN_setLeft_frame t5 gg1 f j).2.2.2.2, (getN_setLeft_frame t5 gg1 f j).1⟩
      · exact ⟨(getN_setRight_frame t5 gg1 f j).2.2.2.1,
          (getN_setRight_frame t5 gg1 f j).2.2.2.2, (getN_setRight_frame t5 gg1 f j).1⟩
  -- final per-slot states
  have s7 : ∀ j, getN (insertCaseRR w r0 t cur f g) j =
      if j = g then { getN t6 g with color := Color.Red }
      else if j = f then { getN t6 f with color := Color.Black }
      else getN t6 j := by
    intro j
    rw [hE]
    by_cases hjg : j = g
    · subst hjg
      rw [if_pos rfl]
      rw [getN_setColor_self _ j Color.Red (by rw [setColor_length, u6len]; exact hglen)]
      rw [getN_setColor_ne t6 f Color.Black j hgf]
    · rw [if_neg hjg, getN_setColor_ne _ g Color.Red j hjg]
      by_cases hjf : j = f
      · subst hjf
        rw [if_pos rfl]
        rw [getN_setColor_self t6 j Color.Black (by rw [u6len]; exact hflen)]
      · rw [if_neg hjf, getN_setColor_ne t6 f Color.Black j hjf]
  have s7g : getN (insertCaseRR w r0 t cur f g) g =
      { getN t g with rightIndex := b, fatherIndex := f, color := Color.Red } := by
    rw [s7 g, if_pos rfl, u6ne g (fun hh => hggg hh.symm), s5g]
  have s7f : getN (insertCaseRR w r0 t cur f g) f =
      { getN t f with leftIndex := g, fatherIndex := gg, color := Color.Black } := by
    rw [s7 f, if_neg (fun hh => hgf hh.symm), if_pos rfl,
      u6ne f (fun hh => hggf hh.symm), h5f]
  have s7b : b ≠ MaxNodeCount w → getN (insertCaseRR w r0 t cur f g) b =
      { getN t b with fatherIndex := g } := by
    intro hbM
    rw [s7 b, if_neg (hbg hbM), if_neg (hbf hbM),
      u6ne b (fun hh => hggb hbM hh.symm), s5b hbM]
  have s7x : ∀ j, j ≠ g → j ≠ f → (j ≠ b ∨ b = MaxNodeCount w) → j ≠ gg →
      getN (insertCaseRR w r0 t cur f g) j = getN t j := by
    intro j h1 h2 h3 h4
    rw [s7 j, if_neg h1, if_neg h2, u6ne j h4]
    exact s5x j h1 h2 h3
  have s7ggroot : g = r0 → getN (insertCaseRR w r0 t cur f g) gg = getN t gg := by
    intro hr0
    rw [s7 gg, if_neg hggg, if_neg hggf, u6ggroot hr0, s5gg]
  have s7ggn : g ≠ r0 →
      ((getN t gg).leftIndex = g → getN (insertCaseRR w r0 t cur f g) gg =
        { getN t gg with leftIndex := f }) ∧
      ((getN t gg).leftIndex ≠ g → getN (insertCaseRR w r0 t cur f g) gg =
        { getN t gg with rightIndex := f }) := by
    intro hr0
    constructor
    · intro hside
      rw [s7 gg, if_neg hggg, if_neg hggf, (u6gg hr0).1 hside]
    · intro hside
      rw [s7 gg, if_neg hggg, if_neg hggf, (u6gg hr0).2 hside]
  have hrootF : (insertCaseRR w r0 t cur f g).rootIndex =
      if g = r0 then f else t.rootIndex := by
    rw [hE]
    show t6.rootIndex = _
    exact u6root
  have hlenF : (insertCaseRR w r0 t cur f g).nodes.length = t.nodes.length := by
    rw [hE, setColor_length, setColor_length, u6len]
  have hcountF : (insertCaseRR w r0 t cur f g).nodeCount = t.nodeCount := by
    rw [hE]
    show t6.nodeCount = _
    exact u6count
  have hsizeF : (insertCaseRR w r0 t cur f g).size = t.size := by
    rw [hE]
    show t6.size = _
    exact u6size
  have hbitF : (insertCaseRR w r0 t cur f g).bitLength = t.bitLength := by
    rw [hE]
    show t6.bitLength = _
    exact u6bit
  have hkvF : ∀ j, (getN (insertCaseRR w r0 t cur f g) j).key = (getN t j).key ∧
      (getN (insertCaseRR w r0 t cur f g) j).value = (getN t j).value := by
    intro j
    have d2 : (getN t2 j).key = (getN t1 j).key ∧
        (getN t2 j).value = (getN t1 j).value := by
      rw [he2]
      split
      · exact ⟨(getN_setFather_frame t1 _ g j).2.2.2.1,
          (getN_setFather_frame t1 _ g j).2.2.2.2⟩
      · exact ⟨rfl, rfl⟩
    have c5 : (getN t5 j).key = (getN t j).key ∧
        (getN t5 j).value = (getN t j).value := by
      refine ⟨?_, ?_⟩
      · rw [he5, (getN_setFather_frame t4 f gg1 j).2.2.2.1,
          he4, (getN_setFather_frame t3 g f j).2.2.2.1,
          he3, (getN_setLeft_frame t2 f g j).2.2.2.1,
          d2.1, he1, (getN_setRight_frame t g b j).2.2.2.1]
      · rw [he5, (getN_setFather_frame t4 f gg1 j).2.2.2.2,
          he4, (getN_setFather_frame t3 g f j).2.2.2.2,
          he3, (getN_setLeft_frame t2 f g j).2.2.2.2,
          d2.2, he1, (getN_setRight_frame t g b j).2.2.2.2]
    have c7 : (getN (insertCaseRR w r0 t cur f g) j).key = (getN t6 j).key ∧
        (getN (insertCaseRR w r0 t cur f g) j).value = (getN t6 j).value := by
      rw [hE]
      refine ⟨?_, ?_⟩
      · rw [(getN_setColor_frame _ g Color.Red j).2.2.2.1,
          (getN_setColor_frame t6 f Color.Black j).2.2.2.1]
      · rw [(getN_setColor_frame _ g Color.Red j).2.2.2.2,
          (getN_setColor_frame t6 f Color.Black j).2.2.2.2]
    refine ⟨?_, ?_⟩
    · rw [c7.1, (u6kvf j).1, c5.1]
    · rw [c7.2, (u6kvf j).2.1, c5.2]
  have hfathF : ∀ j, j ≠ g → j ≠ f → (j ≠ b ∨ b = MaxNodeCount w) →
      (getN (insertCaseRR w r0 t cur f g) j).fatherIndex = (getN t j).fatherIndex := by
    intro j h1 h2 h3
    have c5 : (getN t5 j).fatherIndex = (getN t j).fatherIndex := by
      rw [s5x j h1 h2 h3]
    have c7 : (getN (insertCaseRR w r0 t cur f g) j).fatherIndex =
        (getN t6 j).fatherIndex := by
      rw [hE]
      rw [(getN_setColor_frame _ g Color.Red j).1,
        (getN_setColor_frame t6 f Color.Black j).1]
    rw [c7, (u6kvf j).2.2, c5]
  -- the rebuilt subtrees
  have hApres : toTree w (insertCaseRR w r0 t cur f g) F2 (getN t g).leftIndex =
      some A := by
    refine toTree_congr w F2 t _ _ A hA ?_
    intro j hj
    have hjf := (hndparts.1 j hj)
    have hjgg : j ≠ gg := fun hh => hggout (hh ▸ (by rw [hio]; simp [hj] :
      j ∈ (BTree.node A g (BTree.node B f C)).inorder))
    have hjb : j ≠ b ∨ b = MaxNodeCount w := by
      by_cases hbM : b = MaxNodeCount w
      · exact Or.inr hbM
      · exact Or.inl (fun hh => hjf.2.2.1 (hh ▸ hbinfo hbM))
    rw [s7x j hjf.1 hjf.2.1 hjb hjgg]
    exact ⟨rfl, rfl⟩
  have hBpres : toTree w (insertCaseRR w r0 t cur f g) F3 b = some B := by
    by_cases hbM : b = MaxNodeCount w
    · have hBnil : B = BTree.nil := toTree_at_nil w t F3 (hbM ▸ hB)
      subst hBnil
      rw [hbM]
      exact toTree_M w _ F3 hF3pos
    · refine toTree_congr w F3 t _ _ B hB ?_
      intro j hj
      have hjg : j ≠ g := fun hh => hndparts.2.1 (hh ▸ hj)
      have hjf : j ≠ f := fun hh => hndparts.2.2.2.1 (hh ▸ hj)
      have hjgg : j ≠ gg := fun hh => hggout (hh ▸ (by rw [hio]; simp [hj] :
        j ∈ (BTree.node A g (BTree.node B f C)).inorder))
      by_cases hjb : j = b
      · subst hjb
        rw [s7b hbM]
        exact ⟨rfl, rfl⟩
      · rw [s7x j hjg hjf (Or.inl hjb) hjgg]
        exact ⟨rfl, rfl⟩
  have hCpres : toTree w (insertCaseRR w r0 t cur f g) F3 (getN t f).rightIndex =
      some C := by
    refine toTree_congr w F3 t _ _ C hC ?_
    intro j hj
    have hjg : j ≠ g := fun hh => hndparts.2.2.1 (hh ▸ hj)
    have hjf : j ≠ f := fun hh => hndparts.2.2.2.2.1 (hh ▸ hj)
    have hjgg : j ≠ gg := fun hh => hggout (hh ▸ (by rw [hio]; simp [hj] :
      j ∈ (BTree.node A g (BTree.node B f C)).inorder))
    have hjb : j ≠ b ∨ b = MaxNodeCount w := by
      by_cases hbM : b = MaxNodeCount w
      · exact Or.inr hbM
      · exact Or.inl (fun hh => (hndparts.2.2.2.2.2.1 _ (hbinfo hbM)) (hh ▸ hj))
    rw [s7x j hjg hjf hjb hjgg]
    exact ⟨rfl, rfl⟩
  refine ⟨?_, ?_, hkvF, ?_, ?_, ?_, ?_, ⟨hcountF, hsizeF, hbitF, hlenF⟩⟩
  · -- the rotated subtree
    have hgtree : toTree w (insertCaseRR w r0 t cur f g) (F3 + 2) g =
        some (BTree.node A g B) := by
      rw [show F3 + 2 = (F3 + 1) + 1 from rfl, toTree, if_neg hgM]
      have hgl : (getN (insertCaseRR w r0 t cur f g) g).leftIndex =
          (getN t g).leftIndex := by rw [s7g]
      have hgr : (getN (insertCaseRR w r0 t cur f g) g).rightIndex = b := by rw [s7g]
      rw [hgl, hgr]
      have hA2 : toTree w (insertCaseRR w r0 t cur f g) (F3 + 1) (getN t g).leftIndex =
          some A := by
        rw [← hF3]
        exact hApres
      have hB2 : toTree w (insertCaseRR w r0 t cur f g) (F3 + 1) b = some B :=
        toTree_le_mono w (by omega) hBpres
      rw [hA2, hB2]
    have hC2 : toTree w (insertCaseRR w r0 t cur f g) (F3 + 2) (getN t f).rightIndex =
        some C := toTree_le_mono w (by omega) hCpres
    rw [show F + 1 = (F3 + 2) + 1 from by omega]
    rw [toTree, if_neg hfM]
    have hfl : (getN (insertCaseRR w r0 t cur f g) f).leftIndex = g := by rw [s7f]
    have hfr : (getN (insertCaseRR w r0 t cur f g) f).rightIndex =
        (getN t f).rightIndex := by rw [s7f]
    rw [hfl, hfr, hgtree, hC2]
  · -- untouched slots
    intro j hjio hjgg
    have hjg : j ≠ g := fun hh => hjio (hh ▸ hgmem)
    have hjf : j ≠ f := fun hh => hjio (hh ▸ hfmem)
    have hjb : j ≠ b ∨ b = MaxNodeCount w := by
      by_cases hbM : b = MaxNodeCount w
      · exact Or.inr hbM
      · exact Or.inl (fun hh => hjio (hh ▸ hbmemio hbM))
    exact s7x j hjg hjf hjb hjgg
  · -- fathers outside
    intro j hjio
    have hjg : j ≠ g := fun hh => hjio (hh ▸ hgmem)
    have hjf : j ≠ f := fun hh => hjio (hh ▸ hfmem)
    have hjb : j ≠ b ∨ b = MaxNodeCount w := by
      by_cases hbM : b = MaxNodeCount w
      · exact Or.inr hbM
      · exact Or.inl (fun hh => hjio (hh ▸ hbmemio hbM))
    exact hfathF j hjg hjf hjb
  · -- the root-rotation branch
    intro hr0
    constructor
    · intro j hjio
      by_cases hjgg : j = gg
      · subst hjgg
        exact s7ggroot hr0
      · have hjg : j ≠ g := fun hh => hjio (hh ▸ hgmem)
        have hjf : j ≠ f := fun hh => hjio (hh ▸ hfmem)
        have hjb : j ≠ b ∨ b = MaxNodeCount w := by
          by_cases hbM : b = MaxNodeCount w
          · exact Or.inr hbM
          · exact Or.inl (fun hh => hjio (hh ▸ hbmemio hbM))
        exact s7x j hjg hjf hjb hjgg
    · rw [hrootF, if_pos hr0]
  · -- the non-root branch
    intro hr0
    refine ⟨by rw [hrootF, if_neg hr0], ?_, ?_⟩
    · intro hside
      rw [(s7ggn hr0).1 hside]
      exact ⟨rfl, rfl⟩
    · intro hside
      rw [(s7ggn hr0).2 hside]
      exact ⟨rfl, rfl⟩
  · -- father coherence of the rotated subtree
    intro hp
    rw [parentOkB_node] at hp
    obtain ⟨hp1, hp2, hp3⟩ := hp
    rw [parentOkB_node] at hp3
    obtain ⟨hp3f, hp3B, hp3C⟩ := hp3
    rw [parentOkB_node, parentOkB_node]
    refine ⟨by rw [s7f], ⟨by rw [s7g], ?_, ?_⟩, ?_⟩
    · -- A keeps its coherence under g
      rw [parentOkB_congr_mem t _ A g ?_]
      · exact hp2
      · intro j hj
        have hjf := (hndparts.1 j hj)
        have hjgg : j ≠ gg := fun hh => hggout (hh ▸ (by rw [hio]; simp [hj] :
          j ∈ (BTree.node A g (BTree.node B f C)).inorder))
        have hjb : j ≠ b ∨ b = MaxNodeCount w := by
          by_cases hbM : b = MaxNodeCount w
          · exact Or.inr hbM
          · exact Or.inl (fun hh => hjf.2.2.1 (hh ▸ hbinfo hbM))
        rw [s7x j hjf.1 hjf.2.1 hjb hjgg]
    · -- B is re-hung below g
      by_cases hbM : b = MaxNodeCount w
      · have hBnil : B = BTree.nil := toTree_at_nil w t F3 (hbM ▸ hB)
        subst hBnil
        rfl
      · obtain ⟨B1, B2, F4, _, hsh, _, _⟩ := toTree_node_shape w hB hbM
        rw [hsh]
        rw [hsh, parentOkB_node] at hp3B
        rw [parentOkB_node]
        refine ⟨by rw [s7b hbM], ?_, ?_⟩
        · rw [parentOkB_congr_mem t _ B1 b ?_]
          · exact hp3B.2.1
          · intro j hj
            have hjB : j ∈ B.inorder := by
              rw [hsh]
              simp only [BTree.inorder]
              exact List.mem_append_left _ hj
            have hjg : j ≠ g := fun hh => hndparts.2.1 (hh ▸ hjB)
            have hjf : j ≠ f := fun hh => hndparts.2.2.2.1 (hh ▸ hjB)
            have hjgg : j ≠ gg := fun hh => hggout (hh ▸ (by rw [hio]; simp [hjB] :
              j ∈ (BTree.node A g (BTree.node B f C)).inorder))
            have hjb : j ≠ b := by
              intro hh
              subst hh
              have h2 := hndparts.2.2.2.2.2.2.1
              rw [hsh] at h2
              simp only [BTree.inorder, List.nodup_append, List.nodup_cons] at h2
              exact h2.2.2 hj (by simp)
            rw [s7x j hjg hjf (Or.inl hjb) hjgg]
        · rw [parentOkB_congr_mem t _ B2 b ?_]
          · exact hp3B.2.2
          · intro j hj
            have hjB : j ∈ B.inorder := by
              rw [hsh]
              simp only [BTree.inorder]
              exact List.mem_append_right _ (List.mem_cons_of_mem _ hj)
            have hjg : j ≠ g := fun hh => hndparts.2.1 (hh ▸ hjB)
            have hjf : j ≠ f := fun hh => hndparts.2.2.2.1 (hh ▸ hjB)
            have hjgg : j ≠ gg := fun hh => hggout (hh ▸ (by rw [hio]; simp [hjB] :
              j ∈ (BTree.node A g (BTree.node B f C)).inorder))
            have hjb : j ≠ b := by
              intro hh
              subst hh
              have h2 := hndparts.2.2.2.2.2.2.1
              rw [hsh] at h2
              simp only [BTree.inorder, List.nodup_append, List.nodup_cons] at h2
              exact (h2.2.1).1 hj
            rw [s7x j hjg hjf (Or.inl hjb) hjgg]
    · -- C keeps its coherence under f
      rw [parentOkB_congr_mem t _ C f ?_]
      · exact hp3C
      · intro j hj
        have hjg : j ≠ g := fun hh => hndparts.2.2.1 (hh ▸ hj)
        have hjf : j ≠ f := fun hh => hndparts.2.2.2.2.1 (hh ▸ hj)
        have hjgg : j ≠ gg := fun hh => hggout (hh ▸ (by rw [hio]; simp [hj] :
          j ∈ (BTree.node A g (BTree.node B f C)).inorder))
        have hjb : j ≠ b ∨ b = MaxNodeCount w := by
          by_cases hbM : b = MaxNodeCount w
          · exact Or.inr hbM
          · exact Or.inl (fun hh => (hndparts.2.2.2.2.2.1 _ (hbinfo hbM)) (hh ▸ hj))
        rw [s7x j hjg hjf hjb hjgg]


theorem insertCaseLL_local (w r0 : Nat) (t : RBTree) (cur f g : Nat)
    (A B C : BTree) (F : Nat)
    (hg : toTree w t F g = some (BTree.node (BTree.node A f B) g C))
    (hnd : (BTree.node (BTree.node A f B) g C).inorder.Nodup)
    (hnM : ∀ j ∈ (BTree.node (BTree.node A f B) g C).inorder, j ≠ MaxNodeCount w)
    (hlenm : ∀ j ∈ (BTree.node (BTree.node A f B) g C).inorder, j < t.nodes.length)
    (hlenM : t.nodes.length ≤ MaxNodeCount w)
    (hggout : (getN t g).fatherIndex ∉ (BTree.node (BTree.node A f B) g C).inorder)
    (hgg : g ≠ r0 → (getN t g).fatherIndex < t.nodes.length) :
    toTree w (insertCaseLL w r0 t cur f g) (F + 1) f =
      some (BTree.node A f (BTree.node B g C)) ∧
    (∀ j, j ∉ (BTree.node (BTree.node A f B) g C).inorder →
      j ≠ (getN t g).fatherIndex →
      getN (insertCaseLL w r0 t cur f g) j = getN t j) ∧
    (∀ j, (getN (insertCaseLL w r0 t cur f g) j).key = (getN t j).key ∧
      (getN (insertCaseLL w r0 t cur f g) j).value = (getN t j).value) ∧
    (∀ j, j ∉ (BTree.node (BTree.node A f B) g C).inorder →
      (getN (insertCaseLL w r0 t cur f g) j).fatherIndex = (getN t j).fatherIndex) ∧
    (g = r0 →
      (∀ j, j ∉ (BTree.node (BTree.node A f B) g C).inorder →
        getN (insertCaseLL w r0 t cur f g) j = getN t j) ∧
      (insertCaseLL w r0 t cur f g).rootIndex = f) ∧
    (g ≠ r0 → (insertCaseLL w r0 t cur f g).rootIndex = t.rootIndex ∧
      ((getN t (getN t g).fatherIndex).leftIndex = g →
        (getN (insertCaseLL w r0 t cur f g) (getN t g).fatherIndex).leftIndex = f ∧
        (getN (insertCaseLL w r0 t cur f g) (getN t g).fatherIndex).rightIndex =
          (getN t (getN t g).fatherIndex).rightIndex) ∧
      ((getN t (getN t g).fatherIndex).leftIndex ≠ g →
        (getN (insertCaseLL w r0 t cur f g) (getN t g).fatherIndex).leftIndex =
          (getN t (getN t g).fatherIndex).leftIndex ∧
        (getN (insertCaseLL w r0 t cur f g) (getN t g).fatherIndex).rightIndex = f)) ∧
    (parentOkB t (BTree.node (BTree.node A f B) g C) ((getN t g).fatherIndex) = true →
      parentOkB (insertCaseLL w r0 t cur f g) (BTree.node A f (BTree.node B g C))
        ((getN t g).fatherIndex) = true) ∧
    ((insertCaseLL w r0 t cur f g).nodeCount = t.nodeCount ∧
      (insertCaseLL w r0 t cur f g).size = t.size ∧
      (insertCaseLL w r0 t cur f g).bitLength = t.bitLength ∧
      (insertCaseLL w r0 t cur f g).nodes.length = t.nodes.length) := by
  have hio : (BTree.node (BTree.node A f B) g C).inorder =
      (A.inorder ++ f :: B.inorder) ++ g :: C.inorder := rfl
  have hgmem : g ∈ (BTree.node (BTree.node A f B) g C).inorder := by rw [hio]; simp
  have hfmem : f ∈ (BTree.node (BTree.node A f B) g C).inorder := by rw [hio]; simp
  have hgM : g ≠ MaxNodeCount w := hnM g hgmem
  have hfM : f ≠ MaxNodeCount w := hnM f hfmem
  have hglen : g < t.nodes.length := hlenm g hgmem
  have hflen : f < t.nodes.length := hlenm f hfmem
  have hndparts : (∀ j ∈ A.inorder, j ≠ g ∧ j ≠ f ∧ j ∉ B.inorder ∧ j ∉ C.inorder) ∧
      g ∉ B.inorder ∧ g ∉ C.inorder ∧ f ∉ B.inorder ∧ f ∉ C.inorder ∧
      (∀ j ∈ B.inorder, j ∉ C.inorder) ∧
      B.inorder.Nodup ∧ C.inorder.Nodup := by
    have h2 := hnd
    rw [hio, List.nodup_append, List.nodup_append, List.nodup_cons, List.nodup_cons] at h2
    obtain ⟨⟨hAn, ⟨hfB, hBn⟩, hAfB⟩, ⟨hgC, hCn⟩, hLg⟩ := h2
    refine ⟨?_, ?_, ?_, hfB, ?_, ?_, hBn, hCn⟩
    · intro j hj
      refine ⟨?_, ?_, ?_, ?_⟩
      · intro hh
        exact hLg (List.mem_append_left _ hj) (by simp [hh])
      · exact fun hh => hAfB hj (by simp [hh])
      · exact fun hh => hAfB hj (by simp [hh])
      · intro hh
        exact hLg (List.mem_append_left _ hj) (List.mem_cons_of_mem g hh)
    · intro hh
      exact hLg (List.mem_append_right A.inorder (List.mem_cons_of_mem f hh))
        (List.mem_cons_self g C.inorder)
    · exact hgC
    · intro hh
      exact hLg (List.mem_append_right A.inorder (List.mem_cons_self f B.inorder))
        (List.mem_cons_of_mem g hh)
    · intro j hj hj2
      exact hLg (List.mem_append_right A.inorder (List.mem_cons_of_mem f hj))
        (List.mem_cons_of_mem g hj2)
  have hgf : g ≠ f := by
    have h2 := hnd
    rw [hio, List.nodup_append] at h2
    exact fun hh => h2.2.2 (List.mem_append_right A.inorder
      (List.mem_cons_self f B.inorder)) (by simp [hh])
  -- shape unfolding
  obtain ⟨l0, rr0, F2, hF2, heq, hL, hCr⟩ := toTree_node_shape w hg hgM
  simp only [BTree.node.injEq] at heq
  obtain ⟨heqL, -, heqC⟩ := heq
  subst heqL
  subst heqC
  have hlgne : (getN t g).leftIndex ≠ MaxNodeCount w := by
    intro hh
    have h2 := toTree_at_nil w t F2 (hh ▸ hL)
    cases h2
  obtain ⟨A0, B0, F3, hF3, heq2, hA, hB⟩ := toTree_node_shape w hL hlgne
  simp only [BTree.node.injEq] at heq2
  obtain ⟨heqA, heqf, heqB⟩ := heq2
  subst heqA
  subst heqB
  rw [← heqf] at hA hB
  have hF3pos : 1 ≤ F3 := by
    cases hhF : F3 with
    | zero => rw [hhF] at hA; simp [toTree] at hA
    | succ n2 => omega
  -- the inner child and the grandfather
  have hbinfo : (getN t f).rightIndex ≠ MaxNodeCount w →
      (getN t f).rightIndex ∈ B.inorder := by
    intro hbM
    obtain ⟨B1, B2, F4, _, hsh, _, _⟩ := toTree_node_shape w hB hbM
    rw [hsh]
    simp [BTree.inorder]
  have hbg : (getN t f).rightIndex ≠ MaxNodeCount w → (getN t f).rightIndex ≠ g := by
    intro hbM hh
    exact hndparts.2.1 (hh ▸ hbinfo hbM)
  have hbf : (getN t f).rightIndex ≠ MaxNodeCount w → (getN t f).rightIndex ≠ f := by
    intro hbM hh
    exact hndparts.2.2.2.1 (hh ▸ hbinfo hbM)
  have hbmemio : (getN t f).rightIndex ≠ MaxNodeCount w →
      (getN t f).rightIndex ∈ (BTree.node (BTree.node A f B) g C).inorder := by
    intro hbM
    rw [hio]
    simp [hbinfo hbM]
  have hblen : (getN t f).rightIndex ≠ MaxNodeCount w →
      (getN t f).rightIndex < t.nodes.length := by
    intro hbM
    exact hlenm _ (hbmemio hbM)
  have hggg : (getN t g).fatherIndex ≠ g :=
    fun hh => hggout (by rw [hh]; exact hgmem)
  have hggf : (getN t g).fatherIndex ≠ f :=
    fun hh => hggout (by rw [hh]; exact hfmem)
  have hggb : (getN t f).rightIndex ≠ MaxNodeCount w →
      (getN t g).fatherIndex ≠ (getN t f).rightIndex := by
    intro hbM hh
    exact hggout (by rw [hh]; exact hbmemio hbM)
  -- the write chain
  set b := (getN t f).rightIndex with hbdef
  set gg := (getN t g).fatherIndex with hggdef
  set t1 := setLeft t g b with he1
  set t2 := if (getN t1 g).leftIndex ≠ MaxNodeCount w then
      setFather t1 ((getN t1 g).leftIndex) g else t1 with he2
  set t3 := setRight t2 f g with he3
  set gg1 := (getN t3 g).fatherIndex with hgg1def
  set t4 := setFather t3 f gg1 with he4
  set t5 := setFather t4 g f with he5
  set t6 := if r0 = g then { t5 with rootIndex := f }
    else if (getN t5 gg1).leftIndex = g then setLeft t5 gg1 f
    else setRight t5 gg1 f with he6
  have hE : insertCaseLL w r0 t cur f g =
      setColor (setColor t6 f Color.Black) g Color.Red := rfl
  clear_value t6 t5 t4 t3 t2 t1
  have h1g : getN t1 g = { getN t g with leftIndex := b } := by
    rw [he1]
    exact getN_setLeft_self t g b hglen
  have h1ne : ∀ j, j ≠ g → getN t1 j = getN t j := fun j hj => by
    rw [he1]
    exact getN_setLeft_ne t g b j hj
  have hlen1 : t1.nodes.length = t.nodes.length := by rw [he1, setLeft_length]
  have hrt1 : (getN t1 g).leftIndex = b := by rw [h1g]
  have h2g : getN t2 g = getN t1 g := by
    rw [he2, hrt1]
    by_cases hbM : b = MaxNodeCount w
    · rw [if_neg (by simp [hbM])]
    · rw [if_pos hbM]
      exact getN_setFather_ne t1 b g g (fun hh => hbg hbM hh.symm)
  have h2ne : ∀ j, j ≠ g → (j ≠ b ∨ b = MaxNodeCount w) → getN t2 j = getN t j := by
    intro j hjg hjb
    rw [he2, hrt1]
    by_cases hbM : b = MaxNodeCount w
    · rw [if_neg (by simp [hbM])]
      exact h1ne j hjg
    · rw [if_pos hbM]
      rcases hjb with hjb | hjb
      · rw [getN_setFather_ne t1 b g j hjb]
        exact h1ne j hjg
      · exact absurd hjb hbM
  have h2b : b ≠ MaxNodeCount w → getN t2 b = { getN t b with fatherIndex := g } := by
    intro hbM
    rw [he2, hrt1, if_pos hbM]
    rw [getN_setFather_self t1 b g (by rw [hlen1]; exact hblen hbM)]
    rw [h1ne b (hbg hbM)]
  have hlen2 : t2.nodes.length = t.nodes.length := by
    rw [he2]
    split
    · rw [setFather_length, hlen1]
    · exact hlen1
  have h2f : getN t2 f = getN t f := by
    refine h2ne f (fun hh => hgf hh.symm) ?_
    by_cases hbM : b = MaxNodeCount w
    · exact Or.inr hbM
    · exact Or.inl (fun hh => hbf hbM hh.symm)
  have h3f : getN t3 f = { getN t f with rightIndex := g } := by
    rw [he3, getN_setRight_self t2 f g (by rw [hlen2]; exact hflen), h2f]
  have h3ne : ∀ j, j ≠ f → getN t3 j = getN t2 j := fun j hj => by
    rw [he3]
    exact getN_setRight_ne t2 f g j hj
  have hlen3 : t3.nodes.length = t.nodes.length := by
    rw [he3, setRight_length, hlen2]
  have hggv : gg1 = gg := by
    rw [hgg1def, h3ne g hgf, h2g, h1g]
  have h4f : getN t4 f = { getN t f with rightIndex := g, fatherIndex := gg } := by
    rw [he4, getN_setFather_self t3 f gg1 (by rw [hlen3]; exact hflen), h3f, hggv]
  have h4ne : ∀ j, j ≠ f → getN t4 j = getN t3 j := fun j hj => by
    rw [he4]
    exact getN_setFather_ne t3 f gg1 j hj
  have hlen4 : t4.nodes.length = t.nodes.length := by
    rw [he4, setFather_length, hlen3]
  have h5g : getN t5 g = { getN t g with leftIndex := b, fatherIndex := f } := by
    rw [he5, getN_setFather_self t4 g f (by rw [hlen4]; exact hglen),
      h4ne g hgf, h3ne g hgf, h2g, h1g]
  have h5ne : ∀ j, j ≠ g → getN t5 j = getN t4 j := fun j hj => by
    rw [he5]
    exact getN_setFather_ne t4 g f j hj
  have hlen5 : t5.nodes.length = t.nodes.length := by
    rw [he5, setFather_length, hlen4]
  have s5f : getN t5 f = { getN t f with rightIndex := g, fatherIndex := gg } := by
    rw [h5ne f (fun hh => hgf hh.symm), h4f]
  have s5b : b ≠ MaxNodeCount w → getN t5 b = { getN t b with fatherIndex := g } := by
    intro hbM
    rw [h5ne b (hbg hbM), h4ne b (hbf hbM), h3ne b (hbf hbM), h2b hbM]
  have s5x : ∀ j, j ≠ g → j ≠ f → (j ≠ b ∨ b = MaxNodeCount w) →
      getN t5 j = getN t j := by
    intro j h1 h2 h3
    rw [h5ne j h1, h4ne j h2, h3ne j h2]
    exact h2ne j h1 h3
  have hggbor : gg ≠ b ∨ b = MaxNodeCount w := by
    by_cases hbM : b = MaxNodeCount w
    · exact Or.inr hbM
    · exact Or.inl (hggb hbM)
  have s5gg : getN t5 gg = getN t gg := s5x gg hggg hggf hggbor
  have hroot1 : t1.rootIndex = t.rootIndex := by rw [he1, setLeft_rootIndex]
  have hroot2 : t2.rootIndex = t.rootIndex := by
    rw [he2]
    split
    · rw [setFather_rootIndex]
      exact hroot1
    · exact hroot1
  have hroot5 : t5.rootIndex = t.rootIndex := by
    have e5 : t5.rootIndex = t4.rootIndex := by rw [he5, setFather_rootIndex]
    have e4 : t4.rootIndex = t3.rootIndex := by rw [he4, setFather_rootIndex]
    have e3 : t3.rootIndex = t2.rootIndex := by rw [he3, setRight_rootIndex]
    rw [e5, e4, e3, hroot2]
  have hcount1 : t1.nodeCount = t.nodeCount := by rw [he1, setLeft_nodeCount]
  have hcount2 : t2.nodeCount = t.nodeCount := by
    rw [he2]
    split
    · rw [setFather_nodeCount]
      exact hcount1
    · exact hcount1
  have hcount5 : t5.nodeCount = t.nodeCount := by
    have e5 : t5.nodeCount = t4.nodeCount := by rw [he5, setFather_nodeCount]
    have e4 : t4.nodeCount = t3.nodeCount := by rw [he4, setFather_nodeCount]
    have e3 : t3.nodeCount = t2.nodeCount := by rw [he3, setRight_nodeCount]
    rw [e5, e4, e3, hcount2]
  have hsize1 : t1.size = t.size := by rw [he1, setLeft_size]
  have hsize2 : t2.size = t.size := by
    rw [he2]
    split
    · rw [setFather_size]
      exact hsize1
    · exact hsize1
  have hsize5 : t5.size = t.size := by
    have e5 : t5.size = t4.size := by rw [he5, setFather_size]
    have e4 : t4.size = t3.size := by rw [he4, setFather_size]
    have e3 : t3.size = t2.size := by rw [he3, setRight_size]
    rw [e5, e4, e3, hsize2]
  have hbit1 : t1.bitLength = t.bitLength := by rw [he1, setLeft_bitLength]
  have hbit2 : t2.bitLength = t.bitLength := by
    rw [he2]
    split
    · rw [setFather_bitLength]
      exact hbit1
    · exact hbit1
  have hbit5 : t5.bitLength = t.bitLength := by
    have e5 : t5.bitLength = t4.bitLength := by rw [he5, setFather_bitLength]
    have e4 : t4.bitLength = t3.bitLength := by rw [he4, setFather_bitLength]
    have e3 : t3.bitLength = t2.bitLength := by rw [he3, setRight_bitLength]
    rw [e5, e4, e3, hbit2]
  -- the grandfather update
  have u6ne : ∀ j, j ≠ gg → getN t6 j = getN t5 j := by
    intro j hj
    rw [he6]
    by_cases hr0 : g = r0
    · rw [if_pos hr0.symm]
      rfl
    · rw [if_neg (fun hh => hr0 hh.symm), hggv]
      split
      · exact getN_setLeft_ne t5 gg f j hj
      · exact getN_setRight_ne t5 gg f j hj
  have u6ggroot : g = r0 → getN t6 gg = getN t5 gg := by
    intro hr0
    rw [he6, if_pos hr0.symm]
    rfl
  have u6gg : g ≠ r0 →
      ((getN t gg).leftIndex = g → getN t6 gg = { getN t gg with leftIndex := f }) ∧
      ((getN t gg).leftIndex ≠ g → getN t6 gg = { getN t gg with rightIndex := f }) := by
    intro hr0
    have hgglen2 : gg < t5.nodes.length := by
      rw [hlen5]
      exact hgg hr0
    constructor
    · intro hside
      rw [he6, if_neg (fun hh => hr0 hh.symm), hggv, if_pos (by rw [s5gg]; exact hside)]
      rw [getN_setLeft_self t5 gg f hgglen2, s5gg]
    · intro hside
      rw [he6, if_neg (fun hh => hr0 hh.symm), hggv, if_neg (by rw [s5gg]; exact hside)]
      rw [getN_setRight_self t5 gg f hgglen2, s5gg]
  have u6root : t6.rootIndex = if g = r0 then f else t.rootIndex := by
    rw [he6]
    by_cases hr0 : g = r0
    · rw [if_pos hr0.symm, if_pos hr0]
    · rw [if_neg (fun hh => hr0 hh.symm), if_neg hr0]
      split
      · exact hroot5
      · exact hroot5
  have u6len : t6.nodes.length = t.nodes.length := by
    rw [he6]
    split
    · exact hlen5
    split
    · rw [setLeft_length, hlen5]
    · rw [setRight_length, hlen5]
  have u6count : t6.nodeCount = t.nodeCount := by
    rw [he6]
    split
    · exact hcount5
    split
    · exact hcount5
    · exact hcount5
  have u6size : t6.size = t.size := by
    rw [he6]
    split
    · exact hsize5
    split
    · exact hsize5
    · exact hsize5
  have u6bit : t6.bitLength = t.bitLength := by
    rw [he6]
    split
    · exact hbit5
    split
    · exact hbit5
    · exact hbit5
  have u6kvf : ∀ j, (getN t6 j).key = (getN t5 j).key ∧
      (getN t6 j).value = (getN t5 j).value ∧
      (getN t6 j).fatherIndex = (getN t5 j).fatherIndex := by
    intro j
    rw [he6]
    split
    · exact ⟨rfl, rfl, rfl⟩
    split
    · exact ⟨(getN_setLeft_frame t5 gg1 f j).2.2.2.1,
        (getN_setLeft_frame t5 gg1 f j).2.2.2.2, (getN_setLeft_frame t5 gg1 f j).1⟩
    · exact ⟨(getN_setRight_frame t5 gg1 f j).2.2.2.1,
        (getN_setRight_frame t5 gg1 f j).2.2.2.2, (getN_setRight_frame t5 gg1 f j).1⟩
  -- final per-slot states
  have s7 : ∀ j, getN (insertCaseLL w r0 t cur f g) j =
      if j = g then { getN t6 g with color := Color.Red }
      else if j = f then { getN t6 f with color := Color.Black }
      else getN t6 j := by
    intro j
    rw [hE]
    by_cases hjg : j = g
    · subst hjg
      rw [if_pos rfl]
      rw [getN_setColor_self _ j Color.Red (by rw [setColor_length, u6len]; exact hglen)]
      rw [getN_setColor_ne t6 f Color.Black j hgf]
    · rw [if_neg hjg, getN_setColor_ne _ g Color.Red j hjg]
      by_cases hjf : j = f
      · subst hjf
        rw [if_pos rfl]
        rw [getN_setColor_self t6 j Color.Black (by rw [u6len]; exact hflen)]
      · rw [if_neg hjf, getN_setColor_ne t6 f Color.Black j hjf]
  have s7g : getN (insertCaseLL w r0 t cur f g) g =
      { getN t g with leftIndex := b, fatherIndex := f, color := Color.Red } := by
    rw [s7 g, if_pos rfl, u6ne g (fun hh => hggg hh.symm), h5g]
  have s7f : getN (insertCaseLL w r0 t cur f g) f =
      { getN t f with rightIndex := g, fatherIndex := gg, color := Color.Black } := by
    rw [s7 f, if_neg (fun hh => hgf hh.symm), if_pos rfl,
      u6ne f (fun hh => hggf hh.symm), s5f]
  have s7b : b ≠ MaxNodeCount w → getN (insertCaseLL w r0 t cur f g) b =
      { getN t b with fatherIndex := g } := by
    intro hbM
    rw [s7 b, if_neg (hbg hbM), if_neg (hbf hbM),
      u6ne b (fun hh => hggb hbM hh.symm), s5b hbM]
  have s7x : ∀ j, j ≠ g → j ≠ f → (j ≠ b ∨ b = MaxNodeCount w) → j ≠ gg →
      getN (insertCaseLL w r0 t cur f g) j = getN t j := by
    intro j h1 h2 h3 h4
    rw [s7 j, if_neg h1, if_neg h2, u6ne j h4]
    exact s5x j h1 h2 h3
  have s7ggroot : g = r0 → getN (insertCaseLL w r0 t cur f g) gg = getN t gg := by
    intro hr0
    rw [s7 gg, if_neg hggg, if_neg hggf, u6ggroot hr0, s5gg]
  have s7ggn : g ≠ r0 →
      ((getN t gg).leftIndex = g → getN (insertCaseLL w r0 t cur f g) gg =
        { getN t gg with leftIndex := f }) ∧
      ((getN t gg).leftIndex ≠ g → getN (insertCaseLL w r0 t cur f g) gg =
        { getN t gg with rightIndex := f }) := by
    intro hr0
    constructor
    · intro hside
      rw [s7 gg, if_neg hggg, if_neg hggf, (u6gg hr0).1 hside]
    · intro hside
      rw [s7 gg, if_neg hggg, if_neg hggf, (u6gg hr0).2 hside]
  have hrootF : (insertCaseLL w r0 t cur f g).rootIndex =
      if g = r0 then f else t.rootIndex := by
    rw [hE]
    show t6.rootIndex = _
    exact u6root
  have hlenF : (insertCaseLL w r0 t cur f g).nodes.length = t.nodes.length := by
    rw [hE, setColor_length, setColor_length, u6len]
  have hcountF : (insertCaseLL w r0 t cur f g).nodeCount = t.nodeCount := by
    rw [hE]
    show t6.nodeCount = _
    exact u6count
  have hsizeF : (insertCaseLL w r0 t cur f g).size = t.size := by
    rw [hE]
    show t6.size = _
    exact u6size
  have hbitF : (insertCaseLL w r0 t cur f g).bitLength = t.bitLength := by
    rw [hE]
    show t6.bitLength = _
    exact u6bit
  have hkvF : ∀ j, (getN (insertCaseLL w r0 t cur f g) j).key = (getN t j).key ∧
      (getN (insertCaseLL w r0 t cur f g) j).value = (getN t j).value := by
    intro j
    have d2 : (getN t2 j).key = (getN t1 j).key ∧
        (getN t2 j).value = (getN t1 j).value := by
      rw [he2]
      split
      · exact ⟨(getN_setFather_frame t1 _ g j).2.2.2.1,
          (getN_setFather_frame t1 _ g j).2.2.2.2⟩
      · exact ⟨rfl, rfl⟩
    have c5 : (getN t5 j).key = (getN t j).key ∧
        (getN t5 j).value = (getN t j).value := by
      refine ⟨?_, ?_⟩
      · rw [he5, (getN_setFather_frame t4 g f j).2.2.2.1,
          he4, (getN_setFather_frame t3 f gg1 j).2.2.2.1,
          he3, (getN_setRight_frame t2 f g j).2.2.2.1,
          d2.1, he1, (getN_setLeft_frame t g b j).2.2.2.1]
      · rw [he5, (getN_setFather_frame t4 g f j).2.2.2.2,
          he4, (getN_setFather_frame t3 f gg1 j).2.2.2.2,
          he3, (getN_setRight_frame t2 f g j).2.2.2.2,
          d2.2, he1, (getN_setLeft_frame t g b j).2.2.2.2]
    have c7 : (getN (insertCaseLL w r0 t cur f g) j).key = (getN t6 j).key ∧
        (getN (insertCaseLL w r0 t cur f g) j).value = (getN t6 j).value := by
      rw [hE]
      refine ⟨?_, ?_⟩
      · rw [(getN_setColor_frame _ g Color.Red j).2.2.2.1,
          (getN_setColor_frame t6 f Color.Black j).2.2.2.1]
      · rw [(getN_setColor_frame _ g Color.Red j).2.2.2.2,
          (getN_setColor_frame t6 f Color.Black j).2.2.2.2]
    refine ⟨?_, ?_⟩
    · rw [c7.1, (u6kvf j).1, c5.1]
    · rw [c7.2, (u6kvf j).2.1, c5.2]
  have hfathF : ∀ j, j ≠ g → j ≠ f → (j ≠ b ∨ b = MaxNodeCount w) →
      (getN (insertCaseLL w r0 t cur f g) j).fatherIndex = (getN t j).fatherIndex := by
    intro j h1 h2 h3
    have c5 : (getN t5 j).fatherIndex = (getN t j).fatherIndex := by
      rw [s5x j h1 h2 h3]
    have c7 : (getN (insertCaseLL w r0 t cur f g) j).fatherIndex =
        (getN t6 j).fatherIndex := by
      rw [hE]
      rw [(getN_setColor_frame _ g Color.Red j).1,
        (getN_setColor_frame t6 f Color.Black j).1]
    rw [c7, (u6kvf j).2.2, c5]
  -- the rebuilt subtrees
  have hApres : toTree w (insertCaseLL w r0 t cur f g) F3 (getN t f).leftIndex =
      some A := by
    refine toTree_congr w F3 t _ _ A hA ?_
    intro j hj
    have hjf := (hndparts.1 j hj)
    have hjgg : j ≠ gg := fun hh => hggout (hh ▸ (by rw [hio]; simp [hj] :
      j ∈ (BTree.node (BTree.node A f B) g C).inorder))
    have hjb : j ≠ b ∨ b = MaxNodeCount w := by
      by_cases hbM : b = MaxNodeCount w
      · exact Or.inr hbM
      · exact Or.inl (fun hh => hjf.2.2.1 (hh ▸ hbinfo hbM))
    rw [s7x j hjf.1 hjf.2.1 hjb hjgg]
    exact ⟨rfl, rfl⟩
  have hBpres : toTree w (insertCaseLL w r0 t cur f g) F3 b = some B := by
    by_cases hbM : b = MaxNodeCount w
    · have hBnil : B = BTree.nil := toTree_at_nil w t F3 (hbM ▸ hB)
      subst hBnil
      rw [hbM]
      exact toTree_M w _ F3 hF3pos
    · refine toTree_congr w F3 t _ _ B hB ?_
      intro j hj
      have hjg : j ≠ g := fun hh => hndparts.2.1 (hh ▸ hj)
      have hjf : j ≠ f := fun hh => hndparts.2.2.2.1 (hh ▸ hj)
      have hjgg : j ≠ gg := fun hh => hggout (hh ▸ (by rw [hio]; simp [hj] :
        j ∈ (BTree.node (BTree.node A f B) g C).inorder))
      by_cases hjb : j = b
      · subst hjb
        rw [s7b hbM]
        exact ⟨rfl, rfl⟩
      · rw [s7x j hjg hjf (Or.inl hjb) hjgg]
        exact ⟨rfl, rfl⟩
  have hCpres : toTree w (insertCaseLL w r0 t cur f g) F2 (getN t g).rightIndex =
      some C := by
    refine toTree_congr w F2 t _ _ C hCr ?_
    intro j hj
    have hjg : j ≠ g := fun hh => hndparts.2.2.1 (hh ▸ hj)
    have hjf : j ≠ f := fun hh => hndparts.2.2.2.2.1 (hh ▸ hj)
    have hjgg : j ≠ gg := fun hh => hggout (hh ▸ (by rw [hio]; simp [hj] :
      j ∈ (BTree.node (BTree.node A f B) g C).inorder))
    have hjb : j ≠ b ∨ b = MaxNodeCount w := by
      by_cases hbM : b = MaxNodeCount w
      · exact Or.inr hbM
      · exact Or.inl (fun hh => (hndparts.2.2.2.2.2.1 _ (hbinfo hbM)) (hh ▸ hj))
    rw [s7x j hjg hjf hjb hjgg]
    exact ⟨rfl, rfl⟩
  refine ⟨?_, ?_, hkvF, ?_, ?_, ?_, ?_, ⟨hcountF, hsizeF, hbitF, hlenF⟩⟩
  · -- the rotated subtree
    have hgtree : toTree w (insertCaseLL w r0 t cur f g) (F3 + 2) g =
        some (BTree.node B g C) := by
      rw [show F3 + 2 = (F3 + 1) + 1 from rfl, toTree, if_neg hgM]
      have hgl : (getN (insertCaseLL w r0 t cur f g) g).leftIndex = b := by rw [s7g]
      have hgr : (getN (insertCaseLL w r0 t cur f g) g).rightIndex =
          (getN t g).rightIndex := by rw [s7g]
      rw [hgl, hgr]
      have hB2 : toTree w (insertCaseLL w r0 t cur f g) (F3 + 1) b = some B :=
        toTree_le_mono w (by omega) hBpres
      have hC2 : toTree w (insertCaseLL w r0 t cur f g) (F3 + 1) (getN t g).rightIndex =
          some C := by
        rw [← hF3]
        exact hCpres
      rw [hB2, hC2]
    have hA2 : toTree w (insertCaseLL w r0 t cur f g) (F3 + 2) (getN t f).leftIndex =
        some A := toTree_le_mono w (by omega) hApres
    rw [show F + 1 = (F3 + 2) + 1 from by omega]
    rw [toTree, if_neg hfM]
    have hfl : (getN (insertCaseLL w r0 t cur f g) f).leftIndex =
        (getN t f).leftIndex := by rw [s7f]
    have hfr : (getN (insertCaseLL w r0 t cur f g) f).rightIndex = g := by rw [s7f]
    rw [hfl, hfr, hA2, hgtree]
  · -- untouched slots
    intro j hjio hjgg
    have hjg : j ≠ g := fun hh => hjio (hh ▸ hgmem)
    have hjf : j ≠ f := fun hh => hjio (hh ▸ hfmem)
    have hjb : j ≠ b ∨ b = MaxNodeCount w := by
      by_cases hbM : b = MaxNodeCount w
      · exact Or.inr hbM
      · exact Or.inl (fun hh => hjio (hh ▸ hbmemio hbM))
    exact s7x j hjg hjf hjb hjgg
  · -- fathers outside
    intro j hjio
    have hjg : j ≠ g := fun hh => hjio (hh ▸ hgmem)
    have hjf : j ≠ f := fun hh => hjio (hh ▸ hfmem)
    have hjb : j ≠ b ∨ b = MaxNodeCount w := by
      by_cases hbM : b = MaxNodeCount w
      · exact Or.inr hbM
      · exact Or.inl (fun hh => hjio (hh ▸ hbmemio hbM))
    exact hfathF j hjg hjf hjb
  · -- the root-rotation branch
    intro hr0
    constructor
    · intro j hjio
      by_cases hjgg : j = gg
      · subst hjgg
        exact s7ggroot hr0
      · have hjg : j ≠ g := fun hh => hjio (hh ▸ hgmem)
        have hjf : j ≠ f := fun hh => hjio (hh ▸ hfmem)
        have hjb : j ≠ b ∨ b = MaxNodeCount w := by
          by_cases hbM : b = MaxNodeCount w
          · exact Or.inr hbM
          · exact Or.inl (fun hh => hjio (hh ▸ hbmemio hbM))
        exact s7x j hjg hjf hjb hjgg
    · rw [hrootF, if_pos hr0]
  · -- the non-root branch
    intro hr0
    refine ⟨by rw [hrootF, if_neg hr0], ?_, ?_⟩
    · intro hside
      rw [(s7ggn hr0).1 hside]
      exact ⟨rfl, rfl⟩
    · intro hside
      rw [(s7ggn hr0).2 hside]
      exact ⟨rfl, rfl⟩
  · -- father coherence of the rotated subtree
    intro hp
    rw [parentOkB_node] at hp
    obtain ⟨hp1, hp2, hp3⟩ := hp
    rw [parentOkB_node] at hp2
    obtain ⟨hp2f, hp2A, hp2B⟩ := hp2
    rw [parentOkB_node, parentOkB_node]
    refine ⟨by rw [s7f], ?_, ⟨by rw [s7g], ?_, ?_⟩⟩
    · -- A keeps its coherence under f
      rw [parentOkB_congr_mem t _ A f ?_]
      · exact hp2A
      · intro j hj
        have hjf := (hndparts.1 j hj)
        have hjgg : j ≠ gg := fun hh => hggout (hh ▸ (by rw [hio]; simp [hj] :
          j ∈ (BTree.node (BTree.node A f B) g C).inorder))
        have hjb : j ≠ b ∨ b = MaxNodeCount w := by
          by_cases hbM : b = MaxNodeCount w
          · exact Or.inr hbM
          · exact Or.inl (fun hh => hjf.2.2.1 (hh ▸ hbinfo hbM))
        rw [s7x j hjf.1 hjf.2.1 hjb hjgg]
    · -- B is re-hung below g
      by_cases hbM : b = MaxNodeCount w
      · have hBnil : B = BTree.nil := toTree_at_nil w t F3 (hbM ▸ hB)
        subst hBnil
        rfl
      · obtain ⟨B1, B2, F4, _, hsh, _, _⟩ := toTree_node_shape w hB hbM
        rw [hsh]
        rw [hsh, parentOkB_node] at hp2B
        rw [parentOkB_node]
        refine ⟨by rw [s7b hbM], ?_, ?_⟩
        · rw [parentOkB_congr_mem t _ B1 b ?_]
          · exact hp2B.2.1
          · intro j hj
            have hjB : j ∈ B.inorder := by
              rw [hsh]
              simp only [BTree.inorder]
              exact List.mem_append_left _ hj
            have hjg : j ≠ g := fun hh => hndparts.2.1 (hh ▸ hjB)
            have hjf : j ≠ f := fun hh => hndparts.2.2.2.1 (hh ▸ hjB)
            have hjgg : j ≠ gg := fun hh => hggout (hh ▸ (by rw [hio]; simp [hjB] :
              j ∈ (BTree.node (BTree.node A f B) g C).inorder))
            have hjb : j ≠ b := by
              intro hh
              subst hh
              have h2 := hndparts.2.2.2.2.2.2.1
              rw [hsh] at h2
              simp only [BTree.inorder, List.nodup_append, List.nodup_cons] at h2
              exact h2.2.2 hj (by simp)
            rw [s7x j hjg hjf (Or.inl hjb) hjgg]
        · rw [parentOkB_congr_mem t _ B2 b ?_]
          · exact hp2B.2.2
          · intro j hj
            have hjB : j ∈ B.inorder := by
              rw [hsh]
              simp only [BTree.inorder]
              exact List.mem_append_right _ (List.mem_cons_of_mem _ hj)
            have hjg : j ≠ g := fun hh => hndparts.2.1 (hh ▸ hjB)
            have hjf : j ≠ f := fun hh => hndparts.2.2.2.1 (hh ▸ hjB)
            have hjgg : j ≠ gg := fun hh => hggout (hh ▸ (by rw [hio]; simp [hjB] :
              j ∈ (BTree.node (BTree.node A f B) g C).inorder))
            have hjb : j ≠ b := by
              intro hh
              subst hh
              have h2 := hndparts.2.2.2.2.2.2.1
              rw [hsh] at h2
              simp only [BTree.inorder, List.nodup_append, List.nodup_cons] at h2
              exact (h2.2.1).1 hj
            rw [s7x j hjg hjf (Or.inl hjb) hjgg]
    · -- C keeps its coherence under g
      rw [parentOkB_congr_mem t _ C g ?_]
      · exact hp3
      · intro j hj
        have hjg : j ≠ g := fun hh => hndparts.2.2.1 (hh ▸ hj)
        have hjf : j ≠ f := fun hh => hndparts.2.2.2.2.1 (hh ▸ hj)
        have hjgg : j ≠ gg := fun hh => hggout (hh ▸ (by rw [hio]; simp [hj] :
          j ∈ (BTree.node (BTree.node A f B) g C).inorder))
        have hjb : j ≠ b ∨ b = MaxNodeCount w := by
          by_cases hbM : b = MaxNodeCount w
          · exact Or.inr hbM
          · exact Or.inl (fun hh => (hndparts.2.2.2.2.2.1 _ (hbinfo hbM)) (hh ▸ hj))
        rw [s7x j hjg hjf hjb hjgg]



end RBTreeArray
